import Mathlib

/-!
# File-system system calls (kernel/sysfile.c)

A shallow embedding of the system-call layer of `kernel/sysfile.c`: the
descriptor table (`argfd`, `fdalloc`, `sys_dup`), the access gate
(`accesscheck`, `getgid`), the full-path index (`register_fullpath_index`),
the path entity creator (`create`) and the calls built on it (`sys_open`,
`sys_mkdir`, `sys_unlink`).

Conventions of the embedding.

* A C string is the list of its bytes; reading past the end of the list reads
  the terminating NUL.
* Inode pointers are inode numbers, file pointers are indices into the file
  table, a null pointer is `none`.
* The system calls return `uint64`; the embedding returns the integer the
  caller observes, `-1` being the failure sentinel.
* Inode locks are not part of the state (one thread of execution); the one
  place where the calling thread would wait for a lock it holds itself is
  reported as `Result.deadlock`.
* `struct inode` is declared in file.h, which is not among the sources; its
  numeric fields are unbounded integers here.
-/

namespace Sysfile

/-! ## Constants of the headers -/

/-- Modelled from the spec: param.h is not among the sources; NOFILE is the
capacity of the per-process descriptor table. -/
def NOFILE : Nat := 16

/-- Modelled from the spec: param.h is not among the sources; NDEV bounds the
major device numbers. -/
def NDEV : Int := 10

/-- Modelled from the spec: param.h is not among the sources; NFILE is the
number of open-file objects of the pool. -/
def NFILE : Nat := 100

/-- Modelled from the spec: param.h is not among the sources; NINODES is the
number of inodes of the store. -/
def NINODES : Nat := 200

/-- Modelled from the spec: param.h is not among the sources; DIRSIZ is the
fixed length of the name field of a directory entry. -/
def DIRSIZ : Nat := 14

/-- Modelled from the spec: fs.h is not among the sources; inode number of the
root directory. -/
def ROOTINO : Nat := 1

/-- Modelled from the spec: stat.h is not among the sources; inode type
"directory". Type 0 is "unused". -/
def T_DIR : Int := 1

/-- Modelled from the spec: stat.h is not among the sources; inode type "file". -/
def T_FILE : Int := 2

/-- Modelled from the spec: stat.h is not among the sources; inode type
"device". -/
def T_DEVICE : Int := 3

/-- Modelled from the spec: fcntl.h is not among the sources; mode word
"read-only". -/
def O_RDONLY : Nat := 0x000

/-- Modelled from the spec: fcntl.h is not among the sources; mode word
"write-only". -/
def O_WRONLY : Nat := 0x001

/-- Modelled from the spec: fcntl.h is not among the sources; mode word
"read-write". -/
def O_RDWR : Nat := 0x002

/-- Modelled from the spec: fcntl.h is not among the sources; flag
"create-if-missing". -/
def O_CREATE : Nat := 0x200

/-- Modelled from the spec: fcntl.h is not among the sources; flag
"truncate-on-open". -/
def O_TRUNC : Nat := 0x400

/-- Modelled from the spec: file.h is not among the sources; kinds of open-file
object. -/
def FD_NONE : Nat := 0

/-- Modelled from the spec: file.h is not among the sources; pipe-backed kind. -/
def FD_PIPE : Nat := 1

/-- Modelled from the spec: file.h is not among the sources; inode-backed kind. -/
def FD_INODE : Nat := 2

/-- Modelled from the spec: file.h is not among the sources; device-backed
kind. -/
def FD_DEVICE : Nat := 3

/-- Modelled from the spec: fs.h is not among the sources; the size in bytes of
one directory entry, `sizeof(struct dirent)`. -/
def sizeof_de : Nat := 16

/-! ## Data model -/

/-- A C string: its bytes, the terminating NUL left implicit. -/
abbrev CStr := List (Fin 256)

/-- The string literal "/group". -/
def str_group : CStr := [47, 103, 114, 111, 117, 112]

/-- The string literal "/passwd". -/
def str_passwd : CStr := [47, 112, 97, 115, 115, 119, 100]

/-- The string literal ".". -/
def str_dot : CStr := [46]

/-- The string literal "..". -/
def str_dotdot : CStr := [46, 46]

/-- A directory entry: inode number (0 for a free slot) and name. -/
structure Dirent where
  inum : Nat
  name : CStr
deriving DecidableEq, Repr

/-- An inode with the fields the system calls read and write. The data of the
inode is kept as a sequence of directory-entry slots. -/
structure Inode where
  dev : Nat
  type : Int
  major : Int
  minor : Int
  nlink : Int
  owner : Nat
  permissions : Nat
  slots : List Dirent
deriving DecidableEq, Repr

/-- Field `size` of an inode: the byte length of its data. -/
def Inode.size (ip : Inode) : Nat := sizeof_de * ip.slots.length

/-- An open-file object (`struct file`). -/
structure File where
  type : Nat
  ref : Int
  readable : Bool
  writable : Bool
  ip : Option Nat
  off : Nat
  major : Int
deriving DecidableEq, Repr

/-- One bucket of the full-path index (`struct fullpath_entity`). -/
structure FullpathEntity where
  fullpath : CStr
  ip : Option Nat
deriving DecidableEq, Repr

/-- Events of the transaction envelope, of the inode store and of the
open-file pool, in the order the calls are made. -/
inductive Ev where
  | begin_op
  | end_op
  | ialloc (inum : Nat)
  | iupdate (inum : Nat)
  | writei (inum : Nat) (off : Nat)
  | itrunc (inum : Nat)
  | fileclose (f : Nat)
deriving DecidableEq, Repr

/-- The kernel state the system calls of this file act on: the inode store,
the calling process (descriptor table `ofile`, identity `uid`, working
directory `cwd`), the open-file pool, the full-path index and the record of
store calls. -/
structure State where
  inodes : Nat → Inode
  ofile : Nat → Option Nat
  files : Nat → File
  fullpath_index : Nat → FullpathEntity
  uid : Nat
  trace : List Ev
  cwd : Nat

/-- What the environment of one call decides: the build's reading of `char`,
path resolution (the path and the third argument of `nameiparent`), whether a
data write is accepted by the store, whether some other in-memory reference
to an inode exists, whether a copy to the user address at a byte offset
succeeds, and whether a page can be allocated. -/
structure Env where
  charSigned : Bool
  nameiparent : CStr → Int → Option (Nat × CStr)
  namei : CStr → Option Nat
  writei_ok : Nat → Nat → Bool
  held : Nat → Bool
  copyout_ok : Nat → Bool := fun _ => true
  kalloc_ok : Bool := true

/-- Outcome of a call: it returns with a new state and a value, or the kernel
halts in `panic` in the state reached, or the thread waits for a lock it
holds, or the embedding has no answer (an array indexed outside its bounds, a
loop out of fuel). -/
inductive Result (α : Type) where
  | ok (s : State) (ret : α)
  | panic (s : State) (msg : String)
  | deadlock
  | undefined

/-- The value a call returned, if it returned. -/
def Result.ret? {α : Type} : Result α → Option α
  | Result.ok _ r => some r
  | _ => none

/-- An observation `f` of the state a call returned in, if it returned. -/
def Result.view {α β : Type} (r : Result α) (f : State → β) : Option β :=
  match r with
  | Result.ok s _ => some (f s)
  | _ => none

/-- Whether a call halted the kernel. -/
def Result.panicked {α : Type} : Result α → Bool
  | Result.panic _ _ => true
  | _ => false

/-- Run a second call in the state the first one returned in. -/
def Result.andThen {α β : Type} (r : Result α) (k : State → α → Result β) : Result β :=
  match r with
  | Result.ok s a => k s a
  | Result.panic t m => Result.panic t m
  | Result.deadlock => Result.deadlock
  | Result.undefined => Result.undefined

/-! ## Descriptor table -/

/-- Translation of `argfd`: the descriptor and the file of argument `fd`, or
`none` for the return value -1. -/
def argfd (s : State) (fd : Int) : Option (Nat × Nat) :=
  if fd < 0 ∨ fd ≥ (NOFILE : Int) then none
  else
    match s.ofile fd.toNat with
    | none => none
    | some f => some (fd.toNat, f)

/-- The loop of `fdalloc` started at descriptor `fd` with `k = NOFILE - fd`
rounds left. -/
def fdallocFrom (s : State) (f : Nat) : Nat → Nat → State × Int
  | 0, _ => (s, -1)
  | k + 1, fd =>
    if s.ofile fd = none then
      ({ s with ofile := Function.update s.ofile fd (some f) }, (fd : Int))
    else fdallocFrom s f k (fd + 1)

/-- Translation of `fdalloc`. -/
def fdalloc (s : State) (f : Nat) : State × Int :=
  fdallocFrom s f NOFILE 0

/-- Modelled from the spec: filedup (kernel/file.c) is not among the sources;
it increments the reference count of the open-file object. -/
def filedup (s : State) (f : Nat) : State :=
  { s with files := Function.update s.files f { s.files f with ref := (s.files f).ref + 1 } }

/-- Translation of `sys_dup`; `a0` is the integer argument 0. -/
def sys_dup (s : State) (a0 : Int) : State × Int :=
  match argfd s a0 with
  | none => (s, -1)
  | some (_, f) =>
    match fdalloc s f with
    | (s1, fd) =>
      if fd < 0 then (s1, -1)
      else (filedup s1 f, fd)

/-! ## Access control gate -/

/-- Modelled from the spec: strncmp (kernel/string.c) is not among the sources;
the C library comparison of at most `n` bytes. -/
def strncmp : CStr → CStr → Nat → Int
  | _, _, 0 => 0
  | p, q, n + 1 =>
    if p.headD 0 ≠ 0 ∧ p.headD 0 = q.headD 0 then strncmp p.tail q.tail n
    else ((p.headD 0).val : Int) - ((q.headD 0).val : Int)

/-- Translation of `getgid`. -/
def getgid (uid : Nat) : Nat := uid

/-- Translation of `accesscheck`; `uid` is `myproc()->uid`. -/
def accesscheck (uid : Nat) (ip : Inode) (mode : Nat) (path : CStr) : Int :=
  let gid := getgid uid
  let owner := ip.owner
  if strncmp path str_group 6 = 0 ∨ strncmp path str_passwd 7 = 0 then 1
  else if owner = uid then
    if mode = O_RDONLY ∧ ip.permissions &&& 0o400 ≠ 0 then 1
    else if mode = O_WRONLY ∧ ip.permissions &&& 0o200 ≠ 0 then 1
    else if mode = O_RDWR ∧ ip.permissions &&& 0o600 ≠ 0 then 1
    else 0
  else if gid = getgid owner then
    if mode = O_RDONLY ∧ ip.permissions &&& 0o040 ≠ 0 then 1
    else if mode = O_WRONLY ∧ ip.permissions &&& 0o020 ≠ 0 then 1
    else if mode = O_RDWR ∧ ip.permissions &&& 0o060 ≠ 0 then 1
    else 0
  else
    if mode = O_RDONLY ∧ ip.permissions &&& 0o004 ≠ 0 then 1
    else if mode = O_WRONLY ∧ ip.permissions &&& 0o002 ≠ 0 then 1
    else if mode = O_RDWR ∧ ip.permissions &&& 0o006 ≠ 0 then 1
    else 0

/-! ## Inode store -/

/-- Replace inode `i` of the store. -/
def State.setInode (s : State) (i : Nat) (ip : Inode) : State :=
  { s with inodes := Function.update s.inodes i ip }

/-- Append one event to the record of store calls. -/
def State.log (s : State) (e : Ev) : State :=
  { s with trace := s.trace ++ [e] }

/-- Modelled from the spec: begin_op (kernel/log.c) is not among the sources;
opens the transaction bracket. -/
def begin_op (s : State) : State := s.log Ev.begin_op

/-- Modelled from the spec: end_op (kernel/log.c) is not among the sources;
closes the transaction bracket. -/
def end_op (s : State) : State := s.log Ev.end_op

/-- Modelled from the spec: iupdate (kernel/fs.c) is not among the sources;
persists the inode. The store has one level here, so only the call is
recorded. -/
def iupdate (s : State) (i : Nat) : State := s.log (Ev.iupdate i)

/-- Modelled from the spec: itrunc (kernel/fs.c) is not among the sources;
discards the data of the inode. -/
def itrunc (s : State) (i : Nat) : State :=
  (s.setInode i { s.inodes i with slots := [] }).log (Ev.itrunc i)

/-- Modelled from the spec: iput (kernel/fs.c) is not among the sources; drops
one in-memory reference and reclaims the inode (data discarded, type unused)
when its link-count is zero and no other reference is held. -/
def iput (s : State) (i : Nat) (held : Bool) : State :=
  if (s.inodes i).nlink = 0 ∧ held = false then
    let s1 := itrunc s i
    iupdate (s1.setInode i { s1.inodes i with type := 0 }) i
  else s

/-- Modelled from the spec: iunlockput (kernel/fs.c) is not among the sources;
unlock, then `iput`. -/
def iunlockput (env : Env) (s : State) (i : Nat) : State :=
  iput s i (env.held i)

/-- Modelled from the spec: namecmp (kernel/fs.c) is not among the sources;
compares two names over the fixed length of the name field. -/
def namecmp (s t : CStr) : Int := strncmp s t DIRSIZ

/-- Index of the first occupied slot whose name compares equal to `name`. -/
def lookupIdx (name : CStr) : List Dirent → Option Nat
  | [] => none
  | de :: rest =>
    if de.inum ≠ 0 ∧ namecmp name de.name = 0 then some 0
    else (lookupIdx name rest).map (· + 1)

/-- Modelled from the spec: dirlookup (kernel/fs.c) is not among the sources;
locates the named entry of a directory and returns its inode number and its
byte offset within the directory. -/
def dirlookup (dp : Inode) (name : CStr) : Option (Nat × Nat) :=
  match lookupIdx name dp.slots with
  | none => none
  | some i => some ((dp.slots.getD i ⟨0, []⟩).inum, sizeof_de * i)

/-- Index of the first free slot (inode number 0), or the number of slots. -/
def freeIdx : List Dirent → Nat
  | [] => 0
  | de :: rest => if de.inum = 0 then 0 else freeIdx rest + 1

/-- Store a directory entry at byte offset `off` of the data of an inode: the
slot is replaced, or appended when `off` is the end of the data. -/
def putSlot (ip : Inode) (off : Nat) (de : Dirent) : Inode :=
  if off / sizeof_de < ip.slots.length then
    { ip with slots := ip.slots.set (off / sizeof_de) de }
  else { ip with slots := ip.slots ++ [de] }

/-- Modelled from the spec: writei (kernel/fs.c) is not among the sources; an
accepted write of one directory entry at byte offset `off`. -/
def writei_dirent (s : State) (i : Nat) (off : Nat) (de : Dirent) : State :=
  (s.setInode i (putSlot (s.inodes i) off de)).log (Ev.writei i off)

/-- Modelled from the spec: readi (kernel/fs.c) is not among the sources; reads
one directory entry at byte offset `off`, `none` being a short read. -/
def readi_dirent (ip : Inode) (off : Nat) : Option Dirent :=
  if off + sizeof_de ≤ ip.size then ip.slots[off / sizeof_de]? else none

/-- Modelled from the spec: dirlink (kernel/fs.c) is not among the sources;
inserts the entry (name, inum) into directory `dp`. Fails with -1 when the
name is present or the store does not accept the write. -/
def dirlink (env : Env) (s : State) (dp : Nat) (name : CStr) (inum : Nat) : State × Int :=
  match dirlookup (s.inodes dp) name with
  | some _ => (s, -1)
  | none =>
    let off := sizeof_de * freeIdx (s.inodes dp).slots
    if env.writei_ok dp off = true then (writei_dirent s dp off ⟨inum, name⟩, 0)
    else (s, -1)

/-- Modelled from the spec: ialloc (kernel/fs.c) is not among the sources;
allocates the lowest-numbered unused inode, zeroed, with the requested type. -/
def ialloc (s : State) (dev : Nat) (type : Int) : State × Option Nat :=
  match (List.range NINODES).find? (fun i => decide (1 ≤ i ∧ (s.inodes i).type = 0)) with
  | none => (s, none)
  | some i => ((s.setInode i ⟨dev, type, 0, 0, 0, 0, 0, []⟩).log (Ev.ialloc i), some i)

/-- Outcome of a directory scan. -/
inductive Scan where
  | ret (v : Int)
  | panic (msg : String)
  | fuel
deriving DecidableEq, Repr

/-- The loop of `isdirempty` at byte offset `off`, with `k` rounds of fuel. -/
def isdiremptyFrom (dp : Inode) : Nat → Nat → Scan
  | 0, off => if off < dp.size then Scan.fuel else Scan.ret 1
  | k + 1, off =>
    if off < dp.size then
      match readi_dirent dp off with
      | none => Scan.panic "isdirempty: readi"
      | some de =>
        if de.inum ≠ 0 then Scan.ret 0
        else isdiremptyFrom dp k (off + sizeof_de)
    else Scan.ret 1

/-- Translation of `isdirempty`; one round of fuel per slot of the directory. -/
def isdirempty (dp : Inode) : Scan :=
  isdiremptyFrom dp dp.slots.length (2 * sizeof_de)

/-! ## Full-path index -/

/-- Value of a `char` as the build reads it. -/
def charVal (signed : Bool) (c : Fin 256) : Int :=
  if signed = true ∧ 128 ≤ c.val then (c.val : Int) - 256 else (c.val : Int)

/-- The summing loop of `register_fullpath_index`. Paths are bounded by
MAXPATH, so the `int` accumulator does not overflow. -/
def pathSum (signed : Bool) : CStr → Int → Int
  | [], sum => sum
  | c :: rest, sum => if c = 0 then sum else pathSum signed rest (sum + charVal signed c)

/-- Modelled from the spec: strcpy (kernel/string.c) is not among the sources;
the bytes copied, up to the terminating NUL. -/
def strcpy (src : CStr) : CStr := src.takeWhile (fun c => decide (c ≠ 0))

/-- Number of entries of the table, from the declaration
`extern struct fullpath_entity fullpath_index[100]`. -/
def FULLPATH_ENTRIES : Nat := 100

/-- Translation of `register_fullpath_index`. The table has FULLPATH_ENTRIES
entries; an access at an index outside 0..FULLPATH_ENTRIES-1 is outside the
table and has no defined outcome. -/
def register_fullpath_index (env : Env) (s : State) (path : CStr) (ip : Nat) : Result Unit :=
  let sum := pathSum env.charSigned path 0
  if sum = 0 then Result.panic s "register_fullpath_index: sum is 0"
  else
    let hash := Int.tmod sum 100
    if hash < 0 ∨ (FULLPATH_ENTRIES : Int) ≤ hash then Result.undefined
    else if (s.fullpath_index hash.toNat).fullpath.headD 0 ≠ 0 then
      Result.panic s "register_fullpath_index: fullpath is not empty"
    else if (s.fullpath_index hash.toNat).ip ≠ none then
      Result.panic s "register_fullpath_index: ip is not empty"
    else
      let h := hash.toNat
      let e1 : FullpathEntity := { s.fullpath_index h with fullpath := strcpy path }
      let s1 : State := { s with fullpath_index := Function.update s.fullpath_index h e1 }
      let s2 := s1.setInode ip { s1.inodes ip with type := T_DIR }
      let e2 : FullpathEntity := { s2.fullpath_index h with ip := some ip }
      Result.ok { s2 with fullpath_index := Function.update s2.fullpath_index h e2 } ()

/-! ## Path entity creator -/

/-- The `fail:` exit of `create`. The inode was allocated by this call, so no
other reference to it is held. -/
def create_fail (env : Env) (s : State) (dp ip : Nat) : Result (Option Nat) :=
  let s1 := s.setInode ip { s.inodes ip with nlink := 0 }
  let s2 := iupdate s1 ip
  let s3 := iput s2 ip false
  let s4 := iunlockput env s3 dp
  Result.ok s4 none

/-- The block of `create` that writes the entries "." and ".." of a new
directory; `false` stands for `goto fail`. -/
def create_dots (env : Env) (s : State) (type : Int) (dp ip : Nat) : State × Bool :=
  if type = T_DIR then
    match dirlink env s ip str_dot ip with
    | (s1, r) =>
      if r < 0 then (s1, false)
      else
        match dirlink env s1 ip str_dotdot dp with
        | (s2, r') => (s2, decide (¬ r' < 0))
  else (s, true)

/-- The end of `create`, from linking the new inode into its parent on. -/
def create_link (env : Env) (s : State) (path : CStr) (type : Int) (dp : Nat) (name : CStr)
    (ip : Nat) : Result (Option Nat) :=
  match dirlink env s dp name ip with
  | (s1, r) =>
    if r < 0 then create_fail env s1 dp ip
    else
      let s2 :=
        if type = T_DIR then
          iupdate (s1.setInode dp { s1.inodes dp with nlink := (s1.inodes dp).nlink + 1 }) dp
        else s1
      let s3 := iunlockput env s2 dp
      match register_fullpath_index env s3 path ip with
      | Result.ok s4 _ => Result.ok s4 (some ip)
      | Result.panic t m => Result.panic t m
      | Result.deadlock => Result.deadlock
      | Result.undefined => Result.undefined

/-- Translation of `create`. -/
def create (env : Env) (s : State) (path : CStr) (type major minor : Int) (_flag : Int) :
    Result (Option Nat) :=
  match env.nameiparent path 1 with
  | none => Result.ok s none
  | some (dp, name) =>
    match dirlookup (s.inodes dp) name with
    | some (ip, _) =>
      let s1 := iunlockput env s dp
      if type = T_FILE ∧ ((s1.inodes ip).type = T_FILE ∨ (s1.inodes ip).type = T_DEVICE) then
        Result.ok s1 (some ip)
      else Result.ok (iunlockput env s1 ip) none
    | none =>
      match ialloc s (s.inodes dp).dev type with
      | (s1, none) => Result.ok (iunlockput env s1 dp) none
      | (s1, some ip) =>
        let s2 := s1.setInode ip { s1.inodes ip with major := major, minor := minor, nlink := 1 }
        let s3 := iupdate s2 ip
        match create_dots env s3 type dp ip with
        | (s4, false) => create_fail env s4 dp ip
        | (s4, true) => create_link env s4 path type dp name ip

/-- Translation of `sys_mkdir`; `path` is `none` when `argstr` fails. -/
def sys_mkdir (env : Env) (s : State) (path : Option CStr) : Result Int :=
  let s0 := begin_op s
  match path with
  | none => Result.ok (end_op s0) (-1)
  | some p =>
    match create env s0 p T_DIR 0 0 1 with
    | Result.ok s1 none => Result.ok (end_op s1) (-1)
    | Result.ok s1 (some ip) => Result.ok (end_op (iunlockput env s1 ip)) 0
    | Result.panic t m => Result.panic t m
    | Result.deadlock => Result.deadlock
    | Result.undefined => Result.undefined

/-! ## Unlink -/

/-- The `bad:` exit of `sys_unlink`. -/
def unlink_bad (env : Env) (s : State) (dp : Nat) : Result Int :=
  Result.ok (end_op (iunlockput env s dp)) (-1)

/-- Translation of `sys_unlink`; `path` is `none` when `argstr` fails. The
inode `ip` is locked while `dp` is locked: were they the same inode the thread
would wait for itself. -/
def sys_unlink (env : Env) (s : State) (path : Option CStr) : Result Int :=
  match path with
  | none => Result.ok s (-1)
  | some p =>
    let s0 := begin_op s
    match env.nameiparent p 0 with
    | none => Result.ok (end_op s0) (-1)
    | some (dp, name) =>
      if namecmp name str_dot = 0 ∨ namecmp name str_dotdot = 0 then unlink_bad env s0 dp
      else
        match dirlookup (s0.inodes dp) name with
        | none => unlink_bad env s0 dp
        | some (ip, off) =>
          if ip = dp then Result.deadlock
          else if (s0.inodes ip).nlink < 1 then Result.panic s0 "unlink: nlink < 1"
          else
            match (if (s0.inodes ip).type = T_DIR then isdirempty (s0.inodes ip) else Scan.ret 1) with
            | Scan.panic m => Result.panic s0 m
            | Scan.fuel => Result.undefined
            | Scan.ret e =>
              if (s0.inodes ip).type = T_DIR ∧ e = 0 then
                unlink_bad env (iunlockput env s0 ip) dp
              else if env.writei_ok dp off = false then Result.panic s0 "unlink: writei"
              else
                let s1 := writei_dirent s0 dp off ⟨0, []⟩
                let s2 :=
                  if (s1.inodes ip).type = T_DIR then
                    iupdate (s1.setInode dp { s1.inodes dp with nlink := (s1.inodes dp).nlink - 1 }) dp
                  else s1
                let s3 := iunlockput env s2 dp
                let s4 := s3.setInode ip { s3.inodes ip with nlink := (s3.inodes ip).nlink - 1 }
                let s5 := iupdate s4 ip
                let s6 := iunlockput env s5 ip
                Result.ok (end_op s6) 0

/-! ## Open -/

/-- Modelled from the spec: filealloc (kernel/file.c) is not among the sources;
takes the first open-file object of the pool whose reference count is zero and
gives it one reference. -/
def filealloc (s : State) : State × Option Nat :=
  match (List.range NFILE).find? (fun f => decide ((s.files f).ref = 0)) with
  | none => (s, none)
  | some f =>
    ({ s with files := Function.update s.files f { s.files f with ref := 1 } }, some f)

/-- Modelled from the spec: fileclose (kernel/file.c) is not among the sources;
drops one reference of the open-file object and, at zero, retires the object
and releases the inode of an inode-backed or device-backed object. -/
def fileclose (env : Env) (s0 : State) (f : Nat) : State :=
  let s := s0.log (Ev.fileclose f)
  let ff := s.files f
  if ff.ref - 1 > 0 then
    { s with files := Function.update s.files f { ff with ref := ff.ref - 1 } }
  else
    let s1 : State :=
      { s with files := Function.update s.files f { ff with ref := 0, type := FD_NONE } }
    if ff.type = FD_INODE ∨ ff.type = FD_DEVICE then
      match ff.ip with
      | none => s1
      | some i => end_op (iput (begin_op s1) i (env.held i))
    else s1

/-- The part of `sys_open` after the inode `ip` is obtained and locked. -/
def open_inode (env : Env) (s : State) (path : CStr) (omode : Nat) (ip : Nat) : Result Int :=
  if accesscheck s.uid (s.inodes ip) omode path = 0 then
    Result.ok (end_op (iunlockput env s ip)) (-1)
  else if (s.inodes ip).type = T_DEVICE ∧ ((s.inodes ip).major < 0 ∨ (s.inodes ip).major ≥ NDEV) then
    Result.ok (end_op (iunlockput env s ip)) (-1)
  else
    match filealloc s with
    | (s1, none) => Result.ok (end_op (iunlockput env s1 ip)) (-1)
    | (s1, some f) =>
      match fdalloc s1 f with
      | (s2, fd) =>
        if fd < 0 then
          Result.ok (end_op (iunlockput env (fileclose env s2 f) ip)) (-1)
        else
          let f0 := s2.files f
          let f1 : File :=
            if (s2.inodes ip).type = T_DEVICE then
              { f0 with type := FD_DEVICE, major := (s2.inodes ip).major }
            else { f0 with type := FD_INODE, off := 0 }
          let f2 : File :=
            { f1 with
              ip := some ip
              readable := decide (omode &&& O_WRONLY = 0)
              writable := decide (omode &&& O_WRONLY ≠ 0 ∨ omode &&& O_RDWR ≠ 0) }
          let s3 : State := { s2 with files := Function.update s2.files f f2 }
          let s4 :=
            if omode &&& O_TRUNC ≠ 0 ∧ (s3.inodes ip).type = T_FILE then itrunc s3 ip
            else s3
          Result.ok (end_op s4) fd

/-- Translation of `sys_open`; `path` is `none` when `argstr` fails, `omode`
is the bit pattern of the integer argument 1. -/
def sys_open (env : Env) (s : State) (path : Option CStr) (omode : Nat) : Result Int :=
  match path with
  | none => Result.ok s (-1)
  | some p =>
    let s0 := begin_op s
    if omode &&& O_CREATE ≠ 0 then
      match create env s0 p T_FILE 0 0 0 with
      | Result.ok s1 none => Result.ok (end_op s1) (-1)
      | Result.ok s1 (some ip) => open_inode env s1 p omode ip
      | Result.panic t m => Result.panic t m
      | Result.deadlock => Result.deadlock
      | Result.undefined => Result.undefined
    else
      match env.namei p with
      | none => Result.ok (end_op s0) (-1)
      | some ip =>
        if (s0.inodes ip).type = T_DIR ∧ omode ≠ O_RDONLY then
          Result.ok (end_op (iunlockput env s0 ip)) (-1)
        else open_inode env s0 p omode ip

/-! ## Sample states -/

/-- The unused inode. -/
def Inode.unused : Inode := ⟨0, 0, 0, 0, 0, 0, 0, []⟩

/-- A store holding only a root directory with its two mandatory entries and
link-count `n`. -/
def rootOnly (n : Int) : State where
  inodes := fun i =>
    if i = ROOTINO then ⟨1, T_DIR, 0, 0, n, 0, 0o755, [⟨ROOTINO, str_dot⟩, ⟨ROOTINO, str_dotdot⟩]⟩
    else Inode.unused
  ofile := fun _ => none
  files := fun _ => ⟨FD_NONE, 0, false, false, none, 0, 0⟩
  fullpath_index := fun _ => ⟨[], none⟩
  uid := 0
  trace := []
  cwd := ROOTINO

/-- An environment for absolute paths of one component: "/name" resolves to
the entry `name` of the root directory. It accepts every write and knows of no
other references. -/
def envRoot : Env where
  charSigned := false
  nameiparent := fun path _ => some (ROOTINO, path.tail)
  namei := fun _ => none
  writei_ok := fun _ _ => true
  held := fun _ => false

/-- The path "/a". -/
def path_a : CStr := [47, 97]

/-- The path "/bc"; its bytes sum to 244, those of "/a" to 144. -/
def path_bc : CStr := [47, 98, 99]

/-! ## The permission classes as the specification words them -/

/-- The three permission classes. -/
inductive PermClass where
  | owner
  | group
  | other
deriving DecidableEq, Repr

/-- The class the specification applies to a caller: the owner triad when the
caller is the owner of the inode, else the group triad when the caller's group
is the owner's group, else the other triad. -/
def applicableClass (uid : Nat) (ip : Inode) : PermClass :=
  if uid = ip.owner then PermClass.owner
  else if getgid uid = getgid ip.owner then PermClass.group
  else PermClass.other

/-- Read bit of a class within the 9-bit permission field. -/
def readBit : PermClass → Nat
  | PermClass.owner => 0o400
  | PermClass.group => 0o040
  | PermClass.other => 0o004

/-- Write bit of a class within the 9-bit permission field. -/
def writeBit : PermClass → Nat
  | PermClass.owner => 0o200
  | PermClass.group => 0o020
  | PermClass.other => 0o002

/-- A plain file owned by `owner` with permission bits `perm`. -/
def fileOf (owner perm : Nat) : Inode := ⟨1, T_FILE, 0, 0, 1, owner, perm, []⟩

/-! ## The directory tree and its link counts -/

/-- A name is one of the two names `sys_unlink` refuses, "." and "..". -/
def isDotName (n : CStr) : Prop := namecmp n str_dot = 0 ∨ namecmp n str_dotdot = 0

instance (n : CStr) : Decidable (isDotName n) := by
  unfold isDotName
  infer_instance

/-- Entry `e` gives inode `x` a name: it is occupied, refers to `x`, and is
neither "." nor "..". -/
def namingB (x : Nat) (e : Dirent) : Bool :=
  decide (e.inum = x ∧ x ≠ 0 ∧ ¬ isDotName e.name)

/-- Entry `e` is an occupied entry "." . -/
def dotB (e : Dirent) : Bool := decide (e.inum ≠ 0 ∧ namecmp e.name str_dot = 0)

/-- Entry `e` is an occupied entry "..". -/
def dotdotB (e : Dirent) : Bool := decide (e.inum ≠ 0 ∧ namecmp e.name str_dotdot = 0)

/-- Entry `e` names a child subdirectory: it is occupied, is neither "." nor
"..", and refers to an inode of type directory. -/
def childB (σ : Nat → Inode) (e : Dirent) : Bool :=
  decide (e.inum ≠ 0 ∧ ¬ isDotName e.name ∧ (σ e.inum).type = T_DIR)

/-- Number of child subdirectories of inode `d`. -/
def children (σ : Nat → Inode) (d : Nat) : Nat := (σ d).slots.countP (childB σ)

/-- Directory `p` holds an entry that names `x`. -/
def Names (σ : Nat → Inode) (p x : Nat) : Prop :=
  (σ p).type = T_DIR ∧ ∃ e ∈ (σ p).slots, e.inum = x ∧ x ≠ 0 ∧ ¬ isDotName e.name

/-- Inode `x` is linked into the tree: it is the root or some directory names
it. -/
def Linked (σ : Nat → Inode) (x : Nat) : Prop := x = ROOTINO ∨ ∃ p, Names σ p x

/-- The link-count rule of the code: a linked directory counts 1 for its own
name (the root: 1 from the start) and 1 for the ".." of each child
subdirectory; its own "." is not counted. -/
def DirLinkRule (σ : Nat → Inode) : Prop :=
  ∀ x, Linked σ x → (σ x).type = T_DIR → (σ x).nlink = 1 + (children σ x : Int)

/-- The link-count rule as the specification words it: 2 plus the number of
child subdirectories, for every directory. -/
def SpecDirLinkRule (σ : Nat → Inode) : Prop :=
  ∀ x, (σ x).type = T_DIR → (σ x).nlink = 2 + (children σ x : Int)

/-- A consistent store: inode number 0 is unused (it marks a free slot); the
root is a directory that no entry names; every
directory holds "." and ".."; entries name only inodes in use; a directory has
at most one name; a named inode that is not a directory has a nonzero
link-count; and linked directories obey the link-count rule of the code. -/
structure Consistent (σ : Nat → Inode) : Prop where
  zeroFree : (σ 0).type = 0
  rootDir : (σ ROOTINO).type = T_DIR
  rootUnnamed : ∀ p, ¬ Names σ p ROOTINO
  dots : ∀ d, (σ d).type = T_DIR →
    0 < (σ d).slots.countP dotB ∧ 0 < (σ d).slots.countP dotdotB
  namedLive : ∀ p x, Names σ p x → (σ x).type ≠ 0
  oneParent : ∀ p q x, (σ x).type = T_DIR → Names σ p x → Names σ q x → p = q
  oneEntry : ∀ p x, (σ x).type = T_DIR → (σ p).type = T_DIR →
    (σ p).slots.countP (namingB x) ≤ 1
  fileLinks : ∀ p x, Names σ p x → (σ x).type ≠ T_DIR → (σ x).nlink ≠ 0
  dirLinks : DirLinkRule σ

/-- Path resolution hands out directories only. -/
def ResolvesDirs (env : Env) (s : State) : Prop :=
  ∀ path flag dp name, env.nameiparent path flag = some (dp, name) → (s.inodes dp).type = T_DIR

/-- The entry a path of `sys_unlink` resolves to, if any, is a directory. -/
def TargetIsDir (env : Env) (s : State) (path : CStr) : Prop :=
  ∀ dp name ip off, env.nameiparent path 0 = some (dp, name) →
    dirlookup (s.inodes dp) name = some (ip, off) → (s.inodes ip).type = T_DIR

/-- One returning call of `sys_mkdir`, or one returning call of `sys_unlink`
on a directory. -/
inductive Step : State → State → Prop where
  | mkdir (env : Env) (s s' : State) (path : Option CStr) (r : Int) :
      ResolvesDirs env s → sys_mkdir env s path = Result.ok s' r → Step s s'
  | rmdir (env : Env) (s s' : State) (path : CStr) (r : Int) :
      ResolvesDirs env s → TargetIsDir env s path →
      sys_unlink env s (some path) = Result.ok s' r → Step s s'

/-- States reachable by returning calls of mkdir and unlink of directories. -/
inductive Reachable (s0 : State) : State → Prop where
  | start : Reachable s0 s0
  | next (s s' : State) : Reachable s0 s → Step s s' → Reachable s0 s'

/-- What `iput` does to the store. -/
def iputσ (σ : Nat → Inode) (i : Nat) (h : Bool) : Nat → Inode :=
  if (σ i).nlink = 0 ∧ h = false then Function.update σ i { σ i with slots := [], type := 0 }
  else σ

/-- The inode of a directory created by `create`, before it is linked into
its parent. -/
def newDir (dev : Nat) (major minor : Int) (i dp : Nat) : Inode :=
  ⟨dev, T_DIR, major, minor, 1, 0, 0, [⟨i, str_dot⟩, ⟨dp, str_dotdot⟩]⟩

/-- The state a call returned in, or `dflt` if it did not return. -/
def Result.stateOr {α : Type} (r : Result α) (dflt : State) : State :=
  match r with
  | Result.ok s _ => s
  | _ => dflt

/-- The state after `mkdir("/a")` in a store holding only the root directory
with link-count `n`. -/
def rootWithA (n : Int) : State :=
  (sys_mkdir envRoot (rootOnly n) (some path_a)).stateOr (rootOnly n)

/-- A store holding a root directory whose entry "group" is the device inode 2
with major number `major`, owned by the caller, with permission bits 0666. -/
def rootWithDevice (major : Int) : State where
  inodes := fun i =>
    if i = ROOTINO then
      ⟨1, T_DIR, 0, 0, 1, 0, 0o755,
        [⟨ROOTINO, str_dot⟩, ⟨ROOTINO, str_dotdot⟩, ⟨2, str_group.tail⟩]⟩
    else if i = 2 then ⟨1, T_DEVICE, major, 0, 1, 0, 0o666, []⟩
    else Inode.unused
  ofile := fun _ => none
  files := fun _ => ⟨FD_NONE, 0, false, false, none, 0, 0⟩
  fullpath_index := fun _ => ⟨[], none⟩
  uid := 0
  trace := []
  cwd := ROOTINO

/-- The environment `envRoot`, except that every inode is referenced from
elsewhere (an open file, a working directory), so `iput` reclaims nothing. -/
def envRootHeld : Env := { envRoot with held := fun _ => true }

/-! ## Link, mknod, chdir, pipe -/

/-- Modelled from the spec: param.h is not among the sources; MAXPATH bounds
the length of a path argument. -/
def MAXPATH : Nat := 128

/-- The `bad:` exit of `sys_link`. -/
def link_bad (env : Env) (s : State) (ip : Nat) : Result Int :=
  let s1 := s.setInode ip { s.inodes ip with nlink := (s.inodes ip).nlink - 1 }
  let s2 := iupdate s1 ip
  let s3 := iunlockput env s2 ip
  Result.ok (end_op s3) (-1)

/-- Translation of `sys_link`; an argument is `none` when its `argstr` fails. -/
def sys_link (env : Env) (s : State) (old new : Option CStr) : Result Int :=
  match old, new with
  | some o, some n =>
    let s0 := begin_op s
    match env.namei o with
    | none => Result.ok (end_op s0) (-1)
    | some ip =>
      if (s0.inodes ip).type = T_DIR then Result.ok (end_op (iunlockput env s0 ip)) (-1)
      else
        let s1 := iupdate (s0.setInode ip { s0.inodes ip with nlink := (s0.inodes ip).nlink + 1 }) ip
        match env.nameiparent n 0 with
        | none => link_bad env s1 ip
        | some (dp, name) =>
          if (s1.inodes dp).dev ≠ (s1.inodes ip).dev then link_bad env (iunlockput env s1 dp) ip
          else
            match dirlink env s1 dp name ip with
            | (s2, r) =>
              if r < 0 then link_bad env (iunlockput env s2 dp) ip
              else Result.ok (end_op (iput (iunlockput env s2 dp) ip (env.held ip))) 0
  | _, _ => Result.ok s (-1)

/-- Conversion of an `int` argument to the `short` parameter of `create`. -/
def toShort (x : Int) : Int := (x + 32768) % 65536 - 32768

/-- Translation of `sys_mknod`; `path` is `none` when `argstr` fails. -/
def sys_mknod (env : Env) (s : State) (path : Option CStr) (major minor : Int) : Result Int :=
  let s0 := begin_op s
  match path with
  | none => Result.ok (end_op s0) (-1)
  | some p =>
    match create env s0 p T_DEVICE (toShort major) (toShort minor) 0 with
    | Result.ok s1 none => Result.ok (end_op s1) (-1)
    | Result.ok s1 (some ip) => Result.ok (end_op (iunlockput env s1 ip)) 0
    | Result.panic t m => Result.panic t m
    | Result.deadlock => Result.deadlock
    | Result.undefined => Result.undefined

/-- Translation of `sys_chdir`; `path` is `none` when `argstr` fails. -/
def sys_chdir (env : Env) (s : State) (path : Option CStr) : Result Int :=
  let s0 := begin_op s
  match path with
  | none => Result.ok (end_op s0) (-1)
  | some p =>
    match env.namei p with
    | none => Result.ok (end_op s0) (-1)
    | some ip =>
      if (s0.inodes ip).type ≠ T_DIR then Result.ok (end_op (iunlockput env s0 ip)) (-1)
      else
        let s1 := iput s0 s0.cwd (env.held s0.cwd)
        let s2 := end_op s1
        Result.ok { s2 with cwd := ip } 0

/-- Modelled from the spec: pipealloc (kernel/pipe.c) is not among the sources;
allocates two open-file objects and links them as the read end and the write
end of a new pipe, or releases what it took and fails. -/
def pipealloc (env : Env) (s : State) : State × Option (Nat × Nat) :=
  match filealloc s with
  | (s1, none) => (s1, none)
  | (s1, some f0) =>
    match filealloc s1 with
    | (s2, none) => (fileclose env s2 f0, none)
    | (s2, some f1) =>
      if env.kalloc_ok = false then (fileclose env (fileclose env s2 f0) f1, none)
      else
        let r0 : File := { s2.files f0 with type := FD_PIPE, readable := true, writable := false }
        let s3 : State := { s2 with files := Function.update s2.files f0 r0 }
        let w1 : File := { s3.files f1 with type := FD_PIPE, readable := false, writable := true }
        let s4 : State := { s3 with files := Function.update s3.files f1 w1 }
        (s4, some (f0, f1))

/-- Clear slot `fd` of the descriptor table, `p->ofile[fd] = 0`. -/
def clearfd (s : State) (fd : Int) : State :=
  { s with ofile := Function.update s.ofile fd.toNat none }

/-- Translation of `sys_pipe`. The value is the return value together with the
two descriptors copied out to the caller on success. -/
def sys_pipe (env : Env) (s : State) : Result (Int × Option (Int × Int)) :=
  match pipealloc env s with
  | (s1, none) => Result.ok s1 (-1, none)
  | (s1, some (rf, wf)) =>
    match fdalloc s1 rf with
    | (s2, fd0) =>
      if fd0 < 0 then Result.ok (fileclose env (fileclose env s2 rf) wf) (-1, none)
      else
        match fdalloc s2 wf with
        | (s3, fd1) =>
          if fd1 < 0 then
            Result.ok (fileclose env (fileclose env (clearfd s3 fd0) rf) wf) (-1, none)
          else if env.copyout_ok 0 = false ∨ env.copyout_ok 4 = false then
            Result.ok (fileclose env (fileclose env (clearfd (clearfd s3 fd0) fd1) rf) wf)
              (-1, none)
          else Result.ok s3 (0, some (fd0, fd1))

/-! ## Observations of halted calls, traces, further samples -/

/-- An observation `f` of the state a call halted in, if it halted in `panic`. -/
def Result.haltView {α β : Type} (r : Result α) (f : State → β) : Option β :=
  match r with
  | Result.panic t _ => some (f t)
  | _ => none

/-- The message a call halted with, if it halted in `panic`. -/
def Result.panicMsg? {α : Type} : Result α → Option String
  | Result.panic _ m => some m
  | _ => none

/-- Whether the embedding has no answer for a call. -/
def Result.isUndefined {α : Type} : Result α → Bool
  | Result.undefined => true
  | _ => false

/-- The sum of the bytes of a path, as the specification words the checksum. -/
def byteSum (path : CStr) : Nat := (path.map Fin.val).sum

/-- A stretch of the record without transaction brackets. -/
def Inner (t : List Ev) : Prop := ∀ e ∈ t, e ≠ Ev.begin_op ∧ e ≠ Ev.end_op

/-- State `s'` is state `s` with events other than brackets added to the
record and the same open-file pool. -/
def Grows (s s' : State) : Prop :=
  s'.files = s.files ∧ ∃ m, s'.trace = s.trace ++ m ∧ Inner m

/-- What a returning call did: nothing at all, or it added to the record one
`begin_op`, then events other than brackets, then one `end_op`. Every call
that changes the store is recorded, so every change of the store lies between
the two. -/
def BracketAdded (s s' : State) : Prop :=
  s' = s ∨ ∃ m, s'.trace = s.trace ++ Ev.begin_op :: (m ++ [Ev.end_op]) ∧ Inner m

/-- The events a call added to the record. -/
def added (s s' : State) : List Ev := s'.trace.drop s.trace.length

/-- Free open-file objects are retired: a reference count of zero comes with
kind FD_NONE (the pool starts zeroed and `fileclose` retires at zero). -/
def PoolRetired (s : State) : Prop := ∀ f, (s.files f).ref = 0 → (s.files f).type = FD_NONE

/-- A store holding a root directory whose entry "a" is the plain file inode
2, owned by the caller, with link-count `n`. -/
def rootWithFile (n : Int) : State where
  inodes := fun i =>
    if i = ROOTINO then
      ⟨1, T_DIR, 0, 0, 1, 0, 0o755,
        [⟨ROOTINO, str_dot⟩, ⟨ROOTINO, str_dotdot⟩, ⟨2, path_a.tail⟩]⟩
    else if i = 2 then ⟨1, T_FILE, 0, 0, n, 0, 0o644, []⟩
    else Inode.unused
  ofile := fun _ => none
  files := fun _ => ⟨FD_NONE, 0, false, false, none, 0, 0⟩
  fullpath_index := fun _ => ⟨[], none⟩
  uid := 0
  trace := []
  cwd := ROOTINO

/-- The environment `envRoot` with every path resolving to inode 2. -/
def envFile : Env := { envRoot with namei := fun _ => some 2 }

/-- The environment `envFile` in which no parent directory resolves. -/
def envNoParent : Env := { envFile with nameiparent := fun _ _ => none }

/-- The environment `envRoot` with `char` read as signed. -/
def envSigned : Env := { envRoot with charSigned := true }

/-- The environment `envRoot` in which the copy of the second descriptor to
the caller fails. -/
def envCopyFails : Env := { envRoot with copyout_ok := fun off => decide (off = 0) }


/-- The two calls `open(path, O_CREATE|O_RDWR)` and `unlink(path)`, one after
the other, every inode being referenced from elsewhere (the root as a working
directory, the file through its descriptor). -/
def openUnlink (s : State) (path : CStr) : Result Int :=
  (sys_open envRootHeld s (some path) (O_CREATE ||| O_RDWR)).andThen
    (fun s1 _ => sys_unlink envRootHeld s1 (some path))

/-- The three causes of failure the specification names for `sys_pipe` once
the pipe pair is allocated: no empty descriptor for the read end, an empty
descriptor for the read end but none for the write end, or the copy of either
descriptor to the caller fails. -/
def PipeFailure (env : Env) (s : State) : Prop :=
  (∀ i, i < NOFILE → s.ofile i ≠ none) ∨
    (∃ i, i < NOFILE ∧ s.ofile i = none ∧ ∀ j, j < NOFILE → j ≠ i → s.ofile j ≠ none) ∨
    (env.copyout_ok 0 = false ∨ env.copyout_ok 4 = false)
/-! ## Theorems: strings -/

theorem strncmp_eq_zero_iff_prefix (pre : CStr) (hpre : ∀ c ∈ pre, c ≠ 0) (path : CStr) :
    strncmp path pre pre.length = 0 ↔ pre <+: path := by
  induction pre generalizing path with
  | nil => simp [strncmp]
  | cons b pre ih =>
    have hb : b ≠ 0 := hpre b (by simp)
    have hpre' : ∀ c ∈ pre, c ≠ 0 := fun c hc => hpre c (by simp [hc])
    have hbv : (b.val : Int) ≠ 0 := by
      intro h
      apply hb
      apply Fin.ext
      simpa using h
    cases path with
    | nil =>
      simp only [List.length_cons, strncmp, List.headD_nil, List.headD_cons]
      simp
      intro h
      omega
    | cons a path =>
      simp only [List.length_cons, strncmp, List.headD_cons, List.tail_cons]
      by_cases h : a = b
      · subst h
        simp [hb, ih hpre' path, List.cons_prefix_cons]
      · have hne : ((a.val : Int)) - (b.val : Int) ≠ 0 := by
          intro h0
          apply h
          apply Fin.ext
          omega
        simp only [h, and_false, if_false, hne, List.cons_prefix_cons, false_iff]
        exact fun hh => h hh.1.symm

theorem strncmp_group (path : CStr) : strncmp path str_group 6 = 0 ↔ str_group <+: path := by
  have h := strncmp_eq_zero_iff_prefix str_group (by simp [str_group]) path
  simpa [str_group] using h

theorem strncmp_passwd (path : CStr) : strncmp path str_passwd 7 = 0 ↔ str_passwd <+: path := by
  have h := strncmp_eq_zero_iff_prefix str_passwd (by simp [str_passwd]) path
  simpa [str_passwd] using h

/-! ## Theorems: access control gate -/

/-- C8: whatever the inode (owner, permission bits), the caller and the
requested mode, `accesscheck` grants access when the path begins with
"/group" or with "/passwd". -/
theorem accesscheck_reserved_prefix (uid : Nat) (ip : Inode) (mode : Nat) (path : CStr)
    (h : str_group <+: path ∨ str_passwd <+: path) :
    accesscheck uid ip mode path = 1 := by
  unfold accesscheck
  simp only [strncmp_group, strncmp_passwd]
  simp [h]

theorem accesscheck_reserved_prefix_witness :
    (str_group <+: (str_group ++ [47, 120]) ∨ str_passwd <+: (str_group ++ [47, 120])) ∧
      accesscheck 7 (fileOf 3 0) O_RDWR (str_group ++ [47, 120]) = 1 :=
  ⟨Or.inl (List.prefix_append _ _),
    accesscheck_reserved_prefix 7 (fileOf 3 0) O_RDWR (str_group ++ [47, 120])
      (Or.inl (List.prefix_append _ _))⟩

/-- C7: off the reserved prefixes, a read-only request is granted exactly when
the read bit of the applicable class is set and a write-only request exactly
when its write bit is set; an owner holding only the read bit is denied
write-only, and a caller that is neither owner nor in the owner's group and
holds only the other-read bit is granted read-only. -/
theorem accesscheck_read_write (uid : Nat) (ip : Inode) (path : CStr)
    (hg : ¬ str_group <+: path) (hp : ¬ str_passwd <+: path) :
    (accesscheck uid ip O_RDONLY path = 1 ↔
        ip.permissions &&& readBit (applicableClass uid ip) ≠ 0) ∧
      (accesscheck uid ip O_WRONLY path = 1 ↔
        ip.permissions &&& writeBit (applicableClass uid ip) ≠ 0) ∧
      (ip.owner = uid → ip.permissions = 0o400 → accesscheck uid ip O_WRONLY path = 0) ∧
      (ip.owner ≠ uid → getgid uid ≠ getgid ip.owner → ip.permissions = 0o004 →
        accesscheck uid ip O_RDONLY path = 1) := by
  unfold accesscheck applicableClass
  simp only [strncmp_group, strncmp_passwd, hg, hp, or_self, if_false]
  refine ⟨?_, ?_, ?_, ?_⟩
  · by_cases h1 : ip.owner = uid
    · simp [h1, readBit, O_RDONLY, O_WRONLY, O_RDWR]
    · have h2 : ¬ uid = ip.owner := fun h => h1 h.symm
      by_cases h3 : getgid uid = getgid ip.owner
      · simp [h1, h2, h3, readBit, O_RDONLY, O_WRONLY, O_RDWR]
      · simp [h1, h2, h3, readBit, O_RDONLY, O_WRONLY, O_RDWR]
  · by_cases h1 : ip.owner = uid
    · simp [h1, writeBit, O_RDONLY, O_WRONLY, O_RDWR]
    · have h2 : ¬ uid = ip.owner := fun h => h1 h.symm
      by_cases h3 : getgid uid = getgid ip.owner
      · simp [h1, h2, h3, writeBit, O_RDONLY, O_WRONLY, O_RDWR]
      · simp [h1, h2, h3, writeBit, O_RDONLY, O_WRONLY, O_RDWR]
  · intro h1 h2
    have hb : (256 : Nat) &&& 128 = 0 := by decide
    simp [h1, h2, hb, O_RDONLY, O_WRONLY, O_RDWR]
  · intro h1 h2 h3
    have hb : (4 : Nat) &&& 4 = 4 := by decide
    simp [h1, h2, h3, hb, O_RDONLY]

theorem accesscheck_read_write_witness :
    (accesscheck 5 (fileOf 3 0o004) O_RDONLY path_a = 1 ↔
        (fileOf 3 0o004).permissions &&& readBit (applicableClass 5 (fileOf 3 0o004)) ≠ 0) ∧
      (accesscheck 5 (fileOf 3 0o004) O_WRONLY path_a = 1 ↔
        (fileOf 3 0o004).permissions &&& writeBit (applicableClass 5 (fileOf 3 0o004)) ≠ 0) ∧
      ((fileOf 3 0o004).owner = 5 → (fileOf 3 0o004).permissions = 0o400 →
        accesscheck 5 (fileOf 3 0o004) O_WRONLY path_a = 0) ∧
      ((fileOf 3 0o004).owner ≠ 5 → getgid 5 ≠ getgid (fileOf 3 0o004).owner →
        (fileOf 3 0o004).permissions = 0o004 →
        accesscheck 5 (fileOf 3 0o004) O_RDONLY path_a = 1) :=
  accesscheck_read_write 5 (fileOf 3 0o004) path_a (by decide) (by decide)

/-- C1: the owner of a file whose permission bits are 0400 (read bit set,
write bit clear) asks for read-write on a path off the reserved prefixes, and
`accesscheck` grants it. -/
theorem accesscheck_rdwr_read_only_owner :
    ¬ str_group <+: path_a ∧ ¬ str_passwd <+: path_a ∧
      (fileOf 1 0o400).permissions &&& 0o400 ≠ 0 ∧
      (fileOf 1 0o400).permissions &&& 0o200 = 0 ∧
      accesscheck 1 (fileOf 1 0o400) O_RDWR path_a = 1 := by
  decide

/-! ## Theorems: descriptor table -/

theorem fdallocFrom_full (s : State) (f : Nat) (k fd : Nat)
    (h : ∀ j, fd ≤ j → j < fd + k → s.ofile j ≠ none) :
    fdallocFrom s f k fd = (s, -1) := by
  induction k generalizing fd with
  | zero => rfl
  | succ k ih =>
    have h0 : s.ofile fd ≠ none := h fd (le_refl _) (by omega)
    simp only [fdallocFrom, h0, if_false]
    exact ih (fd + 1) (fun j h1 h2 => h j (by omega) (by omega))

theorem fdallocFrom_first (s : State) (f : Nat) (k fd i : Nat)
    (hlo : fd ≤ i) (hhi : i < fd + k) (hi : s.ofile i = none)
    (hmin : ∀ j, fd ≤ j → j < i → s.ofile j ≠ none) :
    fdallocFrom s f k fd =
      ({ s with ofile := Function.update s.ofile i (some f) }, (i : Int)) := by
  induction k generalizing fd with
  | zero => omega
  | succ k ih =>
    by_cases hfd : fd = i
    · subst hfd
      simp [fdallocFrom, hi]
    · have h0 : s.ofile fd ≠ none := hmin fd (le_refl _) (by omega)
      simp only [fdallocFrom, h0, if_false]
      exact ih (fd + 1) (by omega) (by omega) (fun j h1 h2 => hmin j (by omega) h2)

theorem exists_first_empty (ofile : Nat → Option Nat) (n : Nat)
    (h : ∃ i, i < n ∧ ofile i = none) :
    ∃ i, i < n ∧ ofile i = none ∧ ∀ j, j < i → ofile j ≠ none := by
  classical
  obtain ⟨i, hi⟩ := h
  have hex : ∃ i, i < n ∧ ofile i = none := ⟨i, hi⟩
  refine ⟨Nat.find hex, (Nat.find_spec hex).1, (Nat.find_spec hex).2, ?_⟩
  intro j hj hnone
  exact Nat.find_min hex hj ⟨lt_trans hj (Nat.find_spec hex).1, hnone⟩

/-- The two outcomes of `fdalloc`: the first empty slot is bound, or the table is
full and nothing changes. -/
theorem fdalloc_cases (s : State) (f : Nat) :
    ((∃ i, i < NOFILE ∧ s.ofile i = none) →
        ∃ i, i < NOFILE ∧ s.ofile i = none ∧ (∀ j, j < i → s.ofile j ≠ none) ∧
          (fdalloc s f).2 = (i : Int) ∧
          (fdalloc s f).1.ofile i = some f ∧
          (∀ j, j ≠ i → (fdalloc s f).1.ofile j = s.ofile j) ∧
          (fdalloc s f).1 = { s with ofile := Function.update s.ofile i (some f) }) ∧
      ((∀ i, i < NOFILE → s.ofile i ≠ none) →
        (fdalloc s f).2 = -1 ∧ (fdalloc s f).1 = s) := by
  constructor
  · intro h
    obtain ⟨i, hlt, hi, hmin⟩ := exists_first_empty s.ofile NOFILE h
    have hr := fdallocFrom_first s f NOFILE 0 i (Nat.zero_le _) (by omega) hi
      (fun j _ h2 => hmin j h2)
    refine ⟨i, hlt, hi, hmin, ?_, ?_, ?_, ?_⟩
    · simp [fdalloc, hr]
    · simp [fdalloc, hr]
    · intro j hj
      simp [fdalloc, hr, Function.update, hj]
    · simp [fdalloc, hr]
  · intro h
    have hr := fdallocFrom_full s f NOFILE 0 (fun j _ h2 => h j (by omega))
    simp [fdalloc, hr]

/-- C9: on a table with an empty slot `fdalloc f` returns the smallest index
below NOFILE whose slot is empty, binds that slot to `f` and changes nothing
else; on a table without an empty slot it returns -1 and changes nothing. -/
theorem fdalloc_first_empty_or_fail (s : State) (f : Nat) :
    ((∃ i, i < NOFILE ∧ s.ofile i = none) →
        ∃ i, i < NOFILE ∧ s.ofile i = none ∧ (∀ j, j < i → s.ofile j ≠ none) ∧
          (fdalloc s f).2 = (i : Int) ∧
          (fdalloc s f).1.ofile i = some f ∧
          (∀ j, j ≠ i → (fdalloc s f).1.ofile j = s.ofile j) ∧
          (fdalloc s f).1 = { s with ofile := Function.update s.ofile i (some f) }) ∧
      ((∀ i, i < NOFILE → s.ofile i ≠ none) →
        (fdalloc s f).2 = -1 ∧ (fdalloc s f).1 = s) :=
  fdalloc_cases s f

/-- C10: `sys_dup n` returns -1 exactly when `n` is outside 0..NOFILE-1, or
slot `n` is empty, or no slot is empty, and then the state (descriptor table
and reference counts) is unchanged; otherwise it returns a descriptor `m`
different from `n`, a slot that was empty and now holds the file of slot `n`,
every other slot (slot `n` included) is unchanged, the reference count of that
file is one more than before and no other file object changes. -/
theorem sys_dup_spec (s : State) (n : Int) :
    ((sys_dup s n).2 = -1 ↔
        (n < 0 ∨ n ≥ (NOFILE : Int) ∨ s.ofile n.toNat = none ∨
          ∀ i, i < NOFILE → s.ofile i ≠ none)) ∧
      ((sys_dup s n).2 = -1 → (sys_dup s n).1 = s) ∧
      ((sys_dup s n).2 ≠ -1 →
        ∃ m f : Nat, (sys_dup s n).2 = (m : Int) ∧ m < NOFILE ∧ (m : Int) ≠ n ∧
          s.ofile n.toNat = some f ∧ s.ofile m = none ∧
          (sys_dup s n).1.ofile m = some f ∧
          (sys_dup s n).1.ofile n.toNat = some f ∧
          (∀ j, j ≠ m → (sys_dup s n).1.ofile j = s.ofile j) ∧
          ((sys_dup s n).1.files f).ref = (s.files f).ref + 1 ∧
          (∀ g, g ≠ f → (sys_dup s n).1.files g = s.files g)) := by
  by_cases hn : n < 0 ∨ n ≥ (NOFILE : Int)
  · have h1 : sys_dup s n = (s, -1) := by simp [sys_dup, argfd, hn]
    rw [h1]
    rcases hn with hn | hn
    · simp [hn]
    · simp [hn]
  · have hn0 : ¬ n < 0 := fun h => hn (Or.inl h)
    have hn1 : ¬ n ≥ (NOFILE : Int) := fun h => hn (Or.inr h)
    cases hf : s.ofile n.toNat with
    | none =>
      have h1 : sys_dup s n = (s, -1) := by simp [sys_dup, argfd, hn, hf]
      rw [h1]
      simp
    | some f =>
      have hfd := fdalloc_cases s f
      by_cases hfull : ∀ i, i < NOFILE → s.ofile i ≠ none
      · obtain ⟨hr, hst⟩ := hfd.2 hfull
        have h1 : sys_dup s n = (s, -1) := by
          have : fdalloc s f = (s, -1) := Prod.ext hst hr
          simp [sys_dup, argfd, hn, hf, this]
        rw [h1]
        simp only [true_iff, ne_eq, not_true_eq_false, false_implies, and_true, implies_true]
        exact Or.inr (Or.inr (Or.inr hfull))
      · have hex : ∃ i, i < NOFILE ∧ s.ofile i = none := by
          by_contra hcon
          apply hfull
          intro i hi hnone
          exact hcon ⟨i, hi, hnone⟩
        obtain ⟨m, hm, hmnone, _, hret, _, _, hst⟩ := hfd.1 hex
        have hpair : fdalloc s f = ({ s with ofile := Function.update s.ofile m (some f) }, (m : Int)) :=
          Prod.ext hst hret
        have hmn : (m : Int) ≠ n := by
          intro h
          have : n.toNat = m := by omega
          rw [this] at hf
          rw [hf] at hmnone
          cases hmnone
        have hmn' : n.toNat ≠ m := by
          intro h
          rw [h] at hf
          rw [hf] at hmnone
          cases hmnone
        have h1 : sys_dup s n =
            (filedup { s with ofile := Function.update s.ofile m (some f) } f, (m : Int)) := by
          have hm0 : ¬ ((m : Int) < 0) := by omega
          simp [sys_dup, argfd, hn, hf, hpair]
        rw [h1]
        refine ⟨?_, ?_, ?_⟩
        · constructor
          · intro h
            simp only at h
            omega
          · intro h
            rcases h with h | h | h | h
            · exact absurd h hn0
            · exact absurd h hn1
            · simp [hf] at h
            · exact absurd h hfull
        · intro h
          simp only at h
          omega
        · intro _
          refine ⟨m, f, rfl, hm, hmn, rfl, hmnone, ?_, ?_, ?_, ?_, ?_⟩
          · simp [filedup]
          · simp [filedup, Function.update, hmn', hf]
          · intro j hj
            simp [filedup, Function.update, hj]
          · simp [filedup]
          · intro g hg
            simp [filedup, Function.update, hg]

/-! ## Theorems: the inode store under the helpers -/

@[simp] theorem setInode_inodes (s : State) (i : Nat) (ip : Inode) :
    (s.setInode i ip).inodes = Function.update s.inodes i ip := rfl

@[simp] theorem log_inodes (s : State) (e : Ev) : (s.log e).inodes = s.inodes := rfl

@[simp] theorem begin_op_inodes (s : State) : (begin_op s).inodes = s.inodes := rfl

@[simp] theorem end_op_inodes (s : State) : (end_op s).inodes = s.inodes := rfl

@[simp] theorem iupdate_inodes (s : State) (i : Nat) : (iupdate s i).inodes = s.inodes := rfl

/-- The inode `iput` leaves behind when it reclaims. -/
theorem iput_inodes (s : State) (i : Nat) (h : Bool) :
    (iput s i h).inodes =
      if (s.inodes i).nlink = 0 ∧ h = false then
        Function.update s.inodes i { s.inodes i with slots := [], type := 0 }
      else s.inodes := by
  unfold iput
  split
  · simp [itrunc]
  · rfl

theorem iput_nlink (s : State) (i : Nat) (h : Bool) (j : Nat) :
    ((iput s i h).inodes j).nlink = (s.inodes j).nlink := by
  rw [iput_inodes]
  split
  · by_cases hj : j = i
    · subst hj
      simp
    · simp [Function.update, hj]
  · rfl

theorem writei_dirent_inodes (s : State) (i off : Nat) (de : Dirent) :
    (writei_dirent s i off de).inodes = Function.update s.inodes i (putSlot (s.inodes i) off de) := rfl

@[simp] theorem putSlot_nlink (ip : Inode) (off : Nat) (de : Dirent) :
    (putSlot ip off de).nlink = ip.nlink := by
  unfold putSlot
  split <;> rfl

@[simp] theorem putSlot_type (ip : Inode) (off : Nat) (de : Dirent) :
    (putSlot ip off de).type = ip.type := by
  unfold putSlot
  split <;> rfl

/-- What `dirlink` does to the store: nothing when it fails, one slot of `dp`
written when it succeeds. -/
theorem dirlink_cases (env : Env) (s : State) (dp : Nat) (name : CStr) (inum : Nat) :
    (dirlink env s dp name inum = (s, -1)) ∨
      (dirlookup (s.inodes dp) name = none ∧
        env.writei_ok dp (sizeof_de * freeIdx (s.inodes dp).slots) = true ∧
        dirlink env s dp name inum =
          (writei_dirent s dp (sizeof_de * freeIdx (s.inodes dp).slots) ⟨inum, name⟩, 0)) := by
  unfold dirlink
  cases h : dirlookup (s.inodes dp) name with
  | some p => exact Or.inl rfl
  | none =>
    by_cases hw : env.writei_ok dp (sizeof_de * freeIdx (s.inodes dp).slots) = true
    · right
      simp [hw]
    · left
      simp [hw]

theorem dirlink_nlink (env : Env) (s : State) (dp : Nat) (name : CStr) (inum j : Nat) :
    (((dirlink env s dp name inum).1).inodes j).nlink = (s.inodes j).nlink := by
  rcases dirlink_cases env s dp name inum with h | ⟨_, _, h⟩
  · rw [h]
  · rw [h]
    simp only [writei_dirent_inodes]
    by_cases hj : j = dp
    · subst hj
      simp
    · simp [Function.update, hj]

/-- What `ialloc` returns: an inode number from 1 on whose inode was unused,
now zeroed with the requested type. -/
theorem ialloc_some (s s1 : State) (dev : Nat) (type : Int) (i : Nat)
    (h : ialloc s dev type = (s1, some i)) :
    1 ≤ i ∧ (s.inodes i).type = 0 ∧
      s1.inodes = Function.update s.inodes i ⟨dev, type, 0, 0, 0, 0, 0, []⟩ := by
  unfold ialloc at h
  split at h
  · simp at h
  · rename_i k hk
    have hfound := List.find?_some hk
    simp only [Prod.mk.injEq, Option.some.injEq] at h
    obtain ⟨h1, h2⟩ := h
    subst h2
    subst h1
    simp only [decide_eq_true_eq] at hfound
    exact ⟨hfound.1, hfound.2, rfl⟩

theorem ialloc_none (s s1 : State) (dev : Nat) (type : Int)
    (h : ialloc s dev type = (s1, none)) : s1 = s := by
  unfold ialloc at h
  split at h
  · simp only [Prod.mk.injEq, and_true] at h
    exact h.symm
  · simp at h

/-- What a returning `register_fullpath_index` does to the store: the type of
`ip` is set to directory. -/
theorem register_ok_inodes (env : Env) (s s' : State) (path : CStr) (ip : Nat) (u : Unit)
    (h : register_fullpath_index env s path ip = Result.ok s' u) :
    s'.inodes = Function.update s.inodes ip { s.inodes ip with type := T_DIR } := by
  unfold register_fullpath_index at h
  simp only at h
  split at h
  · cases h
  · split at h
    · cases h
    · split at h
      · cases h
      · split at h
        · cases h
        · simp only [Result.ok.injEq] at h
          rw [← h.1]
          rfl

/-! ## Theorems: what `create` does to a new plain file -/

/-- C3: `create` of the plain file "/a" in a root directory that has no entry
`a` returns the new inode 2 with link-count 1 and the requested major and
minor numbers, but with type directory, not the requested type file. -/
theorem create_file_returns_directory_type :
    dirlookup ((rootOnly 1).inodes ROOTINO) path_a.tail = none ∧
      (create envRoot (rootOnly 1) path_a T_FILE 0 0 0).ret? = some (some 2) ∧
      (create envRoot (rootOnly 1) path_a T_FILE 0 0 0).view
          (fun s => ((s.inodes 2).type, (s.inodes 2).nlink, (s.inodes 2).major, (s.inodes 2).minor)) =
        some (T_DIR, 1, 0, 0) ∧
      T_DIR ≠ T_FILE := by
  decide

/-- C4: `create` with type file changes the full-path index (bucket 44 is
empty before and holds "/a" and the new inode after creating the plain file
"/a"), and with type file it raises the collision panic when the bucket of the
path is taken (creating the plain file "/bc" after the directory "/a"). -/
theorem create_file_touches_fullpath_index :
    (rootOnly 1).fullpath_index 44 = ⟨[], none⟩ ∧
      (create envRoot (rootOnly 1) path_a T_FILE 0 0 0).ret? = some (some 2) ∧
      (create envRoot (rootOnly 1) path_a T_FILE 0 0 0).view (fun s => s.fullpath_index 44) =
        some ⟨path_a, some 2⟩ ∧
      (sys_mkdir envRoot (rootOnly 1) (some path_a)).ret? = some 0 ∧
      ((sys_mkdir envRoot (rootOnly 1) (some path_a)).andThen
          (fun s _ => create envRoot s path_bc T_FILE 0 0 0)).panicked = true := by
  decide

/-! ## Theorems: names -/

theorem strncmp_eq_zero_iff (p q : CStr) (n : Nat) :
    strncmp p q n = 0 ↔ (strcpy p).take n = (strcpy q).take n := by
  induction n generalizing p q with
  | zero => simp [strncmp]
  | succ n ih =>
    unfold strncmp
    cases p with
    | nil =>
      cases q with
      | nil => simp [strcpy]
      | cons b q =>
        by_cases hb : b = 0
        · subst hb
          simp [strcpy]
        · have hbv : (b.val : Int) ≠ 0 := by
            intro h
            apply hb
            apply Fin.ext
            simpa using h
          simp [strcpy, hb, hbv]
    | cons a p =>
      cases q with
      | nil =>
        by_cases ha : a = 0
        · subst ha
          simp [strcpy]
        · have hav : (a.val : Int) ≠ 0 := by
            intro h
            apply ha
            apply Fin.ext
            simpa using h
          simp [strcpy, ha, hav]
      | cons b q =>
        by_cases hab : a = b
        · subst hab
          by_cases ha : a = 0
          · subst ha
            simp [strcpy]
          · have := ih p q
            simp only [strcpy] at this
            simp [strcpy, ha, this]
        · have hne : ((a.val : Int)) - (b.val : Int) ≠ 0 := by
            intro h0
            apply hab
            apply Fin.ext
            omega
          by_cases ha : a = 0
          · subst ha
            have hb : b ≠ 0 := fun h => hab h.symm
            have hbn : (b : Nat) ≠ 0 := fun h => hb (Fin.ext (by simpa using h))
            simp [strcpy, hb, hbn, hne, hab]
          · have han : (a : Nat) ≠ 0 := fun h => ha (Fin.ext (by simpa using h))
            by_cases hb : b = 0
            · subst hb
              simp [strcpy, ha, han, hne, hab]
            · simp [strcpy, ha, hb, hne, hab]

theorem namecmp_comm (a b : CStr) : namecmp a b = 0 ↔ namecmp b a = 0 := by
  unfold namecmp
  rw [strncmp_eq_zero_iff, strncmp_eq_zero_iff]
  exact eq_comm

theorem namecmp_trans (a b c : CStr) (h1 : namecmp a b = 0) (h2 : namecmp b c = 0) :
    namecmp a c = 0 := by
  unfold namecmp at *
  rw [strncmp_eq_zero_iff] at *
  exact h1.trans h2

theorem isDotName_congr (a b : CStr) (h : namecmp a b = 0) : isDotName a ↔ isDotName b := by
  unfold isDotName
  constructor
  · intro hd
    rcases hd with hd | hd
    · exact Or.inl (namecmp_trans _ _ _ ((namecmp_comm _ _).1 h) hd)
    · exact Or.inr (namecmp_trans _ _ _ ((namecmp_comm _ _).1 h) hd)
  · intro hd
    rcases hd with hd | hd
    · exact Or.inl (namecmp_trans _ _ _ h hd)
    · exact Or.inr (namecmp_trans _ _ _ h hd)

/-! ## Theorems: directory slots -/

theorem lookupIdx_none (name : CStr) (l : List Dirent) :
    lookupIdx name l = none ↔ ∀ e ∈ l, ¬ (e.inum ≠ 0 ∧ namecmp name e.name = 0) := by
  induction l with
  | nil => simp [lookupIdx]
  | cons d l ih =>
    unfold lookupIdx
    by_cases h : d.inum ≠ 0 ∧ namecmp name d.name = 0
    · rw [if_pos h]
      constructor
      · intro hc
        cases hc
      · intro hc
        exact absurd h (hc d (by simp))
    · rw [if_neg h, Option.map_eq_none', ih]
      simp only [List.mem_cons, forall_eq_or_imp]
      exact ⟨fun hh => ⟨h, hh⟩, fun hh => hh.2⟩

theorem lookupIdx_some (name : CStr) (l : List Dirent) (k : Nat) (h : lookupIdx name l = some k) :
    ∃ e, l[k]? = some e ∧ l.getD k ⟨0, []⟩ = e ∧ e.inum ≠ 0 ∧ namecmp name e.name = 0 := by
  induction l generalizing k with
  | nil => simp [lookupIdx] at h
  | cons d l ih =>
    unfold lookupIdx at h
    by_cases hd : d.inum ≠ 0 ∧ namecmp name d.name = 0
    · rw [if_pos hd] at h
      simp only [Option.some.injEq] at h
      subst h
      exact ⟨d, by simp, by simp, hd.1, hd.2⟩
    · rw [if_neg hd] at h
      simp only [Option.map_eq_some'] at h
      obtain ⟨j, hj, rfl⟩ := h
      obtain ⟨e, h1, h2, h3, h4⟩ := ih j hj
      exact ⟨e, by simpa using h1, by simpa using h2, h3, h4⟩

/-- What `dirlookup` finds: slot `k` of the directory, at byte offset
`sizeof_de * k`, occupied, with a name that compares equal. -/
theorem dirlookup_some (dp : Inode) (name : CStr) (ip off : Nat)
    (h : dirlookup dp name = some (ip, off)) :
    ∃ k e, off = sizeof_de * k ∧ dp.slots[k]? = some e ∧ e.inum = ip ∧ ip ≠ 0 ∧
      namecmp name e.name = 0 := by
  unfold dirlookup at h
  cases hl : lookupIdx name dp.slots with
  | none => simp [hl] at h
  | some k =>
    simp only [hl, Option.some.injEq, Prod.mk.injEq] at h
    obtain ⟨e, h1, h2, h3, h4⟩ := lookupIdx_some name dp.slots k hl
    refine ⟨k, e, h.2.symm, h1, ?_, ?_, h4⟩
    · rw [← h.1, h2]
    · rw [← h.1, h2]
      exact h3

theorem dirlookup_none (dp : Inode) (name : CStr) :
    dirlookup dp name = none ↔ ∀ e ∈ dp.slots, ¬ (e.inum ≠ 0 ∧ namecmp name e.name = 0) := by
  unfold dirlookup
  rw [← lookupIdx_none]
  cases lookupIdx name dp.slots <;> simp

theorem countP_set_get {α : Type} (p : α → Bool) (l : List α) (k : Nat) (a b : α)
    (h : l[k]? = some b) :
    (l.set k a).countP p + (if p b = true then 1 else 0) =
      l.countP p + (if p a = true then 1 else 0) := by
  induction l generalizing k with
  | nil => simp at h
  | cons d l ih =>
    cases k with
    | zero =>
      simp only [List.getElem?_cons_zero, Option.some.injEq] at h
      subst h
      simp only [List.set_cons_zero, List.countP_cons]
      omega
    | succ k =>
      simp only [List.getElem?_cons_succ] at h
      have := ih k h
      simp only [List.set_cons_succ, List.countP_cons]
      omega

theorem freeIdx_le (l : List Dirent) : freeIdx l ≤ l.length := by
  induction l with
  | nil => simp [freeIdx]
  | cons d l ih =>
    unfold freeIdx
    split
    · simp
    · simp [ih]

theorem freeIdx_get (l : List Dirent) (h : freeIdx l < l.length) :
    ∃ b, l[freeIdx l]? = some b ∧ b.inum = 0 := by
  induction l with
  | nil => simp at h
  | cons d l ih =>
    unfold freeIdx at h ⊢
    by_cases hd : d.inum = 0
    · simp only [hd, if_true]
      exact ⟨d, by simp, hd⟩
    · simp only [hd, if_false, List.length_cons, Nat.add_lt_add_iff_right] at h ⊢
      obtain ⟨b, h1, h2⟩ := ih h
      exact ⟨b, by simpa using h1, h2⟩

theorem sizeof_de_mul_div (k : Nat) : sizeof_de * k / sizeof_de = k := by
  unfold sizeof_de
  omega

/-- Writing an entry into the first free slot of a directory adds it to every
count that ignores free slots. -/
theorem putSlot_free_countP (ip : Inode) (de : Dirent) (p : Dirent → Bool)
    (hp : ∀ b : Dirent, b.inum = 0 → p b = false) :
    (putSlot ip (sizeof_de * freeIdx ip.slots) de).slots.countP p =
      ip.slots.countP p + (if p de = true then 1 else 0) := by
  unfold putSlot
  rw [sizeof_de_mul_div]
  by_cases h : freeIdx ip.slots < ip.slots.length
  · simp only [h, if_true]
    obtain ⟨b, h1, h2⟩ := freeIdx_get ip.slots h
    have := countP_set_get p ip.slots (freeIdx ip.slots) de b h1
    simp only [hp b h2] at this
    simpa using this
  · simp only [h, if_false, List.countP_append, List.countP_cons, List.countP_nil]
    simp

/-- Zeroing slot `k` of a directory removes its entry from every count that
ignores free slots. -/
theorem putSlot_zero_countP (ip : Inode) (k : Nat) (e : Dirent) (p : Dirent → Bool)
    (hk : ip.slots[k]? = some e) (hp : ∀ b : Dirent, b.inum = 0 → p b = false) :
    (putSlot ip (sizeof_de * k) ⟨0, []⟩).slots.countP p + (if p e = true then 1 else 0) =
      ip.slots.countP p := by
  unfold putSlot
  rw [sizeof_de_mul_div]
  have hlt : k < ip.slots.length := by
    by_contra hcon
    rw [List.getElem?_eq_none (by omega)] at hk
    cases hk
  simp only [hlt, if_true]
  have := countP_set_get p ip.slots k ⟨0, []⟩ e hk
  simp only [hp ⟨0, []⟩ rfl] at this
  simpa using this

theorem putSlot_eq (ip : Inode) (off : Nat) (de : Dirent) :
    putSlot ip off de = { ip with slots := (putSlot ip off de).slots } := by
  unfold putSlot
  split <;> rfl

theorem namingB_free (x : Nat) (b : Dirent) (h : b.inum = 0) : namingB x b = false := by
  unfold namingB
  simp only [decide_eq_false_iff_not, not_and]
  intro h1 h2
  exact absurd (h1 ▸ h) h2

theorem dotB_free (b : Dirent) (h : b.inum = 0) : dotB b = false := by
  simp [dotB, h]

theorem dotdotB_free (b : Dirent) (h : b.inum = 0) : dotdotB b = false := by
  simp [dotdotB, h]

theorem childB_free (σ : Nat → Inode) (b : Dirent) (h : b.inum = 0) : childB σ b = false := by
  simp [childB, h]

theorem names_iff (σ : Nat → Inode) (p x : Nat) :
    Names σ p x ↔ (σ p).type = T_DIR ∧ 0 < (σ p).slots.countP (namingB x) := by
  unfold Names
  rw [List.countP_pos_iff]
  simp only [namingB, decide_eq_true_eq]

/-! ## Theorems: consistency of the store under single updates -/

theorem not_names_of_countP_zero (σ : Nat → Inode) (p x : Nat)
    (h : (σ p).slots.countP (namingB x) = 0) : ¬ Names σ p x := by
  rw [names_iff]
  omega

theorem names_type (σ : Nat → Inode) (p x : Nat) (h : Names σ p x) : (σ p).type = T_DIR := h.1

theorem linked_dir_nlink_ne_zero (σ : Nat → Inode) (hc : Consistent σ) (x : Nat)
    (hl : Linked σ x) : (σ x).nlink ≠ 0 := by
  by_cases ht : (σ x).type = T_DIR
  · have := hc.dirLinks x hl ht
    omega
  · rcases hl with hl | ⟨p, hp⟩
    · subst hl
      exact absurd hc.rootDir ht
    · exact hc.fileLinks p x hp ht

/-- Replacing an inode that is not linked into the tree keeps the store
consistent, provided the new inode is not a directory, or is the same
directory with other link-count, or is a directory that holds "." and ".."
and names nothing. Nothing becomes linked by it. -/
theorem consistent_update_unlinked (σ : Nat → Inode) (x : Nat) (y : Inode)
    (hc : Consistent σ) (hx : ¬ Linked σ x)
    (hy : y.type = 0 ∨
      (y.type = (σ x).type ∧ y.slots = (σ x).slots) ∨
      (x ≠ 0 ∧ y.type = T_DIR ∧ 0 < y.slots.countP dotB ∧ 0 < y.slots.countP dotdotB ∧
        ∀ z, y.slots.countP (namingB z) = 0)) :
    Consistent (Function.update σ x y) ∧
      ∀ z, Linked (Function.update σ x y) z → Linked σ z := by
  have hne : ∀ z, z ≠ x → Function.update σ x y z = σ z := fun z hz => by
    simp [Function.update, hz]
  have hxx : Function.update σ x y x = y := by simp
  have hxroot : x ≠ ROOTINO := fun h => hx (Or.inl h)
  have hxun : ∀ p, ¬ Names σ p x := fun p h => hx (Or.inr ⟨p, h⟩)
  have hnames : ∀ p z, Names (Function.update σ x y) p z → Names σ p z := by
    intro p z hn
    by_cases hp : p = x
    · subst hp
      obtain ⟨ht, e, he, hz⟩ := hn
      rw [hxx] at ht he
      rcases hy with h1 | ⟨h2a, h2c⟩ | ⟨_, _, _, _, h3d⟩
      · rw [h1] at ht
        cases ht
      · exact ⟨h2a ▸ ht, e, h2c ▸ he, hz⟩
      · have h0 := h3d z
        rw [List.countP_eq_zero] at h0
        exact absurd (by simpa [namingB] using hz) (h0 e he)
    · obtain ⟨ht, e, he, hz⟩ := hn
      rw [hne p hp] at ht he
      exact ⟨ht, e, he, hz⟩
  have hlinked : ∀ z, Linked (Function.update σ x y) z → Linked σ z := by
    intro z hz
    rcases hz with hz | ⟨p, hp⟩
    · exact Or.inl hz
    · exact Or.inr ⟨p, hnames p z hp⟩
  have hnamed_ne : ∀ p z, Names (Function.update σ x y) p z → z ≠ x := by
    intro p z hn hz
    subst hz
    exact hxun p (hnames p z hn)
  refine ⟨⟨?_, ?_, ?_, ?_, ?_, ?_, ?_, ?_, ?_⟩, hlinked⟩
  · by_cases h0 : (0 : Nat) = x
    · subst h0
      rw [hxx]
      rcases hy with h1 | ⟨h2a, _⟩ | ⟨h3, _⟩
      · exact h1
      · rw [h2a]
        exact hc.zeroFree
      · exact absurd rfl h3
    · rw [hne 0 h0]
      exact hc.zeroFree
  · rw [hne ROOTINO (Ne.symm hxroot)]
    exact hc.rootDir
  · intro p hp
    exact hc.rootUnnamed p (hnames p _ hp)
  · intro d hd
    by_cases hdx : d = x
    · subst hdx
      rw [hxx] at hd ⊢
      rcases hy with h1 | ⟨h2a, h2c⟩ | ⟨_, _, h3b, h3c, _⟩
      · rw [h1] at hd
        cases hd
      · rw [h2c]
        exact hc.dots d (h2a ▸ hd)
      · exact ⟨h3b, h3c⟩
    · rw [hne d hdx] at hd ⊢
      exact hc.dots d hd
  · intro p z hn
    rw [hne z (hnamed_ne p z hn)]
    exact hc.namedLive p z (hnames p z hn)
  · intro p q z hz hp hq
    have hzx := hnamed_ne p z hp
    rw [hne z hzx] at hz
    exact hc.oneParent p q z hz (hnames p z hp) (hnames q z hq)
  · intro p z hz hp
    by_cases hzx : z = x
    · have : ¬ Names (Function.update σ x y) p z := fun h => hxun p (hzx ▸ hnames p z h)
      rw [names_iff] at this
      have := fun h => this ⟨hp, h⟩
      omega
    · rw [hne z hzx] at hz
      by_cases hpx : p = x
      · subst hpx
        rw [hxx] at hp ⊢
        rcases hy with h1 | ⟨h2a, h2c⟩ | ⟨_, _, _, _, h3d⟩
        · rw [h1] at hp
          cases hp
        · rw [h2c]
          exact hc.oneEntry p z hz (h2a ▸ hp)
        · rw [h3d z]
          omega
      · rw [hne p hpx] at hp ⊢
        exact hc.oneEntry p z hz hp
  · intro p z hn hz
    have hzx := hnamed_ne p z hn
    rw [hne z hzx] at hz ⊢
    exact hc.fileLinks p z (hnames p z hn) hz
  · intro z hl hz
    have hl' := hlinked z hl
    have hzx : z ≠ x := fun h => hx (h ▸ hl')
    rw [hne z hzx] at hz ⊢
    rw [hc.dirLinks z hl' hz]
    unfold children
    rw [hne z hzx]
    congr 2
    apply List.countP_congr
    intro e he
    unfold childB
    simp only [decide_eq_true_eq]
    by_cases hex : e.inum = x
    · have hnot : ¬ (e.inum ≠ 0 ∧ ¬ isDotName e.name) := by
        intro h
        exact hxun z ⟨hz, e, he, hex, hex ▸ h.1, h.2⟩
      constructor
      · intro h
        exact absurd ⟨h.1, h.2.1⟩ hnot
      · intro h
        exact absurd ⟨h.1, h.2.1⟩ hnot
    · rw [hne e.inum hex]

/-- `iput` keeps the store consistent and links nothing. -/
theorem consistent_iputσ (σ : Nat → Inode) (i : Nat) (h : Bool) (hc : Consistent σ) :
    Consistent (iputσ σ i h) ∧ ∀ z, Linked (iputσ σ i h) z → Linked σ z := by
  unfold iputσ
  split
  · rename_i hcond
    apply consistent_update_unlinked σ i _ hc
    · intro hl
      exact linked_dir_nlink_ne_zero σ hc i hl hcond.1
    · left
      rfl
  · exact ⟨hc, fun z hz => hz⟩

theorem iput_inodes_eq (s : State) (i : Nat) (h : Bool) :
    (iput s i h).inodes = iputσ s.inodes i h := by
  rw [iput_inodes]
  rfl

/-! ## Theorems: consistency of the store when a directory is linked or unlinked -/

theorem childB_congr_type (σ σ' : Nat → Inode) (h : ∀ z, (σ' z).type = (σ z).type) :
    childB σ' = childB σ := by
  funext e
  unfold childB
  rw [h]

/-- Linking a directory `x` that has no name yet into directory `dp` under a
new name, and counting its ".." in `dp`, keeps the store consistent. -/
theorem consistent_link (σ : Nat → Inode) (dp x : Nat) (name : CStr) (S' : List Dirent)
    (hc : Consistent σ) (hdp : (σ dp).type = T_DIR) (hxt : (σ x).type = T_DIR)
    (hxdp : x ≠ dp) (hx : ¬ Linked σ x) (hx0 : x ≠ 0) (hname : ¬ isDotName name)
    (hxl : (σ x).nlink = 1 + (children σ x : Int))
    (hS : ∀ p : Dirent → Bool, (∀ b : Dirent, b.inum = 0 → p b = false) →
      S'.countP p = (σ dp).slots.countP p + (if p ⟨x, name⟩ = true then 1 else 0)) :
    Consistent
      (Function.update σ dp { σ dp with slots := S', nlink := (σ dp).nlink + 1 }) := by
  set σ' := Function.update σ dp { σ dp with slots := S', nlink := (σ dp).nlink + 1 } with hσ'
  have hne : ∀ z, z ≠ dp → σ' z = σ z := fun z hz => by
    simp [hσ', Function.update, hz]
  have hdd : σ' dp = { σ dp with slots := S', nlink := (σ dp).nlink + 1 } := by
    simp [hσ']
  have htype : ∀ z, (σ' z).type = (σ z).type := by
    intro z
    by_cases hz : z = dp
    · subst hz
      rw [hdd]
    · rw [hne z hz]
  have hchildB : childB σ' = childB σ := childB_congr_type σ σ' htype
  have hxroot : x ≠ ROOTINO := fun h => hx (Or.inl h)
  have hxun : ∀ p, ¬ Names σ p x := fun p h => hx (Or.inr ⟨p, h⟩)
  have hnx : ∀ z, namingB z ⟨x, name⟩ = true ↔ z = x := by
    intro z
    simp only [namingB, decide_eq_true_eq]
    constructor
    · intro h
      exact h.1.symm
    · intro h
      subst h
      exact ⟨rfl, hx0, hname⟩
  have hcount_dp : ∀ z, (σ' dp).slots.countP (namingB z) =
      (σ dp).slots.countP (namingB z) + (if z = x then 1 else 0) := by
    intro z
    rw [hdd]
    have := hS (namingB z) (namingB_free z)
    simp only [hnx] at this
    exact this
  have hnames : ∀ p z, Names σ' p z → Names σ p z ∨ (p = dp ∧ z = x) := by
    intro p z hn
    by_cases hp : p = dp
    · subst hp
      by_cases hz : z = x
      · exact Or.inr ⟨rfl, hz⟩
      · left
        rw [names_iff] at hn ⊢
        rw [hcount_dp z, htype] at hn
        simpa [hz] using hn
    · left
      obtain ⟨ht, e, he, hz⟩ := hn
      rw [hne p hp] at ht he
      exact ⟨ht, e, he, hz⟩
  have hnames_old : ∀ p z, z ≠ x → Names σ' p z → Names σ p z := by
    intro p z hz hn
    rcases hnames p z hn with h | h
    · exact h
    · exact absurd h.2 hz
  refine ⟨?_, ?_, ?_, ?_, ?_, ?_, ?_, ?_, ?_⟩
  · rw [htype]
    exact hc.zeroFree
  · rw [htype]
    exact hc.rootDir
  · intro p hp
    exact hc.rootUnnamed p (hnames_old p ROOTINO (Ne.symm hxroot) hp)
  · intro d hd
    rw [htype] at hd
    by_cases hddp : d = dp
    · subst hddp
      rw [hdd]
      have h1 := hS dotB dotB_free
      have h2 := hS dotdotB dotdotB_free
      have := hc.dots d hd
      simp only at h1 h2 ⊢
      constructor
      · omega
      · omega
    · rw [hne d hddp]
      exact hc.dots d hd
  · intro p z hn
    rw [htype]
    rcases hnames p z hn with h | h
    · exact hc.namedLive p z h
    · rw [h.2, hxt]
      decide
  · intro p q z hz hp hq
    rw [htype] at hz
    rcases hnames p z hp with h1 | h1
    · rcases hnames q z hq with h2 | h2
      · exact hc.oneParent p q z hz h1 h2
      · exact absurd (h2.2 ▸ h1) (hxun p)
    · rcases hnames q z hq with h2 | h2
      · exact absurd (h1.2 ▸ h2) (hxun q)
      · rw [h1.1, h2.1]
  · intro p z hz hp
    rw [htype] at hz hp
    by_cases hpdp : p = dp
    · subst hpdp
      rw [hcount_dp z]
      by_cases hzx : z = x
      · subst hzx
        have : ¬ Names σ p z := hxun p
        rw [names_iff] at this
        have := fun h => this ⟨hp, h⟩
        simp only [if_true]
        omega
      · simp only [hzx, if_false, add_zero]
        exact hc.oneEntry p z hz hp
    · rw [hne p hpdp]
      exact hc.oneEntry p z hz hp
  · intro p z hn hz
    rw [htype] at hz
    have hzx : z ≠ x := fun h => hz (h ▸ hxt)
    have hzdp : z ≠ dp := fun h => hz (h ▸ hdp)
    rw [hne z hzdp]
    exact hc.fileLinks p z (hnames_old p z hzx hn) hz
  · intro z hl hz
    rw [htype] at hz
    unfold children
    rw [hchildB]
    by_cases hzx : z = x
    · subst hzx
      rw [hne z hxdp]
      exact hxl
    · have hl' : Linked σ z := by
        rcases hl with hl | ⟨p, hp⟩
        · exact Or.inl hl
        · exact Or.inr ⟨p, hnames_old p z hzx hp⟩
      have hold := hc.dirLinks z hl' hz
      unfold children at hold
      by_cases hzdp : z = dp
      · subst hzdp
        rw [hdd]
        have h1 := hS (childB σ) (childB_free σ)
        have hcx : childB σ ⟨x, name⟩ = true := by
          simp only [childB, decide_eq_true_eq]
          exact ⟨hx0, hname, hxt⟩
        simp only [hcx, if_true] at h1
        simp only
        rw [h1, hold]
        push_cast
        ring
      · rw [hne z hzdp]
        exact hold

/-- Zeroing the one entry of directory `dp` that names directory `x`, and
dropping the count of its ".." in `dp`, keeps the store consistent and leaves
`x` out of the tree. -/
theorem consistent_unlink (σ : Nat → Inode) (dp x : Nat) (e : Dirent) (S' : List Dirent)
    (hc : Consistent σ) (hdp : (σ dp).type = T_DIR) (hxt : (σ x).type = T_DIR)
    (he : e ∈ (σ dp).slots) (hex : e.inum = x) (hx0 : x ≠ 0) (hen : ¬ isDotName e.name)
    (hS : ∀ p : Dirent → Bool, (∀ b : Dirent, b.inum = 0 → p b = false) →
      S'.countP p + (if p e = true then 1 else 0) = (σ dp).slots.countP p) :
    Consistent
        (Function.update σ dp { σ dp with slots := S', nlink := (σ dp).nlink - 1 }) ∧
      ¬ Linked (Function.update σ dp { σ dp with slots := S', nlink := (σ dp).nlink - 1 }) x := by
  set σ' := Function.update σ dp { σ dp with slots := S', nlink := (σ dp).nlink - 1 } with hσ'
  have hne : ∀ z, z ≠ dp → σ' z = σ z := fun z hz => by
    simp [hσ', Function.update, hz]
  have hdd : σ' dp = { σ dp with slots := S', nlink := (σ dp).nlink - 1 } := by
    simp [hσ']
  have htype : ∀ z, (σ' z).type = (σ z).type := by
    intro z
    by_cases hz : z = dp
    · subst hz
      rw [hdd]
    · rw [hne z hz]
  have hchildB : childB σ' = childB σ := childB_congr_type σ σ' htype
  have hnamed : Names σ dp x := ⟨hdp, e, he, hex, hx0, hen⟩
  have hxroot : x ≠ ROOTINO := fun h => hc.rootUnnamed dp (h ▸ hnamed)
  have hne_e : ∀ z, namingB z e = true ↔ z = x := by
    intro z
    simp only [namingB, decide_eq_true_eq]
    constructor
    · intro h
      rw [← hex]
      exact h.1.symm
    · intro h
      subst h
      exact ⟨hex, hx0, hen⟩
  have hcount_dp : ∀ z, (σ' dp).slots.countP (namingB z) + (if z = x then 1 else 0) =
      (σ dp).slots.countP (namingB z) := by
    intro z
    rw [hdd]
    have := hS (namingB z) (namingB_free z)
    simp only [hne_e] at this
    exact this
  have hnames : ∀ p z, Names σ' p z → Names σ p z := by
    intro p z hn
    by_cases hp : p = dp
    · subst hp
      rw [names_iff] at hn ⊢
      have := hcount_dp z
      rw [htype] at hn
      refine ⟨hn.1, ?_⟩
      omega
    · obtain ⟨ht, e', he', hz⟩ := hn
      rw [hne p hp] at ht he'
      exact ⟨ht, e', he', hz⟩
  have hxun : ∀ p, ¬ Names σ' p x := by
    intro p hn
    have hp : p = dp := hc.oneParent p dp x hxt (hnames p x hn) hnamed
    subst hp
    rw [names_iff] at hn
    have h1 := hcount_dp x
    have h2 := hc.oneEntry p x hxt hdp
    simp only [if_true] at h1
    omega
  have hlinked : ∀ z, Linked σ' z → Linked σ z := by
    intro z hz
    rcases hz with hz | ⟨p, hp⟩
    · exact Or.inl hz
    · exact Or.inr ⟨p, hnames p z hp⟩
  have hxnl : ¬ Linked σ' x := by
    intro h
    rcases h with h | ⟨p, hp⟩
    · exact hxroot h
    · exact hxun p hp
  have hdot_e : dotB e = false := by
    simp only [dotB, decide_eq_false_iff_not, not_and]
    intro _ h
    exact hen (Or.inl h)
  have hdotdot_e : dotdotB e = false := by
    simp only [dotdotB, decide_eq_false_iff_not, not_and]
    intro _ h
    exact hen (Or.inr h)
  refine ⟨⟨?_, ?_, ?_, ?_, ?_, ?_, ?_, ?_, ?_⟩, hxnl⟩
  · rw [htype]
    exact hc.zeroFree
  · rw [htype]
    exact hc.rootDir
  · intro p hp
    exact hc.rootUnnamed p (hnames p ROOTINO hp)
  · intro d hd
    rw [htype] at hd
    by_cases hddp : d = dp
    · subst hddp
      rw [hdd]
      have h1 := hS dotB dotB_free
      have h2 := hS dotdotB dotdotB_free
      have := hc.dots d hd
      simp only [hdot_e, hdotdot_e, Bool.false_eq_true, if_false, add_zero] at h1 h2 ⊢
      rw [h1, h2]
      exact this
    · rw [hne d hddp]
      exact hc.dots d hd
  · intro p z hn
    rw [htype]
    exact hc.namedLive p z (hnames p z hn)
  · intro p q z hz hp hq
    rw [htype] at hz
    exact hc.oneParent p q z hz (hnames p z hp) (hnames q z hq)
  · intro p z hz hp
    rw [htype] at hz hp
    by_cases hpdp : p = dp
    · subst hpdp
      have h1 := hcount_dp z
      have h2 := hc.oneEntry p z hz hp
      omega
    · rw [hne p hpdp]
      exact hc.oneEntry p z hz hp
  · intro p z hn hz
    rw [htype] at hz
    have hzdp : z ≠ dp := fun h => hz (h ▸ hdp)
    rw [hne z hzdp]
    exact hc.fileLinks p z (hnames p z hn) hz
  · intro z hl hz
    rw [htype] at hz
    have hl' := hlinked z hl
    have hold := hc.dirLinks z hl' hz
    unfold children at hold ⊢
    rw [hchildB]
    by_cases hzdp : z = dp
    · subst hzdp
      rw [hdd]
      have h1 := hS (childB σ) (childB_free σ)
      have hcx : childB σ e = true := by
        simp only [childB, decide_eq_true_eq]
        exact ⟨hex ▸ hx0, hen, hex ▸ hxt⟩
      simp only [hcx, if_true] at h1
      simp only
      rw [hold, ← h1]
      push_cast
      ring
    · rw [hne z hzdp]
      exact hold

/-! ## Theorems: the store after `create` of a directory -/

theorem inode_slots_self (ip : Inode) : { ip with slots := ip.slots } = ip := by
  cases ip
  rfl

theorem create_fail_spec (env : Env) (t : State) (dp i : Nat) :
    ∃ t', create_fail env t dp i = Result.ok t' none ∧
      t'.inodes =
        iputσ (Function.update t.inodes i
          { t.inodes i with nlink := 0, slots := [], type := 0 }) dp (env.held dp) := by
  refine ⟨_, rfl, ?_⟩
  simp only [iunlockput, iput_inodes_eq, iupdate_inodes, setInode_inodes]
  simp [iputσ]

/-- The entries "." and ".." of a new directory: the block changes only the
slots of the new inode, and when it does not fail the slots are exactly "."
(the inode itself) and ".." (the parent). -/
theorem create_dots_dir (env : Env) (t : State) (dp i : Nat)
    (hslots : (t.inodes i).slots = []) (hi : i ≠ 0) :
    ∃ L, (create_dots env t T_DIR dp i).1.inodes =
          Function.update t.inodes i { t.inodes i with slots := L } ∧
      ((create_dots env t T_DIR dp i).2 = true → L = [⟨i, str_dot⟩, ⟨dp, str_dotdot⟩]) := by
  unfold create_dots
  simp only [if_true]
  rcases dirlink_cases env t i str_dot i with h1 | ⟨_, _, h1⟩
  · refine ⟨[], ?_, ?_⟩
    · rw [h1]
      simp only [Int.reduceNeg, Int.reduceLT, if_true]
      rw [← hslots, inode_slots_self]
      simp
    · rw [h1]
      simp
  · rw [h1]
    simp only [lt_self_iff_false, if_false]
    have hs1 : (writei_dirent t i (sizeof_de * freeIdx (t.inodes i).slots) ⟨i, str_dot⟩).inodes =
        Function.update t.inodes i { t.inodes i with slots := [⟨i, str_dot⟩] } := by
      rw [writei_dirent_inodes, hslots]
      simp [putSlot, hslots, freeIdx]
    generalize writei_dirent t i (sizeof_de * freeIdx (t.inodes i).slots) ⟨i, str_dot⟩ = t1 at hs1
    rcases dirlink_cases env t1 i str_dotdot dp with h2 | ⟨_, _, h2⟩
    · refine ⟨[⟨i, str_dot⟩], ?_, ?_⟩
      · rw [h2]
        exact hs1
      · rw [h2]
        simp
    · refine ⟨[⟨i, str_dot⟩, ⟨dp, str_dotdot⟩], ?_, fun _ => rfl⟩
      rw [h2]
      simp only
      rw [writei_dirent_inodes, hs1]
      simp only [Function.update_same, Function.update_idem]
      simp [putSlot, freeIdx, hi, sizeof_de]

theorem iputσ_ne (σ : Nat → Inode) (i j : Nat) (h : Bool) (hj : j ≠ i) :
    iputσ σ i h j = σ j := by
  unfold iputσ
  split
  · simp [Function.update, hj]
  · rfl

theorem iputσ_nlink (σ : Nat → Inode) (i j : Nat) (h : Bool) :
    (iputσ σ i h j).nlink = (σ j).nlink := by
  unfold iputσ
  split
  · by_cases hj : j = i
    · subst hj
      simp
    · simp [Function.update, hj]
  · rfl

theorem inode_type_self (ip : Inode) (t : Int) (h : ip.type = t) : { ip with type := t } = ip := by
  cases ip
  simp only at h
  subst h
  rfl

/-- The end of `create` for a directory: either the `fail:` exit, which
reclaims the new inode, or the new entry of the parent, its link-count one
higher, and the registration in the full-path index. -/
theorem create_link_dir (env : Env) (t : State) (path : CStr) (dp : Nat) (name : CStr) (i : Nat)
    (s' : State) (r : Option Nat) (hidp : i ≠ dp) (hti : (t.inodes i).type = T_DIR)
    (h : create_link env t path T_DIR dp name i = Result.ok s' r) :
    (r = none ∧
        s'.inodes = iputσ (Function.update t.inodes i
          { t.inodes i with nlink := 0, slots := [], type := 0 }) dp (env.held dp)) ∨
      (r = some i ∧ dirlookup (t.inodes dp) name = none ∧
        s'.inodes = iputσ (Function.update t.inodes dp
          { t.inodes dp with
            slots := (putSlot (t.inodes dp) (sizeof_de * freeIdx (t.inodes dp).slots) ⟨i, name⟩).slots
            nlink := (t.inodes dp).nlink + 1 }) dp (env.held dp)) := by
  unfold create_link at h
  rcases dirlink_cases env t dp name i with h1 | ⟨hl, _, h1⟩
  · rw [h1] at h
    simp only [Int.reduceNeg, Int.reduceLT, if_true] at h
    obtain ⟨t', ht', hin⟩ := create_fail_spec env t dp i
    rw [ht'] at h
    simp only [Result.ok.injEq] at h
    left
    exact ⟨h.2.symm, h.1 ▸ hin⟩
  · rw [h1] at h
    simp only [lt_self_iff_false, if_false, if_true] at h
    right
    have hs3 : (iunlockput env
        (iupdate
          ((writei_dirent t dp (sizeof_de * freeIdx (t.inodes dp).slots) ⟨i, name⟩).setInode dp
            { (writei_dirent t dp (sizeof_de * freeIdx (t.inodes dp).slots) ⟨i, name⟩).inodes dp with
              nlink := ((writei_dirent t dp (sizeof_de * freeIdx (t.inodes dp).slots)
                ⟨i, name⟩).inodes dp).nlink + 1 }) dp) dp).inodes =
        iputσ (Function.update t.inodes dp
          { t.inodes dp with
            slots := (putSlot (t.inodes dp) (sizeof_de * freeIdx (t.inodes dp).slots) ⟨i, name⟩).slots
            nlink := (t.inodes dp).nlink + 1 }) dp (env.held dp) := by
      simp only [iunlockput, iput_inodes_eq, iupdate_inodes, setInode_inodes, writei_dirent_inodes,
        Function.update_same, Function.update_idem, putSlot_nlink]
      rw [putSlot_eq]
    generalize (iunlockput env
        (iupdate
          ((writei_dirent t dp (sizeof_de * freeIdx (t.inodes dp).slots) ⟨i, name⟩).setInode dp
            { (writei_dirent t dp (sizeof_de * freeIdx (t.inodes dp).slots) ⟨i, name⟩).inodes dp with
              nlink := ((writei_dirent t dp (sizeof_de * freeIdx (t.inodes dp).slots)
                ⟨i, name⟩).inodes dp).nlink + 1 }) dp) dp) = s3 at h hs3
    cases hreg : register_fullpath_index env s3 path i with
    | ok s4 u =>
      rw [hreg] at h
      simp only [Result.ok.injEq] at h
      refine ⟨h.2.symm, hl, ?_⟩
      rw [← h.1, register_ok_inodes env s3 s4 path i u hreg, hs3]
      apply Function.update_eq_self_iff.2
      apply inode_type_self
      rw [iputσ_ne _ _ _ _ hidp]
      simp [Function.update, hidp, hti]
    | panic t m =>
      rw [hreg] at h
      cases h
    | deadlock =>
      rw [hreg] at h
      cases h
    | undefined =>
      rw [hreg] at h
      cases h

/-- The four ways a `create` of type directory returns: the name exists; no
inode is free; an entry cannot be written and the new inode is reclaimed; or
the directory is created and linked into its parent. -/
theorem create_dir_cases (env : Env) (s : State) (path : CStr) (major minor flag : Int)
    (dp : Nat) (name : CStr) (s' : State) (r : Option Nat)
    (hres : env.nameiparent path 1 = some (dp, name)) (hdp : (s.inodes dp).type = T_DIR)
    (h : create env s path T_DIR major minor flag = Result.ok s' r) :
    (r = none ∧ ∃ ip, s'.inodes = iputσ (iputσ s.inodes dp (env.held dp)) ip (env.held ip)) ∨
      (r = none ∧ s'.inodes = iputσ s.inodes dp (env.held dp)) ∨
      (r = none ∧ ∃ i z, i ≠ 0 ∧ (s.inodes i).type = 0 ∧ z.type = 0 ∧
        s'.inodes = iputσ (Function.update s.inodes i z) dp (env.held dp)) ∨
      (∃ i, r = some i ∧ i ≠ 0 ∧ i ≠ dp ∧ (s.inodes i).type = 0 ∧
        dirlookup (s.inodes dp) name = none ∧
        s'.inodes =
          iputσ
            (Function.update
              (Function.update s.inodes i (newDir (s.inodes dp).dev major minor i dp)) dp
              { s.inodes dp with
                slots := (putSlot (s.inodes dp) (sizeof_de * freeIdx (s.inodes dp).slots)
                  ⟨i, name⟩).slots
                nlink := (s.inodes dp).nlink + 1 })
            dp (env.held dp)) := by
  unfold create at h
  rw [hres] at h
  simp only at h
  cases hl : dirlookup (s.inodes dp) name with
  | some p =>
    obtain ⟨ip, off⟩ := p
    rw [hl] at h
    have hne : ¬ (T_DIR = T_FILE ∧
        (((iunlockput env s dp).inodes ip).type = T_FILE ∨
          ((iunlockput env s dp).inodes ip).type = T_DEVICE)) := by
      intro hh
      exact absurd hh.1 (by decide)
    simp only [hne, if_false, Result.ok.injEq] at h
    left
    refine ⟨h.2.symm, ip, ?_⟩
    rw [← h.1]
    simp only [iunlockput, iput_inodes_eq]
  | none =>
    rw [hl] at h
    simp only at h
    cases ha : ialloc s (s.inodes dp).dev T_DIR with
    | mk s1 oi =>
      rw [ha] at h
      cases oi with
      | none =>
        simp only [Result.ok.injEq] at h
        right
        left
        refine ⟨h.2.symm, ?_⟩
        rw [← h.1, ialloc_none s s1 _ _ ha]
        simp only [iunlockput, iput_inodes_eq]
      | some i =>
        simp only at h
        obtain ⟨hi1, hi0, hs1⟩ := ialloc_some s s1 _ _ i ha
        have hi : i ≠ 0 := by omega
        have hidp : i ≠ dp := by
          intro hh
          rw [hh, hdp] at hi0
          exact absurd hi0 (by decide)
        have hs3 : (iupdate (s1.setInode i
            { s1.inodes i with major := major, minor := minor, nlink := 1 }) i).inodes =
            Function.update s.inodes i ⟨(s.inodes dp).dev, T_DIR, major, minor, 1, 0, 0, []⟩ := by
          simp only [iupdate_inodes, setInode_inodes, hs1, Function.update_same,
            Function.update_idem]
        generalize (iupdate (s1.setInode i
            { s1.inodes i with major := major, minor := minor, nlink := 1 }) i) = s3 at h hs3
        obtain ⟨L, hL, hLt⟩ := create_dots_dir env s3 dp i (by rw [hs3]; simp) hi
        cases hd : create_dots env s3 T_DIR dp i with
        | mk s4 b =>
          rw [hd] at h hL hLt
          simp only at hL hLt
          have hs4 : s4.inodes =
              Function.update s.inodes i ⟨(s.inodes dp).dev, T_DIR, major, minor, 1, 0, 0, L⟩ := by
            rw [hL, hs3]
            simp only [Function.update_same, Function.update_idem]
          cases b with
          | false =>
            simp only at h
            obtain ⟨t', ht', hin⟩ := create_fail_spec env s4 dp i
            rw [ht'] at h
            simp only [Result.ok.injEq] at h
            right
            right
            left
            refine ⟨h.2.symm, i, ⟨(s.inodes dp).dev, 0, major, minor, 0, 0, 0, []⟩, hi, hi0, rfl, ?_⟩
            rw [← h.1, hin, hs4]
            simp only [Function.update_same, Function.update_idem]
          | true =>
            simp only at h
            have hL2 := hLt rfl
            subst hL2
            have hti : (s4.inodes i).type = T_DIR := by
              rw [hs4]
              simp
            have hdp4 : s4.inodes dp = s.inodes dp := by
              rw [hs4]
              simp [Function.update, Ne.symm hidp]
            rcases create_link_dir env s4 path dp name i s' r hidp hti h with ⟨hr, hin⟩ | ⟨hr, _, hin⟩
            · right
              right
              left
              refine ⟨hr, i, ⟨(s.inodes dp).dev, 0, major, minor, 0, 0, 0, []⟩, hi, hi0, rfl, ?_⟩
              rw [hin, hs4]
              simp only [Function.update_same, Function.update_idem]
            · right
              right
              right
              refine ⟨i, hr, hi, hidp, hi0, rfl, ?_⟩
              rw [hin, hdp4, hs4]
              rfl

/-! ## Theorems: link counts under mkdir and unlink of directories -/

/-- C5: a `create` of type directory that returns the new inode `ip` leaves
`ip` with link-count exactly 1 and the parent directory with its previous
link-count plus 1. -/
theorem create_dir_link_counts (env : Env) (s : State) (path : CStr) (major minor flag : Int)
    (dp : Nat) (name : CStr) (ip : Nat)
    (hres : env.nameiparent path 1 = some (dp, name)) (hdp : (s.inodes dp).type = T_DIR)
    (hret : (create env s path T_DIR major minor flag).ret? = some (some ip)) :
    (create env s path T_DIR major minor flag).view
        (fun s' => ((s'.inodes ip).nlink, (s'.inodes dp).nlink)) =
      some (1, (s.inodes dp).nlink + 1) := by
  cases hc : create env s path T_DIR major minor flag with
  | ok s' r =>
    rw [hc] at hret
    simp only [Result.ret?, Option.some.injEq] at hret
    subst hret
    simp only [Result.view, Option.some.injEq, Prod.mk.injEq]
    rcases create_dir_cases env s path major minor flag dp name s' (some ip) hres hdp hc with
      ⟨h, _⟩ | ⟨h, _⟩ | ⟨h, _⟩ | ⟨i, hr, _, hidp, _, _, hin⟩
    · cases h
    · cases h
    · cases h
    · simp only [Option.some.injEq] at hr
      subst hr
      rw [hin, iputσ_nlink, iputσ_nlink]
      constructor
      · simp [Function.update, hidp, newDir]
      · simp
  | panic t m =>
    rw [hc] at hret
    cases hret
  | deadlock =>
    rw [hc] at hret
    cases hret
  | undefined =>
    rw [hc] at hret
    cases hret

theorem create_dir_link_counts_witness :
    envRoot.nameiparent path_a 1 = some (ROOTINO, path_a.tail) ∧
      ((rootOnly 1).inodes ROOTINO).type = T_DIR ∧
      (create envRoot (rootOnly 1) path_a T_DIR 0 0 1).ret? = some (some 2) ∧
      (create envRoot (rootOnly 1) path_a T_DIR 0 0 1).view
          (fun s' => ((s'.inodes 2).nlink, (s'.inodes ROOTINO).nlink)) =
        some (1, ((rootOnly 1).inodes ROOTINO).nlink + 1) :=
  ⟨by decide, by decide, by decide,
    create_dir_link_counts envRoot (rootOnly 1) path_a 0 0 1 ROOTINO path_a.tail 2
      (by decide) (by decide) (by decide)⟩

theorem not_linked_of_unused (σ : Nat → Inode) (hc : Consistent σ) (i : Nat)
    (hi : (σ i).type = 0) : ¬ Linked σ i := by
  intro hl
  rcases hl with hl | ⟨p, hp⟩
  · rw [hl, hc.rootDir] at hi
    exact absurd hi (by decide)
  · exact hc.namedLive p i hp hi

theorem dir_ne_zero (σ : Nat → Inode) (hc : Consistent σ) (d : Nat)
    (hd : (σ d).type = T_DIR) : d ≠ 0 := by
  intro h
  rw [h, hc.zeroFree] at hd
  exact absurd hd (by decide)

/-- A name that `dirlookup` does not find in a directory holding "." and ".."
is neither of the two. -/
theorem not_dot_of_lookup_none (σ : Nat → Inode) (hc : Consistent σ) (dp : Nat) (name : CStr)
    (hdp : (σ dp).type = T_DIR) (hl : dirlookup (σ dp) name = none) : ¬ isDotName name := by
  rw [dirlookup_none] at hl
  obtain ⟨h1, h2⟩ := hc.dots dp hdp
  rw [List.countP_pos_iff] at h1 h2
  obtain ⟨e1, he1, hd1⟩ := h1
  obtain ⟨e2, he2, hd2⟩ := h2
  simp only [dotB, dotdotB, decide_eq_true_eq] at hd1 hd2
  intro hdot
  rcases hdot with hdot | hdot
  · exact hl e1 he1 ⟨hd1.1, namecmp_trans _ _ _ hdot ((namecmp_comm _ _).1 hd1.2)⟩
  · exact hl e2 he2 ⟨hd2.1, namecmp_trans _ _ _ hdot ((namecmp_comm _ _).1 hd2.2)⟩

theorem newDir_names_nothing (dev : Nat) (major minor : Int) (i dp z : Nat) :
    (newDir dev major minor i dp).slots.countP (namingB z) = 0 := by
  have h1 : isDotName str_dot := by decide
  have h2 : isDotName str_dotdot := by decide
  simp [newDir, namingB, h1, h2]

theorem newDir_no_children (σ : Nat → Inode) (dev : Nat) (major minor : Int) (i dp : Nat) :
    (newDir dev major minor i dp).slots.countP (childB σ) = 0 := by
  have h1 : isDotName str_dot := by decide
  have h2 : isDotName str_dotdot := by decide
  simp [newDir, childB, h1, h2]

theorem newDir_dots (dev : Nat) (major minor : Int) (i dp : Nat) (hi : i ≠ 0) (hdp : dp ≠ 0) :
    0 < (newDir dev major minor i dp).slots.countP dotB ∧
      0 < (newDir dev major minor i dp).slots.countP dotdotB := by
  have h1 : namecmp str_dot str_dot = 0 := by decide
  have h2 : namecmp str_dotdot str_dotdot = 0 := by decide
  constructor
  · rw [List.countP_pos_iff]
    exact ⟨⟨i, str_dot⟩, by simp [newDir], by simp [dotB, hi, h1]⟩
  · rw [List.countP_pos_iff]
    exact ⟨⟨dp, str_dotdot⟩, by simp [newDir], by simp [dotdotB, hdp, h2]⟩

/-- A returning `create` of type directory keeps the store consistent. -/
theorem create_dir_consistent (env : Env) (s : State) (path : CStr) (major minor flag : Int)
    (s' : State) (r : Option Nat) (hc : Consistent s.inodes) (hres : ResolvesDirs env s)
    (h : create env s path T_DIR major minor flag = Result.ok s' r) :
    Consistent s'.inodes := by
  cases hn : env.nameiparent path 1 with
  | none =>
    unfold create at h
    rw [hn] at h
    simp only [Result.ok.injEq] at h
    rw [← h.1]
    exact hc
  | some p =>
    obtain ⟨dp, name⟩ := p
    have hdp := hres path 1 dp name hn
    rcases create_dir_cases env s path major minor flag dp name s' r hn hdp h with
      ⟨_, ip, hin⟩ | ⟨_, hin⟩ | ⟨_, i, z, hi, hi0, hz, hin⟩ | ⟨i, _, hi, hidp, hi0, hl, hin⟩
    · rw [hin]
      exact (consistent_iputσ _ _ _ (consistent_iputσ _ _ _ hc).1).1
    · rw [hin]
      exact (consistent_iputσ _ _ _ hc).1
    · rw [hin]
      apply (consistent_iputσ _ _ _ _).1
      exact (consistent_update_unlinked s.inodes i z hc (not_linked_of_unused _ hc i hi0)
        (Or.inl hz)).1
    · rw [hin]
      apply (consistent_iputσ _ _ _ _).1
      have hdp0 := dir_ne_zero _ hc dp hdp
      have hun := not_linked_of_unused _ hc i hi0
      obtain ⟨hd1, hd2⟩ := newDir_dots (s.inodes dp).dev major minor i dp hi hdp0
      obtain ⟨hc2, hl2⟩ := consistent_update_unlinked s.inodes i
        (newDir (s.inodes dp).dev major minor i dp) hc hun
        (Or.inr (Or.inr ⟨hi, rfl, hd1, hd2, newDir_names_nothing _ _ _ _ _⟩))
      have hdp2 : Function.update s.inodes i (newDir (s.inodes dp).dev major minor i dp) dp =
          s.inodes dp := by
        simp [Function.update, Ne.symm hidp]
      have hi2 : Function.update s.inodes i (newDir (s.inodes dp).dev major minor i dp) i =
          newDir (s.inodes dp).dev major minor i dp := by
        simp
      have := consistent_link
        (Function.update s.inodes i (newDir (s.inodes dp).dev major minor i dp)) dp i name
        (putSlot (s.inodes dp) (sizeof_de * freeIdx (s.inodes dp).slots) ⟨i, name⟩).slots
        hc2 (by rw [hdp2]; exact hdp) (by rw [hi2]; rfl) hidp (fun hl => hun (hl2 i hl)) hi
        (not_dot_of_lookup_none _ hc dp name hdp hl)
        (by
          unfold children
          rw [hi2, newDir_no_children]
          rfl)
        (by
          intro p hp
          rw [hdp2]
          exact putSlot_free_countP (s.inodes dp) ⟨i, name⟩ p hp)
      rw [hdp2] at this
      exact this

/-- A returning `sys_mkdir` keeps the store consistent. -/
theorem sys_mkdir_consistent (env : Env) (s s' : State) (path : Option CStr) (r : Int)
    (hc : Consistent s.inodes) (hres : ResolvesDirs env s)
    (h : sys_mkdir env s path = Result.ok s' r) : Consistent s'.inodes := by
  unfold sys_mkdir at h
  cases path with
  | none =>
    simp only [Result.ok.injEq] at h
    rw [← h.1]
    exact hc
  | some p =>
    simp only at h
    cases hcr : create env (begin_op s) p T_DIR 0 0 1 with
    | ok s1 o =>
      rw [hcr] at h
      have hc1 : Consistent s1.inodes :=
        create_dir_consistent env (begin_op s) p 0 0 1 s1 o hc hres hcr
      cases o with
      | none =>
        simp only [Result.ok.injEq] at h
        rw [← h.1]
        exact hc1
      | some ip =>
        simp only [Result.ok.injEq] at h
        rw [← h.1]
        simp only [end_op_inodes, iunlockput, iput_inodes_eq]
        exact (consistent_iputσ _ _ _ hc1).1
    | panic t m =>
      rw [hcr] at h
      cases h
    | deadlock =>
      rw [hcr] at h
      cases h
    | undefined =>
      rw [hcr] at h
      cases h

theorem unlink_bad_consistent (env : Env) (t s' : State) (dp : Nat) (r : Int)
    (hc : Consistent t.inodes) (h : unlink_bad env t dp = Result.ok s' r) :
    Consistent s'.inodes := by
  unfold unlink_bad at h
  simp only [Result.ok.injEq] at h
  rw [← h.1]
  simp only [end_op_inodes, iunlockput, iput_inodes_eq]
  exact (consistent_iputσ _ _ _ hc).1

/-- A returning `sys_unlink` whose target is a directory keeps the store
consistent. -/
theorem sys_unlink_dir_consistent (env : Env) (s s' : State) (path : CStr) (r : Int)
    (hc : Consistent s.inodes) (hres : ResolvesDirs env s) (htd : TargetIsDir env s path)
    (h : sys_unlink env s (some path) = Result.ok s' r) : Consistent s'.inodes := by
  unfold sys_unlink at h
  simp only at h
  cases hn : env.nameiparent path 0 with
  | none =>
    rw [hn] at h
    simp only [Result.ok.injEq] at h
    rw [← h.1]
    exact hc
  | some p =>
    obtain ⟨dp, name⟩ := p
    rw [hn] at h
    simp only at h
    have hdp : (s.inodes dp).type = T_DIR := hres path 0 dp name hn
    by_cases hdot : namecmp name str_dot = 0 ∨ namecmp name str_dotdot = 0
    · rw [if_pos hdot] at h
      exact unlink_bad_consistent env (begin_op s) s' dp r hc h
    · rw [if_neg hdot] at h
      simp only [begin_op_inodes] at h
      cases hl : dirlookup (s.inodes dp) name with
      | none =>
        rw [hl] at h
        dsimp only at h
        exact unlink_bad_consistent env (begin_op s) s' dp r hc h
      | some q =>
        obtain ⟨ip, off⟩ := q
        rw [hl] at h
        dsimp only at h
        have hipt : (s.inodes ip).type = T_DIR := htd dp name ip off hn hl
        obtain ⟨k, e, hoff, hk, hex, hip0, hcmp⟩ := dirlookup_some _ _ _ _ hl
        by_cases hipdp : ip = dp
        · rw [if_pos hipdp] at h
          cases h
        · rw [if_neg hipdp] at h
          by_cases hnl : (s.inodes ip).nlink < 1
          · rw [if_pos hnl] at h
            cases h
          · rw [if_neg hnl, if_pos hipt] at h
            cases hemp : isdirempty (s.inodes ip) with
            | panic m =>
              rw [hemp] at h
              cases h
            | fuel =>
              rw [hemp] at h
              cases h
            | ret v =>
              rw [hemp] at h
              simp only at h
              by_cases hv : v = 0
              · rw [if_pos ⟨hipt, hv⟩] at h
                apply unlink_bad_consistent env (iunlockput env (begin_op s) ip) s' dp r _ h
                simp only [iunlockput, iput_inodes_eq, begin_op_inodes]
                exact (consistent_iputσ _ _ _ hc).1
              · rw [if_neg (fun hh => hv hh.2)] at h
                by_cases hw : env.writei_ok dp off = false
                · rw [if_pos hw] at h
                  cases h
                · rw [if_neg hw] at h
                  simp only [Result.ok.injEq] at h
                  rw [← h.1]
                  have hen : ¬ isDotName e.name := by
                    rw [← isDotName_congr name e.name hcmp]
                    exact hdot
                  have hmem : e ∈ (s.inodes dp).slots := List.getElem?_mem hk
                  obtain ⟨hc2, hun2⟩ := consistent_unlink s.inodes dp ip e
                    (putSlot (s.inodes dp) off ⟨0, []⟩).slots hc hdp hipt hmem hex hip0 hen
                    (by
                      intro p hp
                      rw [hoff]
                      exact putSlot_zero_countP (s.inodes dp) k e p hk hp)
                  have hs1ip : (writei_dirent (begin_op s) dp off ⟨0, []⟩).inodes ip =
                      s.inodes ip := by
                    simp [writei_dirent_inodes, Function.update, hipdp]
                  rw [hs1ip, if_pos hipt]
                  simp only [end_op_inodes, iunlockput, iput_inodes_eq, iupdate_inodes,
                    setInode_inodes, writei_dirent_inodes, begin_op_inodes, Function.update_same,
                    Function.update_idem, putSlot_nlink]
                  have hσ2 : Function.update s.inodes dp
                      { putSlot (s.inodes dp) off ⟨0, []⟩ with nlink := (s.inodes dp).nlink - 1 } =
                      Function.update s.inodes dp
                        { s.inodes dp with
                          slots := (putSlot (s.inodes dp) off ⟨0, []⟩).slots
                          nlink := (s.inodes dp).nlink - 1 } := by
                    rw [putSlot_eq]
                  rw [hσ2]
                  obtain ⟨hc3, hl3⟩ := consistent_iputσ _ dp (env.held dp) hc2
                  apply (consistent_iputσ _ _ _ _).1
                  apply (consistent_update_unlinked _ ip _ hc3 (fun hl => hun2 (hl3 ip hl)) _).1
                  right
                  left
                  exact ⟨rfl, rfl⟩

/-- Every returning step keeps the store consistent. -/
theorem step_consistent (s s' : State) (hc : Consistent s.inodes) (h : Step s s') :
    Consistent s'.inodes := by
  cases h with
  | mkdir env _ _ path r hres hok => exact sys_mkdir_consistent env s s' path r hc hres hok
  | rmdir env _ _ path r hres htd hok =>
    exact sys_unlink_dir_consistent env s s' path r hc hres htd hok

theorem reachable_consistent (s0 s : State) (hc : Consistent s0.inodes) (h : Reachable s0 s) :
    Consistent s.inodes := by
  induction h with
  | start => exact hc
  | next t t' _ hstep ih => exact step_consistent t t' ih hstep

/-! ## Theorems: the link-count rule of directories -/

theorem rootOnly_dir (n : Int) (p : Nat) (h : ((rootOnly n).inodes p).type = T_DIR) :
    p = ROOTINO := by
  by_contra hp
  simp [rootOnly, hp, Inode.unused, T_DIR] at h

theorem rootOnly_no_names (n : Int) (p x : Nat) : ¬ Names (rootOnly n).inodes p x := by
  intro hn
  have hp := rootOnly_dir n p hn.1
  subst hp
  obtain ⟨_, e, he, _, _, hdot⟩ := hn
  have h1 : isDotName str_dot := by decide
  have h2 : isDotName str_dotdot := by decide
  simp only [rootOnly, if_true, List.mem_cons, List.mem_singleton, List.not_mem_nil,
    or_false] at he
  rcases he with he | he
  · rw [he] at hdot
    exact hdot h1
  · rw [he] at hdot
    exact hdot h2

theorem rootOnly_children (n : Int) : children (rootOnly n).inodes ROOTINO = 0 := by
  have h1 : isDotName str_dot := by decide
  have h2 : isDotName str_dotdot := by decide
  simp [children, rootOnly, childB, h1, h2]

theorem rootOnly_resolves (n : Int) : ResolvesDirs envRoot (rootOnly n) := by
  intro path flag dp name h
  simp only [envRoot, Option.some.injEq, Prod.mk.injEq] at h
  rw [← h.1]
  rfl

theorem rootOnly_consistent : Consistent (rootOnly 1).inodes := by
  refine ⟨rfl, rfl, ?_, ?_, ?_, ?_, ?_, ?_, ?_⟩
  · intro p
    exact rootOnly_no_names 1 p ROOTINO
  · intro d hd
    have := rootOnly_dir 1 d hd
    subst this
    decide
  · intro p x hn
    exact absurd hn (rootOnly_no_names 1 p x)
  · intro p q x _ hn
    exact absurd hn (rootOnly_no_names 1 p x)
  · intro p x _ hp
    have h0 : ¬ Names (rootOnly 1).inodes p x := rootOnly_no_names 1 p x
    rw [names_iff] at h0
    have := fun h => h0 ⟨hp, h⟩
    omega
  · intro p x hn
    exact absurd hn (rootOnly_no_names 1 p x)
  · intro x hl hx
    have := rootOnly_dir 1 x hx
    subst this
    rw [rootOnly_children]
    rfl

theorem mkdir_a_returns (n : Int)
    (hret : (sys_mkdir envRoot (rootOnly n) (some path_a)).ret? = some 0) :
    sys_mkdir envRoot (rootOnly n) (some path_a) = Result.ok (rootWithA n) 0 := by
  unfold rootWithA
  cases h : sys_mkdir envRoot (rootOnly n) (some path_a) with
  | ok s r =>
    rw [h] at hret
    simp only [Result.ret?, Option.some.injEq] at hret
    subst hret
    rfl
  | panic t m =>
    rw [h] at hret
    cases hret
  | deadlock =>
    rw [h] at hret
    cases hret
  | undefined =>
    rw [h] at hret
    cases hret

theorem rootWithA_reachable (n : Int)
    (hret : (sys_mkdir envRoot (rootOnly n) (some path_a)).ret? = some 0) :
    Reachable (rootOnly n) (rootWithA n) :=
  Reachable.next (rootOnly n) (rootWithA n) Reachable.start
    (Step.mkdir envRoot (rootOnly n) (rootWithA n) (some path_a) 0 (rootOnly_resolves n)
      (mkdir_a_returns n hret))

theorem spec_rule_rootOnly : SpecDirLinkRule (rootOnly 2).inodes := by
  intro x hx
  have := rootOnly_dir 2 x hx
  subst this
  rw [rootOnly_children]
  rfl

theorem rootWithA_view (n : Int) (β : Type) (f : State → β) (b : β)
    (h : (sys_mkdir envRoot (rootOnly n) (some path_a)).view f = some b) :
    f (rootWithA n) = b := by
  unfold rootWithA
  cases hr : sys_mkdir envRoot (rootOnly n) (some path_a) with
  | ok s r =>
    rw [hr] at h
    simpa [Result.view, Result.stateOr] using h
  | panic t m =>
    rw [hr] at h
    cases h
  | deadlock =>
    rw [hr] at h
    cases h
  | undefined =>
    rw [hr] at h
    cases h

/-- C6 as the specification words it fails: in the store that holds only a
root directory with link-count 2, every directory has link-count 2 plus the
number of its child subdirectories; after a returning `mkdir("/a")` the new
directory 2 has no child subdirectory and link-count 1. -/
theorem spec_dir_link_rule_broken_by_mkdir :
    SpecDirLinkRule (rootOnly 2).inodes ∧
      Reachable (rootOnly 2) (rootWithA 2) ∧
      ((rootWithA 2).inodes 2).type = T_DIR ∧
      ((rootWithA 2).inodes 2).nlink = 1 ∧
      children (rootWithA 2).inodes 2 = 0 ∧
      ¬ SpecDirLinkRule (rootWithA 2).inodes := by
  have hv := rootWithA_view 2 _
    (fun s => ((s.inodes 2).type, (s.inodes 2).nlink, children s.inodes 2)) (T_DIR, 1, 0)
    (by decide)
  simp only [Prod.mk.injEq] at hv
  obtain ⟨h1, h2, h3⟩ := hv
  refine ⟨spec_rule_rootOnly, rootWithA_reachable 2 (by decide), h1, h2, h3, ?_⟩
  intro hrule
  have := hrule 2 h1
  rw [h2, h3] at this
  exact absurd this (by decide)

/-- C6 amended: in every state reachable from a consistent store through
returning calls of mkdir and of unlink of directories, every directory that is
linked into the tree (the root, or a directory some entry names) has
link-count 1 plus the number of its child subdirectories, and the store is
consistent again. -/
theorem dir_link_rule_reachable (s0 s : State) (hc : Consistent s0.inodes)
    (hr : Reachable s0 s) :
    (∀ x, Linked s.inodes x → (s.inodes x).type = T_DIR →
        (s.inodes x).nlink = 1 + (children s.inodes x : Int)) ∧
      Consistent s.inodes :=
  ⟨(reachable_consistent s0 s hc hr).dirLinks, reachable_consistent s0 s hc hr⟩

theorem dir_link_rule_reachable_witness :
    Consistent (rootOnly 1).inodes ∧ Reachable (rootOnly 1) (rootWithA 1) ∧
      ((∀ x, Linked (rootWithA 1).inodes x → ((rootWithA 1).inodes x).type = T_DIR →
          ((rootWithA 1).inodes x).nlink = 1 + (children (rootWithA 1).inodes x : Int)) ∧
        Consistent (rootWithA 1).inodes) :=
  ⟨rootOnly_consistent, rootWithA_reachable 1 (by decide),
    dir_link_rule_reachable (rootOnly 1) (rootWithA 1) rootOnly_consistent
      (rootWithA_reachable 1 (by decide))⟩

/-- A directory made by `mkdir("/a")` and removed by `unlink("/a")`: the call
returns 0, the root is back at link-count 1 and inode 2 is unused again. -/
theorem mkdir_then_unlink_sample :
    ((sys_mkdir envRoot (rootOnly 1) (some path_a)).andThen
        (fun s _ => sys_unlink envRoot s (some path_a))).ret? = some 0 ∧
      ((sys_mkdir envRoot (rootOnly 1) (some path_a)).andThen
        (fun s _ => sys_unlink envRoot s (some path_a))).view
          (fun s => ((s.inodes ROOTINO).nlink, (s.inodes 2).type, (s.inodes 2).nlink)) =
        some (1, 0, 0) := by
  decide

/-- The same when the removed directory is still referenced from elsewhere:
inode 2 stays a directory, without child subdirectories, with link-count 0.
The link-count rule therefore speaks of linked directories only. -/
theorem unlinked_held_dir_sample :
    ((sys_mkdir envRootHeld (rootOnly 1) (some path_a)).andThen
        (fun s _ => sys_unlink envRootHeld s (some path_a))).ret? = some 0 ∧
      ((sys_mkdir envRootHeld (rootOnly 1) (some path_a)).andThen
        (fun s _ => sys_unlink envRootHeld s (some path_a))).view
          (fun s => ((s.inodes ROOTINO).nlink, (s.inodes 2).type, (s.inodes 2).nlink,
            children s.inodes 2)) =
        some (1, T_DIR, 0, 0) := by
  decide

/-! ## Theorems: `open` with create-if-missing on an existing name -/

theorem filealloc_some (t : State) (h : ∃ f, f < NFILE ∧ (t.files f).ref = 0) :
    ∃ f, filealloc t =
      ({ t with files := Function.update t.files f { t.files f with ref := 1 } }, some f) := by
  unfold filealloc
  cases hf : (List.range NFILE).find? (fun f => decide ((t.files f).ref = 0)) with
  | none =>
    exfalso
    rw [List.find?_eq_none] at hf
    obtain ⟨f, hlt, hz⟩ := h
    exact hf f (List.mem_range.2 hlt) (by simpa using hz)
  | some f => exact ⟨f, rfl⟩

theorem iput_frame (s : State) (i : Nat) (h : Bool) :
    (iput s i h).uid = s.uid ∧ (iput s i h).files = s.files ∧ (iput s i h).ofile = s.ofile := by
  unfold iput
  split
  · exact ⟨rfl, rfl, rfl⟩
  · exact ⟨rfl, rfl, rfl⟩

theorem iputσ_fields (σ : Nat → Inode) (i j : Nat) (h : Bool) :
    (iputσ σ i h j).owner = (σ j).owner ∧ (iputσ σ i h j).permissions = (σ j).permissions ∧
      (iputσ σ i h j).major = (σ j).major := by
  unfold iputσ
  split
  · by_cases hj : j = i
    · subst hj
      simp
    · simp [Function.update, hj]
  · exact ⟨rfl, rfl, rfl⟩

theorem iputσ_type (σ : Nat → Inode) (i j : Nat) (h : Bool) :
    (iputσ σ i h j).type = (σ j).type ∨ (j = i ∧ (iputσ σ i h j).type = 0) := by
  unfold iputσ
  split
  · by_cases hj : j = i
    · subst hj
      right
      simp
    · left
      simp [Function.update, hj]
  · left
    rfl

theorem accesscheck_congr (uid : Nat) (ip ip' : Inode) (mode : Nat) (path : CStr)
    (h1 : ip'.owner = ip.owner) (h2 : ip'.permissions = ip.permissions) :
    accesscheck uid ip' mode path = accesscheck uid ip mode path := by
  unfold accesscheck
  rw [h1, h2]

/-- The part of `sys_open` after the inode is obtained, when the access check
grants the call and a file object and a descriptor are free: it returns, the
link-count of the inode is unchanged, and the value is -1 exactly when the
inode is a device whose major number is outside 0..NDEV-1. -/
theorem open_inode_granted (env : Env) (t : State) (path : CStr) (omode ip : Nat)
    (hacc : accesscheck t.uid (t.inodes ip) omode path ≠ 0)
    (hfile : ∃ f, f < NFILE ∧ (t.files f).ref = 0)
    (hfd : ∃ i, i < NOFILE ∧ t.ofile i = none) :
    ∃ t' fd, open_inode env t path omode ip = Result.ok t' fd ∧
      (t'.inodes ip).nlink = (t.inodes ip).nlink ∧
      (((t.inodes ip).type = T_DEVICE ∧ ((t.inodes ip).major < 0 ∨ (t.inodes ip).major ≥ NDEV)) →
        fd = -1) ∧
      (¬ ((t.inodes ip).type = T_DEVICE ∧ ((t.inodes ip).major < 0 ∨ (t.inodes ip).major ≥ NDEV)) →
        0 ≤ fd) := by
  unfold open_inode
  rw [if_neg hacc]
  by_cases hdev : (t.inodes ip).type = T_DEVICE ∧
      ((t.inodes ip).major < 0 ∨ (t.inodes ip).major ≥ NDEV)
  · rw [if_pos hdev]
    refine ⟨_, _, rfl, ?_, fun _ => rfl, fun h => absurd hdev h⟩
    simp only [end_op_inodes, iunlockput]
    exact iput_nlink _ _ _ _
  · rw [if_neg hdev]
    obtain ⟨f, hf⟩ := filealloc_some t hfile
    rw [hf]
    simp only
    obtain ⟨i, _, _, _, hret, _, _, hst⟩ :=
      (fdalloc_cases { t with files := Function.update t.files f { t.files f with ref := 1 } } f).1
        hfd
    have hpair : fdalloc { t with files := Function.update t.files f { t.files f with ref := 1 } } f =
        ({ t with
            files := Function.update t.files f { t.files f with ref := 1 }
            ofile := Function.update t.ofile i (some f) }, (i : Int)) :=
      Prod.ext hst hret
    rw [hpair]
    have hi : ¬ ((i : Int) < 0) := by omega
    simp only [hi, if_false]
    refine ⟨_, _, rfl, ?_, fun h => absurd h hdev, fun _ => by omega⟩
    simp only [end_op_inodes]
    split
    · simp [itrunc]
    · rfl

/-- A device refused by the guard on the major number: the entry "group" of the root
directory is a device owned by the caller, its permission bits allow reading
and writing, `accesscheck` grants the mode word, every descriptor and file
object is free, and `open("/group", O_CREATE|O_RDWR)` returns -1 because the
major number of the device is NDEV. -/
theorem open_create_existing_device_fails :
    dirlookup ((rootWithDevice NDEV).inodes ROOTINO) str_group.tail = some (2, 32) ∧
      ((rootWithDevice NDEV).inodes 2).type = T_DEVICE ∧
      ((rootWithDevice NDEV).inodes 2).owner = (rootWithDevice NDEV).uid ∧
      ((rootWithDevice NDEV).inodes 2).permissions &&& 0o400 ≠ 0 ∧
      ((rootWithDevice NDEV).inodes 2).permissions &&& 0o200 ≠ 0 ∧
      accesscheck (rootWithDevice NDEV).uid ((rootWithDevice NDEV).inodes 2)
          (O_CREATE ||| O_RDWR) str_group = 1 ∧
      (rootWithDevice NDEV).ofile 0 = none ∧
      ((rootWithDevice NDEV).files 0).ref = 0 ∧
      (sys_open envRoot (rootWithDevice NDEV) (some str_group) (O_CREATE ||| O_RDWR)).ret? =
        some (-1) := by
  decide

/-- With the verdict of `accesscheck` on the full mode word taken as given:
`sys_open` with the create flag on a path whose final
component exists in its parent directory, when `accesscheck` grants the mode
word and a file object and a descriptor are free, returns; it returns a
descriptor (a value from 0 on) exactly when the existing inode is a plain
file, or a device whose major number lies in 0..NDEV-1; and when it returns a
descriptor the link-count of the existing inode is unchanged. -/
theorem sys_open_create_existing (env : Env) (s : State) (path : CStr) (omode : Nat)
    (dp : Nat) (name : CStr) (ip off : Nat)
    (hcreate : omode &&& O_CREATE ≠ 0)
    (hres : env.nameiparent path 1 = some (dp, name))
    (hdp : (s.inodes dp).type = T_DIR)
    (hl : dirlookup (s.inodes dp) name = some (ip, off))
    (hacc : accesscheck s.uid (s.inodes ip) omode path ≠ 0)
    (hfile : ∃ f, f < NFILE ∧ (s.files f).ref = 0)
    (hfd : ∃ i, i < NOFILE ∧ s.ofile i = none) :
    (∃ fd, (sys_open env s (some path) omode).ret? = some fd) ∧
      ((∃ fd, (sys_open env s (some path) omode).ret? = some fd ∧ 0 ≤ fd) ↔
        ((s.inodes ip).type = T_FILE ∨
          ((s.inodes ip).type = T_DEVICE ∧ 0 ≤ (s.inodes ip).major ∧
            (s.inodes ip).major < NDEV))) ∧
      (∀ fd, (sys_open env s (some path) omode).ret? = some fd → 0 ≤ fd →
        (sys_open env s (some path) omode).view (fun s' => (s'.inodes ip).nlink) =
          some (s.inodes ip).nlink) := by
  have hs1 : (iunlockput env (begin_op s) dp).inodes = iputσ s.inodes dp (env.held dp) := by
    simp only [iunlockput, iput_inodes_eq, begin_op_inodes]
  have hfr := iput_frame (begin_op s) dp (env.held dp)
  have hty := iputσ_type s.inodes dp ip (env.held dp)
  have hfl := iputσ_fields s.inodes dp ip (env.held dp)
  have hnl := iputσ_nlink s.inodes dp ip (env.held dp)
  have hcr : create env (begin_op s) path T_FILE 0 0 0 =
      if ((iputσ s.inodes dp (env.held dp)) ip).type = T_FILE ∨
          ((iputσ s.inodes dp (env.held dp)) ip).type = T_DEVICE then
        Result.ok (iunlockput env (begin_op s) dp) (some ip)
      else Result.ok (iunlockput env (iunlockput env (begin_op s) dp) ip) none := by
    unfold create
    rw [hres]
    simp only [begin_op_inodes, hl, hs1, true_and]
  unfold sys_open
  simp only [hcreate, ne_eq, not_false_eq_true, if_true, hcr]
  by_cases hfd2 : ((iputσ s.inodes dp (env.held dp)) ip).type = T_FILE ∨
      ((iputσ s.inodes dp (env.held dp)) ip).type = T_DEVICE
  · rw [if_pos hfd2]
    simp only
    have hteq : ((iputσ s.inodes dp (env.held dp)) ip).type = (s.inodes ip).type := by
      rcases hty with h | ⟨_, h⟩
      · exact h
      · rw [h] at hfd2
        rcases hfd2 with h' | h'
        · exact absurd h' (by decide)
        · exact absurd h' (by decide)
    have hacc' : accesscheck (iunlockput env (begin_op s) dp).uid
        ((iunlockput env (begin_op s) dp).inodes ip) omode path ≠ 0 := by
      rw [hs1]
      unfold iunlockput
      rw [hfr.1]
      show accesscheck s.uid (iputσ s.inodes dp (env.held dp) ip) omode path ≠ 0
      rw [accesscheck_congr s.uid (s.inodes ip) _ omode path hfl.1 hfl.2.1]
      exact hacc
    obtain ⟨t', fd, hopen, hn, hbad, hgood⟩ :=
      open_inode_granted env (iunlockput env (begin_op s) dp) path omode ip hacc'
        (by unfold iunlockput; rw [hfr.2.1]; exact hfile)
        (by unfold iunlockput; rw [hfr.2.2]; exact hfd)
    rw [hopen]
    rw [hs1, hteq, hfl.2.2] at hbad hgood
    rw [hs1, hnl] at hn
    rw [hteq] at hfd2
    refine ⟨⟨fd, rfl⟩, ?_, ?_⟩
    · simp only [Result.ret?, Option.some.injEq, exists_eq_left']
      constructor
      · intro hfd0
        by_cases hb : (s.inodes ip).type = T_DEVICE ∧
            ((s.inodes ip).major < 0 ∨ (s.inodes ip).major ≥ NDEV)
        · have := hbad hb
          omega
        · rcases hfd2 with h | h
          · exact Or.inl h
          · right
            refine ⟨h, ?_⟩
            by_contra hcon
            apply hb
            refine ⟨h, ?_⟩
            omega
      · intro hr
        apply hgood
        rintro ⟨hd, hm⟩
        rcases hr with h | ⟨_, h1, h2⟩
        · rw [hd] at h
          exact absurd h (by decide)
        · omega
    · intro fd' _ _
      simp only [Result.view, hn]
  · rw [if_neg hfd2]
    simp only
    have hnot : ¬ ((s.inodes ip).type = T_FILE ∨
        ((s.inodes ip).type = T_DEVICE ∧ 0 ≤ (s.inodes ip).major ∧
          (s.inodes ip).major < NDEV)) := by
      intro h
      apply hfd2
      rcases hty with ht | ⟨hipdp, _⟩
      · rw [ht]
        rcases h with h | h
        · exact Or.inl h
        · exact Or.inr h.1
      · rw [hipdp, hdp] at h
        rcases h with h | h
        · exact absurd h (by decide)
        · exact absurd h.1 (by decide)
    refine ⟨⟨-1, rfl⟩, ?_, ?_⟩
    · simp only [Result.ret?, Option.some.injEq, exists_eq_left']
      constructor
      · intro h
        omega
      · intro h
        exact absurd h hnot
    · intro fd' h1 h2
      simp only [Result.ret?, Option.some.injEq] at h1
      omega

theorem sys_open_create_existing_witness :
    (O_CREATE ||| O_RDWR) &&& O_CREATE ≠ 0 ∧
      envRoot.nameiparent str_group 1 = some (ROOTINO, str_group.tail) ∧
      ((rootWithDevice 1).inodes ROOTINO).type = T_DIR ∧
      dirlookup ((rootWithDevice 1).inodes ROOTINO) str_group.tail = some (2, 32) ∧
      accesscheck (rootWithDevice 1).uid ((rootWithDevice 1).inodes 2) (O_CREATE ||| O_RDWR)
          str_group ≠ 0 ∧
      (∃ f, f < NFILE ∧ ((rootWithDevice 1).files f).ref = 0) ∧
      (∃ i, i < NOFILE ∧ (rootWithDevice 1).ofile i = none) ∧
      ((∃ fd, (sys_open envRoot (rootWithDevice 1) (some str_group) (O_CREATE ||| O_RDWR)).ret? =
            some fd) ∧
        ((∃ fd, (sys_open envRoot (rootWithDevice 1) (some str_group) (O_CREATE ||| O_RDWR)).ret? =
              some fd ∧ 0 ≤ fd) ↔
          (((rootWithDevice 1).inodes 2).type = T_FILE ∨
            (((rootWithDevice 1).inodes 2).type = T_DEVICE ∧
              0 ≤ ((rootWithDevice 1).inodes 2).major ∧
              ((rootWithDevice 1).inodes 2).major < NDEV))) ∧
        (∀ fd, (sys_open envRoot (rootWithDevice 1) (some str_group) (O_CREATE ||| O_RDWR)).ret? =
            some fd → 0 ≤ fd →
          (sys_open envRoot (rootWithDevice 1) (some str_group) (O_CREATE ||| O_RDWR)).view
              (fun s' => (s'.inodes 2).nlink) =
            some ((rootWithDevice 1).inodes 2).nlink)) :=
  ⟨by decide, by decide, by decide, by decide, by decide, ⟨0, by decide, by decide⟩,
    ⟨0, by decide, by decide⟩,
    sys_open_create_existing envRoot (rootWithDevice 1) str_group (O_CREATE ||| O_RDWR) ROOTINO
      str_group.tail 2 32 (by decide) (by decide) (by decide) (by decide) (by decide)
      ⟨0, by decide, by decide⟩ ⟨0, by decide, by decide⟩⟩

/-- C2: the root directory holds the plain file "a" (inode 2, owned by the
caller, permission bits 0644, so reading and writing are allowed to the
caller), descriptor 0 and file object 0 are free. `open("/a", O_RDWR)` returns
descriptor 0, but `open("/a", O_CREATE|O_RDWR)` returns -1: `accesscheck` is
handed the mode word with the create flag in it, which equals none of
O_RDONLY, O_WRONLY, O_RDWR. -/
theorem open_create_existing_file_denied :
    envFile.nameiparent path_a 1 = some (ROOTINO, path_a.tail) ∧
      dirlookup ((rootWithFile 1).inodes ROOTINO) path_a.tail = some (2, 32) ∧
      ((rootWithFile 1).inodes 2).type = T_FILE ∧
      ((rootWithFile 1).inodes 2).owner = (rootWithFile 1).uid ∧
      ((rootWithFile 1).inodes 2).permissions = 0o644 ∧
      (rootWithFile 1).ofile 0 = none ∧
      ((rootWithFile 1).files 0).ref = 0 ∧
      accesscheck (rootWithFile 1).uid ((rootWithFile 1).inodes 2) O_RDWR path_a = 1 ∧
      accesscheck (rootWithFile 1).uid ((rootWithFile 1).inodes 2) (O_CREATE ||| O_RDWR)
        path_a = 0 ∧
      (sys_open envFile (rootWithFile 1) (some path_a) O_RDWR).ret? = some 0 ∧
      (sys_open envFile (rootWithFile 1) (some path_a) (O_CREATE ||| O_RDWR)).ret? =
        some (-1) := by
  decide
/-! ## Theorems: `isdirempty` -/

theorem isdiremptyFrom_spec (dp : Inode) (k i : Nat) (hk : dp.slots.length ≤ i + k) :
    ((∀ e ∈ dp.slots.drop i, e.inum = 0) → isdiremptyFrom dp k (sizeof_de * i) = Scan.ret 1) ∧
      ((¬ ∀ e ∈ dp.slots.drop i, e.inum = 0) →
        isdiremptyFrom dp k (sizeof_de * i) = Scan.ret 0) := by
  induction k generalizing i with
  | zero =>
    have hlen : dp.slots.length ≤ i := by omega
    have hsz : ¬ sizeof_de * i < dp.size := by
      unfold Inode.size sizeof_de
      omega
    have hdrop : dp.slots.drop i = [] := List.drop_eq_nil_of_le hlen
    constructor
    · intro _
      simp [isdiremptyFrom, hsz]
    · intro h
      rw [hdrop] at h
      simp at h
  | succ k ih =>
    unfold isdiremptyFrom
    by_cases hlt : i < dp.slots.length
    · have hsz : sizeof_de * i < dp.size := by
        unfold Inode.size sizeof_de
        omega
      have hrd : readi_dirent dp (sizeof_de * i) = some (dp.slots[i]) := by
        unfold readi_dirent
        have : sizeof_de * i + sizeof_de ≤ dp.size := by
          unfold Inode.size sizeof_de
          omega
        rw [if_pos this, sizeof_de_mul_div]
        exact List.getElem?_eq_getElem hlt
      have hdrop : dp.slots.drop i = dp.slots[i] :: dp.slots.drop (i + 1) :=
        List.drop_eq_getElem_cons hlt
      rw [if_pos hsz, hrd]
      simp only
      have hoff : sizeof_de * i + sizeof_de = sizeof_de * (i + 1) := by
        unfold sizeof_de
        omega
      rw [hoff, hdrop]
      have ih' := ih (i + 1) (by omega)
      by_cases he : (dp.slots[i]).inum = 0
      · simp only [he, ne_eq, not_true_eq_false, if_false, List.mem_cons, forall_eq_or_imp,
          true_and]
        exact ih'
      · simp only [he, ne_eq, not_false_eq_true, if_true, List.mem_cons, forall_eq_or_imp,
          false_and, false_implies, true_and]
        simp
    · have hsz : ¬ sizeof_de * i < dp.size := by
        unfold Inode.size sizeof_de
        omega
      have hdrop : dp.slots.drop i = [] := List.drop_eq_nil_of_le (by omega)
      rw [if_neg hsz, hdrop]
      simp

theorem mem_drop_iff_getElem? (l : List Dirent) (n : Nat) (e : Dirent) :
    e ∈ l.drop n ↔ ∃ i, n ≤ i ∧ l[i]? = some e := by
  rw [List.mem_iff_getElem?]
  constructor
  · rintro ⟨j, hj⟩
    rw [List.getElem?_drop] at hj
    exact ⟨n + j, by omega, hj⟩
  · rintro ⟨i, hi, he⟩
    refine ⟨i - n, ?_⟩
    rw [List.getElem?_drop]
    have : n + (i - n) = i := by omega
    rw [this]
    exact he

/-- C11: for every directory inode (its size is a whole number of entry
slots, and every slot within the size is read in full) `isdirempty` returns 1
or 0, and it returns 1 exactly when every slot beyond the first two has inode
number 0; a directory of two or fewer slots is empty. -/
theorem isdirempty_iff (dp : Inode) :
    dp.size = sizeof_de * dp.slots.length ∧
      (∀ i, i < dp.slots.length → readi_dirent dp (sizeof_de * i) = dp.slots[i]?) ∧
      (isdirempty dp = Scan.ret 1 ∨ isdirempty dp = Scan.ret 0) ∧
      (isdirempty dp = Scan.ret 1 ↔
        ∀ i e, 2 ≤ i → dp.slots[i]? = some e → e.inum = 0) ∧
      (dp.slots.length ≤ 2 → isdirempty dp = Scan.ret 1) := by
  have hspec := isdiremptyFrom_spec dp dp.slots.length 2 (by omega)
  have hoff : 2 * sizeof_de = sizeof_de * 2 := by
    unfold sizeof_de
    rfl
  have hiff : (∀ e ∈ dp.slots.drop 2, e.inum = 0) ↔
      ∀ i e, 2 ≤ i → dp.slots[i]? = some e → e.inum = 0 := by
    constructor
    · intro h i e hi he
      exact h e ((mem_drop_iff_getElem? _ _ _).2 ⟨i, hi, he⟩)
    · intro h e he
      obtain ⟨i, hi, hie⟩ := (mem_drop_iff_getElem? _ _ _).1 he
      exact h i e hi hie
  unfold isdirempty
  rw [hoff]
  refine ⟨rfl, ?_, ?_, ?_, ?_⟩
  · intro i hi
    unfold readi_dirent
    have : sizeof_de * i + sizeof_de ≤ dp.size := by
      unfold Inode.size sizeof_de
      omega
    rw [if_pos this, sizeof_de_mul_div]
  · by_cases h : ∀ e ∈ dp.slots.drop 2, e.inum = 0
    · exact Or.inl (hspec.1 h)
    · exact Or.inr (hspec.2 h)
  · rw [← hiff]
    constructor
    · intro h1
      by_contra hcon
      rw [hspec.2 hcon] at h1
      cases h1
    · exact hspec.1
  · intro hlen
    apply hspec.1
    rw [List.drop_eq_nil_of_le hlen]
    simp

/-! ## Theorems: what the access gate ignores and what it refuses -/

theorem land_mask (p q m : Nat) (hm : 0o707 &&& m = m) (h : p &&& 0o707 = q &&& 0o707) :
    p &&& m = q &&& m := by
  have h1 : p &&& m = (p &&& 0o707) &&& m := by rw [Nat.and_assoc, hm]
  have h2 : q &&& m = (q &&& 0o707) &&& m := by rw [Nat.and_assoc, hm]
  rw [h1, h2, h]

/-- C18: two inodes with the same owner whose permission bits agree outside the
group triad (mask 0070) get the same answer from `accesscheck`, whatever the
caller, the path and the mode: `getgid` is the identity, so the branch that
tests the group bits is never taken. -/
theorem accesscheck_ignores_group_bits (uid : Nat) (ip1 ip2 : Inode) (mode : Nat) (path : CStr)
    (ho : ip1.owner = ip2.owner)
    (hp : ip1.permissions &&& 0o707 = ip2.permissions &&& 0o707) :
    accesscheck uid ip1 mode path = accesscheck uid ip2 mode path := by
  have h400 := land_mask _ _ 0o400 (by decide) hp
  have h200 := land_mask _ _ 0o200 (by decide) hp
  have h600 := land_mask _ _ 0o600 (by decide) hp
  have h4 := land_mask _ _ 0o004 (by decide) hp
  have h2 := land_mask _ _ 0o002 (by decide) hp
  have h6 := land_mask _ _ 0o006 (by decide) hp
  unfold accesscheck getgid
  simp only [ho]
  by_cases hu : ip2.owner = uid
  · simp only [hu, if_true, h400, h200, h600]
  · have hu' : ¬ uid = ip2.owner := fun h => hu h.symm
    simp only [hu, hu', if_false, h4, h2, h6]

theorem accesscheck_ignores_group_bits_witness :
    (fileOf 3 0o740).owner = (fileOf 3 0o700).owner ∧
      (fileOf 3 0o740).permissions &&& 0o707 = (fileOf 3 0o700).permissions &&& 0o707 ∧
      accesscheck 5 (fileOf 3 0o740) O_RDONLY path_a =
        accesscheck 5 (fileOf 3 0o700) O_RDONLY path_a :=
  ⟨by decide, by decide,
    accesscheck_ignores_group_bits 5 (fileOf 3 0o740) (fileOf 3 0o700) O_RDONLY path_a
      (by decide) (by decide)⟩

theorem accesscheck_other_mode (uid : Nat) (ip : Inode) (mode : Nat) (path : CStr)
    (hg : ¬ str_group <+: path) (hp : ¬ str_passwd <+: path)
    (h0 : mode ≠ O_RDONLY) (h1 : mode ≠ O_WRONLY) (h2 : mode ≠ O_RDWR) :
    accesscheck uid ip mode path = 0 := by
  unfold accesscheck
  simp only [strncmp_group, strncmp_passwd, hg, hp, or_self, if_false, h0, h1, h2, false_and]
  simp

theorem flagged_mode_ne (mode : Nat) (h : mode &&& O_CREATE ≠ 0 ∨ mode &&& O_TRUNC ≠ 0) :
    mode ≠ O_RDONLY ∧ mode ≠ O_WRONLY ∧ mode ≠ O_RDWR := by
  refine ⟨?_, ?_, ?_⟩
  · intro hm
    subst hm
    revert h
    decide
  · intro hm
    subst hm
    revert h
    decide
  · intro hm
    subst hm
    revert h
    decide

theorem open_inode_denied (env : Env) (t : State) (path : CStr) (omode ip : Nat)
    (h : accesscheck t.uid (t.inodes ip) omode path = 0) :
    open_inode env t path omode ip = Result.ok (end_op (iunlockput env t ip)) (-1) := by
  unfold open_inode
  rw [if_pos h]

/-- C19: off the reserved prefixes `accesscheck` denies every mode word other
than O_RDONLY, O_WRONLY and O_RDWR, in particular every mode word that carries
O_CREATE or O_TRUNC; so `sys_open` with such a mode word never returns a
descriptor: whenever it returns the value is -1; without O_CREATE it always
returns, and with O_CREATE it returns whenever `create` does (`create` can
halt in the full-path index). -/
theorem accesscheck_denies_flagged_modes (uid : Nat) (ip : Inode) (mode : Nat) (path : CStr)
    (hg : ¬ str_group <+: path) (hp : ¬ str_passwd <+: path) :
    (mode ≠ O_RDONLY → mode ≠ O_WRONLY → mode ≠ O_RDWR → accesscheck uid ip mode path = 0) ∧
      (mode &&& O_CREATE ≠ 0 ∨ mode &&& O_TRUNC ≠ 0 → accesscheck uid ip mode path = 0) ∧
      (mode &&& O_CREATE ≠ 0 ∨ mode &&& O_TRUNC ≠ 0 →
        ∀ env s, ∀ fd, (sys_open env s (some path) mode).ret? = some fd → fd = -1) ∧
      (mode &&& O_CREATE = 0 → mode &&& O_TRUNC ≠ 0 →
        ∀ env s, (sys_open env s (some path) mode).ret? = some (-1)) ∧
      (mode &&& O_CREATE ≠ 0 →
        ∀ env s, (create env (begin_op s) path T_FILE 0 0 0).ret? ≠ none →
          (sys_open env s (some path) mode).ret? = some (-1)) := by
  refine ⟨accesscheck_other_mode uid ip mode path hg hp, ?_, ?_, ?_, ?_⟩
  · intro h
    obtain ⟨h0, h1, h2⟩ := flagged_mode_ne mode h
    exact accesscheck_other_mode uid ip mode path hg hp h0 h1 h2
  · intro h env s fd hret
    obtain ⟨h0, h1, h2⟩ := flagged_mode_ne mode h
    have hden : ∀ t i, open_inode env t path mode i = Result.ok (end_op (iunlockput env t i)) (-1) :=
      fun t i => open_inode_denied env t path mode i
        (accesscheck_other_mode _ _ mode path hg hp h0 h1 h2)
    unfold sys_open at hret
    simp only [hden] at hret
    split at hret
    · split at hret
      all_goals first
        | (simp only [Result.ret?, Option.some.injEq] at hret; exact hret.symm)
        | (simp only [Result.ret?] at hret; cases hret)
    · split at hret
      · simp only [Result.ret?, Option.some.injEq] at hret
        exact hret.symm
      · split at hret
        · simp only [Result.ret?, Option.some.injEq] at hret
          exact hret.symm
        · simp only [Result.ret?, Option.some.injEq] at hret
          exact hret.symm
  · intro hc ht env s
    obtain ⟨h0, h1, h2⟩ := flagged_mode_ne mode (Or.inr ht)
    have hden : ∀ t i, open_inode env t path mode i = Result.ok (end_op (iunlockput env t i)) (-1) :=
      fun t i => open_inode_denied env t path mode i
        (accesscheck_other_mode _ _ mode path hg hp h0 h1 h2)
    unfold sys_open
    simp only [hden, hc, ne_eq, not_true_eq_false, if_false]
    split
    · rfl
    · split <;> rfl
  · intro hc env s hcr
    obtain ⟨h0, h1, h2⟩ := flagged_mode_ne mode (Or.inl hc)
    have hden : ∀ t i, open_inode env t path mode i = Result.ok (end_op (iunlockput env t i)) (-1) :=
      fun t i => open_inode_denied env t path mode i
        (accesscheck_other_mode _ _ mode path hg hp h0 h1 h2)
    unfold sys_open
    simp only [hden, if_pos hc]
    cases hcre : create env (begin_op s) path T_FILE 0 0 0 with
    | ok s1 o =>
      cases o with
      | none => rfl
      | some i => rfl
    | panic t m =>
      rw [hcre] at hcr
      exact absurd rfl hcr
    | deadlock =>
      rw [hcre] at hcr
      exact absurd rfl hcr
    | undefined =>
      rw [hcre] at hcr
      exact absurd rfl hcr

theorem accesscheck_denies_flagged_modes_witness :
    ¬ str_group <+: path_a ∧ ¬ str_passwd <+: path_a ∧
      ((O_CREATE ||| O_RDWR ≠ O_RDONLY → O_CREATE ||| O_RDWR ≠ O_WRONLY →
          O_CREATE ||| O_RDWR ≠ O_RDWR →
          accesscheck 0 (fileOf 0 0o777) (O_CREATE ||| O_RDWR) path_a = 0) ∧
        ((O_CREATE ||| O_RDWR) &&& O_CREATE ≠ 0 ∨ (O_CREATE ||| O_RDWR) &&& O_TRUNC ≠ 0 →
          accesscheck 0 (fileOf 0 0o777) (O_CREATE ||| O_RDWR) path_a = 0) ∧
        ((O_CREATE ||| O_RDWR) &&& O_CREATE ≠ 0 ∨ (O_CREATE ||| O_RDWR) &&& O_TRUNC ≠ 0 →
          ∀ env s, ∀ fd,
            (sys_open env s (some path_a) (O_CREATE ||| O_RDWR)).ret? = some fd → fd = -1) ∧
        ((O_CREATE ||| O_RDWR) &&& O_CREATE = 0 → (O_CREATE ||| O_RDWR) &&& O_TRUNC ≠ 0 →
          ∀ env s, (sys_open env s (some path_a) (O_CREATE ||| O_RDWR)).ret? = some (-1)) ∧
        ((O_CREATE ||| O_RDWR) &&& O_CREATE ≠ 0 →
          ∀ env s, (create env (begin_op s) path_a T_FILE 0 0 0).ret? ≠ none →
            (sys_open env s (some path_a) (O_CREATE ||| O_RDWR)).ret? = some (-1))) :=
  ⟨by decide, by decide,
    accesscheck_denies_flagged_modes 0 (fileOf 0 0o777) (O_CREATE ||| O_RDWR) path_a
      (by decide) (by decide)⟩

/-! ## Theorems: the checksum and the buckets of the full-path index -/

theorem pathSum_ascii (signed : Bool) (path : CStr) (acc : Int)
    (h : ∀ c ∈ path, 1 ≤ c.val ∧ c.val ≤ 127) :
    pathSum signed path acc = acc + (byteSum path : Int) := by
  induction path generalizing acc with
  | nil => simp [pathSum, byteSum]
  | cons c rest ih =>
    have hc := h c (by simp)
    have hc0 : c ≠ 0 := by
      intro h0
      rw [h0] at hc
      simp at hc
    have hval : charVal signed c = (c.val : Int) := by
      unfold charVal
      have : ¬ (signed = true ∧ 128 ≤ c.val) := by
        intro hh
        omega
      rw [if_neg this]
    unfold pathSum
    rw [if_neg hc0, ih _ (fun d hd => h d (by simp [hd])), hval]
    simp only [byteSum, List.map_cons, List.sum_cons]
    push_cast
    ring

theorem byteSum_bounds (path : CStr) (h : ∀ c ∈ path, 1 ≤ c.val ∧ c.val ≤ 127) :
    path.length ≤ byteSum path ∧ byteSum path ≤ 127 * path.length := by
  induction path with
  | nil => simp [byteSum]
  | cons c rest ih =>
    have hc := h c (by simp)
    have := ih (fun d hd => h d (by simp [hd]))
    simp only [byteSum, List.map_cons, List.sum_cons, List.length_cons] at this ⊢
    omega

/-- The index of a checksum that is not negative lies inside the table. -/
theorem hash_in_table (x : Int) (h : 0 ≤ x) :
    ¬ (Int.tmod x 100 < 0 ∨ (FULLPATH_ENTRIES : Int) ≤ Int.tmod x 100) := by
  have h1 := Int.tmod_nonneg 100 h
  have h2 : Int.tmod x 100 < 100 := Int.tmod_lt_of_pos _ (by decide)
  unfold FULLPATH_ENTRIES
  push_cast
  omega

theorem register_not_undefined (env : Env) (s : State) (path : CStr) (ip : Nat)
    (hpos : 0 < pathSum env.charSigned path 0) :
    (register_fullpath_index env s path ip).isUndefined = false ∧
      (register_fullpath_index env s path ip).panicMsg? ≠
        some "register_fullpath_index: sum is 0" := by
  have hne : pathSum env.charSigned path 0 ≠ 0 := by omega
  have hnn := hash_in_table (pathSum env.charSigned path 0) (le_of_lt hpos)
  unfold register_fullpath_index
  simp only [hne, if_false, hnn]
  split
  · exact ⟨rfl, by simp [Result.panicMsg?]⟩
  · split
    · exact ⟨rfl, by simp [Result.panicMsg?]⟩
    · exact ⟨rfl, by simp [Result.panicMsg?]⟩

/-- With a positive checksum equal to the sum of the bytes,
`register_fullpath_index` reads and writes the bucket whose index is that sum
modulo 100 and no other: it halts when the bucket is taken and fills it
otherwise. -/
theorem register_at_bucket (env : Env) (s : State) (path : CStr) (ip : Nat)
    (hsum : pathSum env.charSigned path 0 = (byteSum path : Int)) (hpos : 0 < byteSum path) :
    register_fullpath_index env s path ip =
      if ((s.fullpath_index (byteSum path % 100)).fullpath).headD 0 ≠ 0 then
        Result.panic s "register_fullpath_index: fullpath is not empty"
      else if (s.fullpath_index (byteSum path % 100)).ip ≠ none then
        Result.panic s "register_fullpath_index: ip is not empty"
      else
        Result.ok
          { s with
            inodes := Function.update s.inodes ip { s.inodes ip with type := T_DIR }
            fullpath_index :=
              Function.update s.fullpath_index (byteSum path % 100) ⟨strcpy path, some ip⟩ } () := by
  have hne : (byteSum path : Int) ≠ 0 := by omega
  have hnn := hash_in_table (byteSum path : Int) (by omega)
  have hidx : (Int.tmod (byteSum path : Int) 100).toNat = byteSum path % 100 := by
    have h : Int.tmod (byteSum path : Int) 100 = ((byteSum path % 100 : Nat) : Int) :=
      (Int.ofNat_tmod _ _).symm
    rw [h]
    exact Int.toNat_ofNat _
  unfold register_fullpath_index
  simp only [hsum, hne, if_false, hnn, hidx]
  split
  · rfl
  · split
    · rfl
    · simp [State.setInode]

/-- C20: for a non-empty path of at most MAXPATH bytes, all in 1..127, the
checksum of `register_fullpath_index` is the sum of the bytes, it is strictly
positive and below 2^31, and the bucket index is that sum modulo 100, which
lies in 0..99, inside the table of FULLPATH_ENTRIES entries. The call does not
halt on a zero checksum and makes no access outside the table: it reads the
bucket of that index only, returns exactly when that bucket is free, then
having changed that bucket and no other, and halts with the table as it was
when the bucket is taken. With `char` read as signed, the path of the one byte
200 has checksum -56 and index -56, outside the table. -/
theorem register_checksum_range (env : Env) (s : State) (path : CStr) (ip : Nat)
    (hne : path ≠ []) (hlen : path.length ≤ MAXPATH)
    (hbytes : ∀ c ∈ path, 1 ≤ c.val ∧ c.val ≤ 127) :
    pathSum env.charSigned path 0 = (byteSum path : Int) ∧
      0 < pathSum env.charSigned path 0 ∧
      pathSum env.charSigned path 0 < 2 ^ 31 ∧
      Int.tmod (pathSum env.charSigned path 0) 100 = ((byteSum path % 100 : Nat) : Int) ∧
      0 ≤ Int.tmod (pathSum env.charSigned path 0) 100 ∧
      Int.tmod (pathSum env.charSigned path 0) 100 < 100 ∧
      byteSum path % 100 < FULLPATH_ENTRIES ∧
      (register_fullpath_index env s path ip).isUndefined = false ∧
      (register_fullpath_index env s path ip).panicMsg? ≠
        some "register_fullpath_index: sum is 0" ∧
      ((register_fullpath_index env s path ip).ret? = some () ↔
        ((s.fullpath_index (byteSum path % 100)).fullpath).headD 0 = 0 ∧
          (s.fullpath_index (byteSum path % 100)).ip = none) ∧
      ((register_fullpath_index env s path ip).ret? = some () →
        (register_fullpath_index env s path ip).view (fun s' => s'.fullpath_index) =
          some (Function.update s.fullpath_index (byteSum path % 100)
            ⟨strcpy path, some ip⟩)) ∧
      ((register_fullpath_index env s path ip).ret? ≠ some () →
        (register_fullpath_index env s path ip).panicked = true ∧
        (register_fullpath_index env s path ip).haltView (fun t => t.fullpath_index) =
          some s.fullpath_index) ∧
      pathSum true [200] 0 = -56 ∧ Int.tmod (pathSum true [200] 0) 100 = -56 ∧
      (register_fullpath_index envSigned s [200] ip).isUndefined = true := by
  have hsum := pathSum_ascii env.charSigned path 0 hbytes
  rw [zero_add] at hsum
  obtain ⟨hlo, hhi⟩ := byteSum_bounds path hbytes
  have hlen0 : 0 < path.length := List.length_pos.2 hne
  have hpos : 0 < pathSum env.charSigned path 0 := by
    rw [hsum]
    omega
  have hmax : byteSum path ≤ 127 * 128 := by
    unfold MAXPATH at hlen
    omega
  obtain ⟨hu, hm⟩ := register_not_undefined env s path ip hpos
  have h56 : pathSum true [200] 0 = -56 := by decide
  have heq := register_at_bucket env s path ip hsum (by omega)
  refine ⟨hsum, hpos, ?_, ?_, ?_, ?_, ?_, hu, hm, ?_, ?_, ?_, h56, ?_, ?_⟩
  · rw [hsum]
    omega
  · rw [hsum]
    exact (Int.ofNat_tmod _ _).symm
  · exact Int.tmod_nonneg 100 (le_of_lt hpos)
  · exact Int.tmod_lt_of_pos _ (by decide)
  · unfold FULLPATH_ENTRIES
    omega
  · rw [heq]
    by_cases h1 : ((s.fullpath_index (byteSum path % 100)).fullpath).headD 0 ≠ 0
    · rw [if_pos h1]
      simp only [Result.ret?]
      constructor
      · intro h
        cases h
      · intro h
        exact absurd h.1 h1
    · rw [if_neg h1]
      by_cases h2 : (s.fullpath_index (byteSum path % 100)).ip ≠ none
      · rw [if_pos h2]
        simp only [Result.ret?]
        constructor
        · intro h
          cases h
        · intro h
          exact absurd h.2 h2
      · rw [if_neg h2]
        simp only [Result.ret?, true_iff]
        exact ⟨not_not.1 h1, not_not.1 h2⟩
  · rw [heq]
    intro hr
    by_cases h1 : ((s.fullpath_index (byteSum path % 100)).fullpath).headD 0 ≠ 0
    · rw [if_pos h1] at hr
      cases hr
    · rw [if_neg h1] at hr ⊢
      by_cases h2 : (s.fullpath_index (byteSum path % 100)).ip ≠ none
      · rw [if_pos h2] at hr
        cases hr
      · rw [if_neg h2]
        rfl
  · rw [heq]
    intro hr
    by_cases h1 : ((s.fullpath_index (byteSum path % 100)).fullpath).headD 0 ≠ 0
    · rw [if_pos h1]
      exact ⟨rfl, rfl⟩
    · rw [if_neg h1] at hr ⊢
      by_cases h2 : (s.fullpath_index (byteSum path % 100)).ip ≠ none
      · rw [if_pos h2]
        exact ⟨rfl, rfl⟩
      · rw [if_neg h2] at hr
        exact absurd rfl hr
  · rw [h56]
    decide
  · have hs : pathSum envSigned.charSigned [200] 0 = -56 := h56
    unfold register_fullpath_index
    simp only [hs]
    rfl

theorem path_a_ascii : ∀ c ∈ path_a, 1 ≤ c.val ∧ c.val ≤ 127 := by
  intro c hc
  simp only [path_a, List.mem_cons, List.mem_singleton, List.not_mem_nil, or_false] at hc
  rcases hc with rfl | rfl <;> decide

theorem register_checksum_range_witness :
    path_a ≠ [] ∧ path_a.length ≤ MAXPATH ∧ (∀ c ∈ path_a, 1 ≤ c.val ∧ c.val ≤ 127) ∧
      (register_fullpath_index envRoot (rootOnly 1) path_a 2).ret? = some () ∧
      byteSum path_a % 100 = 44 ∧
      (pathSum envRoot.charSigned path_a 0 = (byteSum path_a : Int) ∧
        0 < pathSum envRoot.charSigned path_a 0 ∧
        pathSum envRoot.charSigned path_a 0 < 2 ^ 31 ∧
        Int.tmod (pathSum envRoot.charSigned path_a 0) 100 = ((byteSum path_a % 100 : Nat) : Int) ∧
        0 ≤ Int.tmod (pathSum envRoot.charSigned path_a 0) 100 ∧
        Int.tmod (pathSum envRoot.charSigned path_a 0) 100 < 100 ∧
        byteSum path_a % 100 < FULLPATH_ENTRIES ∧
        (register_fullpath_index envRoot (rootOnly 1) path_a 2).isUndefined = false ∧
        (register_fullpath_index envRoot (rootOnly 1) path_a 2).panicMsg? ≠
          some "register_fullpath_index: sum is 0" ∧
        ((register_fullpath_index envRoot (rootOnly 1) path_a 2).ret? = some () ↔
          (((rootOnly 1).fullpath_index (byteSum path_a % 100)).fullpath).headD 0 = 0 ∧
            ((rootOnly 1).fullpath_index (byteSum path_a % 100)).ip = none) ∧
        ((register_fullpath_index envRoot (rootOnly 1) path_a 2).ret? = some () →
          (register_fullpath_index envRoot (rootOnly 1) path_a 2).view
              (fun s' => s'.fullpath_index) =
            some (Function.update (rootOnly 1).fullpath_index (byteSum path_a % 100)
              ⟨strcpy path_a, some 2⟩)) ∧
        ((register_fullpath_index envRoot (rootOnly 1) path_a 2).ret? ≠ some () →
          (register_fullpath_index envRoot (rootOnly 1) path_a 2).panicked = true ∧
          (register_fullpath_index envRoot (rootOnly 1) path_a 2).haltView
              (fun t => t.fullpath_index) =
            some (rootOnly 1).fullpath_index) ∧
        pathSum true [200] 0 = -56 ∧ Int.tmod (pathSum true [200] 0) 100 = -56 ∧
        (register_fullpath_index envSigned (rootOnly 1) [200] 2).isUndefined = true) :=
  ⟨by decide, by decide, path_a_ascii, by decide, by decide,
    register_checksum_range envRoot (rootOnly 1) path_a 2 (by decide) (by decide) path_a_ascii⟩

theorem strcpy_head_of_sum_ne (signed : Bool) (path : CStr) (h : pathSum signed path 0 ≠ 0) :
    (strcpy path).headD 0 ≠ 0 := by
  cases path with
  | nil => simp [pathSum] at h
  | cons c rest =>
    by_cases hc : c = 0
    · simp [pathSum, hc] at h
    · simp [strcpy, hc]

/-- What a returning registration leaves in its bucket: the path and the inode. -/
theorem register_ok_bucket (env : Env) (s s' : State) (path : CStr) (ip : Nat) (u : Unit)
    (h : register_fullpath_index env s path ip = Result.ok s' u) :
    pathSum env.charSigned path 0 ≠ 0 ∧ 0 ≤ Int.tmod (pathSum env.charSigned path 0) 100 ∧
      s'.fullpath_index (Int.tmod (pathSum env.charSigned path 0) 100).toNat =
        ⟨strcpy path, some ip⟩ := by
  unfold register_fullpath_index at h
  simp only at h
  split at h
  · cases h
  · rename_i hne
    split at h
    · cases h
    · rename_i hnn
      split at h
      · cases h
      · split at h
        · cases h
        · simp only [Result.ok.injEq] at h
          refine ⟨hne, by omega, ?_⟩
          rw [← h.1]
          simp [State.setInode]

/-- C15: after a returning registration of a first path, the registration of a
second path whose checksum falls into the same bucket halts in `panic`, and
in the state it halts in the bucket still holds the first path and inode;
unless the second checksum is zero the message is the collision message. -/
theorem register_collision_panics (env : Env) (s : State) (p1 p2 : CStr) (i1 i2 : Nat)
    (hfirst : (register_fullpath_index env s p1 i1).ret? = some ())
    (hsame : Int.tmod (pathSum env.charSigned p2 0) 100 =
      Int.tmod (pathSum env.charSigned p1 0) 100) :
    (register_fullpath_index env s p1 i1).view
        (fun s1 => s1.fullpath_index (Int.tmod (pathSum env.charSigned p1 0) 100).toNat) =
        some ⟨strcpy p1, some i1⟩ ∧
      ((register_fullpath_index env s p1 i1).andThen
        (fun s1 _ => register_fullpath_index env s1 p2 i2)).panicked = true ∧
      ((register_fullpath_index env s p1 i1).andThen
        (fun s1 _ => register_fullpath_index env s1 p2 i2)).haltView
          (fun t => t.fullpath_index (Int.tmod (pathSum env.charSigned p1 0) 100).toNat) =
        some ⟨strcpy p1, some i1⟩ ∧
      (pathSum env.charSigned p2 0 ≠ 0 →
        ((register_fullpath_index env s p1 i1).andThen
          (fun s1 _ => register_fullpath_index env s1 p2 i2)).panicMsg? =
          some "register_fullpath_index: fullpath is not empty") := by
  cases h1 : register_fullpath_index env s p1 i1 with
  | ok s1 u =>
    obtain ⟨hne1, hnn1, hb⟩ := register_ok_bucket env s s1 p1 i1 u h1
    have hhead : ((s1.fullpath_index
        (Int.tmod (pathSum env.charSigned p1 0) 100).toNat).fullpath).headD 0 ≠ 0 := by
      rw [hb]
      exact strcpy_head_of_sum_ne env.charSigned p1 hne1
    have hnn2 : ¬ Int.tmod (pathSum env.charSigned p2 0) 100 < 0 := by
      rw [hsame]
      omega
    simp only [Result.view, Result.andThen, hb, true_and]
    by_cases h2 : pathSum env.charSigned p2 0 = 0
    · have hr : register_fullpath_index env s1 p2 i2 =
          Result.panic s1 "register_fullpath_index: sum is 0" := by
        unfold register_fullpath_index
        simp only [h2, if_true]
      rw [hr]
      exact ⟨rfl, by simp only [Result.haltView, hb], fun h => absurd h2 h⟩
    · have hr : register_fullpath_index env s1 p2 i2 =
          Result.panic s1 "register_fullpath_index: fullpath is not empty" := by
        unfold register_fullpath_index
        have hnn1' : ¬ (Int.tmod (pathSum env.charSigned p1 0) 100 < 0 ∨
            (FULLPATH_ENTRIES : Int) ≤ Int.tmod (pathSum env.charSigned p1 0) 100) := by
          have hlt : Int.tmod (pathSum env.charSigned p1 0) 100 < 100 :=
            Int.tmod_lt_of_pos _ (by decide)
          unfold FULLPATH_ENTRIES
          push_cast
          omega
        simp only [h2, if_false, hsame, hhead, ne_eq, not_false_eq_true, if_true, hnn1']
      rw [hr]
      exact ⟨rfl, by simp only [Result.haltView, hb], fun _ => rfl⟩
  | panic t m =>
    rw [h1] at hfirst
    cases hfirst
  | deadlock =>
    rw [h1] at hfirst
    cases hfirst
  | undefined =>
    rw [h1] at hfirst
    cases hfirst

theorem register_collision_panics_witness :
    (register_fullpath_index envRoot (rootOnly 1) path_a 2).ret? = some () ∧
      Int.tmod (pathSum envRoot.charSigned path_bc 0) 100 =
        Int.tmod (pathSum envRoot.charSigned path_a 0) 100 ∧
      ((register_fullpath_index envRoot (rootOnly 1) path_a 2).view
          (fun s1 =>
            s1.fullpath_index (Int.tmod (pathSum envRoot.charSigned path_a 0) 100).toNat) =
          some ⟨strcpy path_a, some 2⟩ ∧
        ((register_fullpath_index envRoot (rootOnly 1) path_a 2).andThen
          (fun s1 _ => register_fullpath_index envRoot s1 path_bc 3)).panicked = true ∧
        ((register_fullpath_index envRoot (rootOnly 1) path_a 2).andThen
          (fun s1 _ => register_fullpath_index envRoot s1 path_bc 3)).haltView
            (fun t =>
              t.fullpath_index (Int.tmod (pathSum envRoot.charSigned path_a 0) 100).toNat) =
          some ⟨strcpy path_a, some 2⟩ ∧
        (pathSum envRoot.charSigned path_bc 0 ≠ 0 →
          ((register_fullpath_index envRoot (rootOnly 1) path_a 2).andThen
            (fun s1 _ => register_fullpath_index envRoot s1 path_bc 3)).panicMsg? =
            some "register_fullpath_index: fullpath is not empty")) :=
  ⟨by decide, by decide,
    register_collision_panics envRoot (rootOnly 1) path_a path_bc 2 3 (by decide) (by decide)⟩

/-! ## Theorems: link counts under `sys_unlink` and `sys_link` -/

theorem iunlockput_nlink (env : Env) (s : State) (i j : Nat) :
    ((iunlockput env s i).inodes j).nlink = (s.inodes j).nlink :=
  iput_nlink s i (env.held i) j

theorem unlink_bad_nlink (env : Env) (t s' : State) (dp : Nat) (r : Int)
    (h : unlink_bad env t dp = Result.ok s' r) :
    r = -1 ∧ ∀ x, (s'.inodes x).nlink = (t.inodes x).nlink := by
  unfold unlink_bad at h
  simp only [Result.ok.injEq] at h
  refine ⟨h.2.symm, fun x => ?_⟩
  rw [← h.1]
  exact iunlockput_nlink env t dp x

/-- The two ways `sys_unlink` returns: -1 with every link-count as before, or
0 after the entry was found, with the link-count of its inode, which was at
least 1, lowered by one, that of the parent lowered by one when the inode is a
directory, and every other link-count as before. -/
theorem sys_unlink_returns (env : Env) (s s' : State) (path : CStr) (r : Int)
    (h : sys_unlink env s (some path) = Result.ok s' r) :
    (r = -1 ∧ ∀ x, (s'.inodes x).nlink = (s.inodes x).nlink) ∨
      (r = 0 ∧ ∃ dp name ip off, env.nameiparent path 0 = some (dp, name) ∧
        dirlookup (s.inodes dp) name = some (ip, off) ∧ ip ≠ dp ∧
        1 ≤ (s.inodes ip).nlink ∧
        (s'.inodes ip).nlink = (s.inodes ip).nlink - 1 ∧
        (∀ x, x ≠ ip → x ≠ dp → (s'.inodes x).nlink = (s.inodes x).nlink) ∧
        (s'.inodes dp).nlink =
          (s.inodes dp).nlink - (if (s.inodes ip).type = T_DIR then 1 else 0)) := by
  unfold sys_unlink at h
  simp only at h
  cases hn : env.nameiparent path 0 with
  | none =>
    rw [hn] at h
    simp only [Result.ok.injEq] at h
    left
    refine ⟨h.2.symm, fun x => ?_⟩
    rw [← h.1]
    rfl
  | some p =>
    obtain ⟨dp, name⟩ := p
    rw [hn] at h
    simp only at h
    by_cases hdot : namecmp name str_dot = 0 ∨ namecmp name str_dotdot = 0
    · rw [if_pos hdot] at h
      left
      exact unlink_bad_nlink env (begin_op s) s' dp r h
    · rw [if_neg hdot] at h
      simp only [begin_op_inodes] at h
      cases hl : dirlookup (s.inodes dp) name with
      | none =>
        rw [hl] at h
        dsimp only at h
        left
        exact unlink_bad_nlink env (begin_op s) s' dp r h
      | some q =>
        obtain ⟨ip, off⟩ := q
        rw [hl] at h
        dsimp only at h
        by_cases hipdp : ip = dp
        · rw [if_pos hipdp] at h
          cases h
        · rw [if_neg hipdp] at h
          by_cases hnl : (s.inodes ip).nlink < 1
          · rw [if_pos hnl] at h
            cases h
          · rw [if_neg hnl] at h
            cases hemp : (if (s.inodes ip).type = T_DIR then isdirempty (s.inodes ip)
                else Scan.ret 1) with
            | panic m =>
              rw [hemp] at h
              cases h
            | fuel =>
              rw [hemp] at h
              cases h
            | ret v =>
              rw [hemp] at h
              simp only at h
              by_cases hv : (s.inodes ip).type = T_DIR ∧ v = 0
              · rw [if_pos hv] at h
                left
                obtain ⟨hr, hx⟩ := unlink_bad_nlink env _ s' dp r h
                refine ⟨hr, fun x => ?_⟩
                rw [hx x]
                exact iunlockput_nlink env (begin_op s) ip x
              · rw [if_neg hv] at h
                by_cases hw : env.writei_ok dp off = false
                · rw [if_pos hw] at h
                  cases h
                · rw [if_neg hw] at h
                  simp only [Result.ok.injEq] at h
                  right
                  refine ⟨h.2.symm, dp, name, ip, off, rfl, hl, hipdp, by omega, ?_, ?_, ?_⟩
                  · rw [← h.1]
                    simp only [end_op_inodes, iunlockput_nlink, iupdate_inodes, setInode_inodes,
                      Function.update_same]
                    split
                    · simp [iunlockput_nlink, writei_dirent_inodes, Function.update, hipdp]
                    · simp [iunlockput_nlink, writei_dirent_inodes, Function.update, hipdp]
                  · intro x hx1 hx2
                    rw [← h.1]
                    simp only [end_op_inodes, iunlockput_nlink, iupdate_inodes, setInode_inodes]
                    rw [Function.update_noteq hx1, iunlockput_nlink]
                    split
                    · simp [writei_dirent_inodes, Function.update, hx2]
                    · simp [writei_dirent_inodes, Function.update, hx2]
                  · rw [← h.1]
                    simp only [end_op_inodes, iunlockput_nlink, iupdate_inodes, setInode_inodes]
                    rw [Function.update_noteq (Ne.symm hipdp), iunlockput_nlink]
                    have hs1ip : (writei_dirent (begin_op s) dp off ⟨0, []⟩).inodes ip =
                        s.inodes ip := by
                      simp [writei_dirent_inodes, Function.update, hipdp]
                    rw [hs1ip]
                    by_cases ht : (s.inodes ip).type = T_DIR
                    · simp [ht, writei_dirent_inodes]
                    · simp [ht, writei_dirent_inodes]

theorem sys_unlink_guard (env : Env) (s : State) (path : CStr) (dp : Nat) (name : CStr)
    (ip off : Nat)
    (hres : env.nameiparent path 0 = some (dp, name))
    (hnd : ¬ (namecmp name str_dot = 0 ∨ namecmp name str_dotdot = 0))
    (hl : dirlookup (s.inodes dp) name = some (ip, off))
    (hn : (s.inodes ip).nlink < 1) :
    (sys_unlink env s (some path)).ret? = none ∧
      (ip ≠ dp →
        sys_unlink env s (some path) = Result.panic (begin_op s) "unlink: nlink < 1") := by
  unfold sys_unlink
  simp only [hres, if_neg hnd, begin_op_inodes, hl]
  by_cases hipdp : ip = dp
  · rw [if_pos hipdp]
    exact ⟨rfl, fun h => absurd hipdp h⟩
  · rw [if_neg hipdp, if_pos hn]
    exact ⟨rfl, fun _ => rfl⟩

/-- The guard of `sys_unlink`, which holds as specified: when the entry named
to `sys_unlink` (not "." or "..") refers to an
inode whose link-count is below 1, the call does not return: it halts in the
panic "unlink: nlink < 1" in a state whose inode store is the one before the
call (or, were the entry to refer to its own directory, waits for the lock it
holds); so a call that returns found a link-count of at least 1 and leaves the
link-count of that inode at 0 or more, and no link-count other than that of
the parent directory goes from 0 or more to below 0. -/
theorem sys_unlink_nlink_guard (env : Env) (s : State) (path : CStr) (dp : Nat) (name : CStr)
    (ip off : Nat)
    (hres : env.nameiparent path 0 = some (dp, name))
    (hnd : ¬ (namecmp name str_dot = 0 ∨ namecmp name str_dotdot = 0))
    (hl : dirlookup (s.inodes dp) name = some (ip, off)) :
    ((s.inodes ip).nlink < 1 →
        (sys_unlink env s (some path)).ret? = none ∧
        (ip ≠ dp →
          sys_unlink env s (some path) = Result.panic (begin_op s) "unlink: nlink < 1") ∧
        (begin_op s).inodes = s.inodes) ∧
      (∀ s' r, sys_unlink env s (some path) = Result.ok s' r →
        1 ≤ (s.inodes ip).nlink ∧ 0 ≤ (s'.inodes ip).nlink ∧
        ∀ x, x ≠ dp → 0 ≤ (s.inodes x).nlink → 0 ≤ (s'.inodes x).nlink) := by
  constructor
  · intro hn
    obtain ⟨h1, h2⟩ := sys_unlink_guard env s path dp name ip off hres hnd hl hn
    exact ⟨h1, h2, rfl⟩
  · intro s' r hok
    have hge : 1 ≤ (s.inodes ip).nlink := by
      by_contra hcon
      have := (sys_unlink_guard env s path dp name ip off hres hnd hl (by omega)).1
      rw [hok] at this
      cases this
    rcases sys_unlink_returns env s s' path r hok with ⟨_, hx⟩ | ⟨_, dp', name', ip', off', h1, h2, h3, _, h5, h6, _⟩
    · refine ⟨hge, ?_, fun x _ hx0 => ?_⟩
      · rw [hx ip]
        omega
      · rw [hx x]
        exact hx0
    · rw [hres] at h1
      simp only [Option.some.injEq, Prod.mk.injEq] at h1
      obtain ⟨hd, hnm⟩ := h1
      subst hd
      subst hnm
      rw [hl] at h2
      simp only [Option.some.injEq, Prod.mk.injEq] at h2
      obtain ⟨hi, _⟩ := h2
      subst hi
      refine ⟨hge, ?_, fun x hxdp hx0 => ?_⟩
      · rw [h5]
        omega
      · by_cases hxi : x = ip
        · rw [hxi, h5]
          omega
        · rw [h6 x hxi hxdp]
          exact hx0

theorem sys_unlink_nlink_guard_witness :
    envRoot.nameiparent path_a 0 = some (ROOTINO, path_a.tail) ∧
      ¬ (namecmp path_a.tail str_dot = 0 ∨ namecmp path_a.tail str_dotdot = 0) ∧
      dirlookup ((rootWithFile 0).inodes ROOTINO) path_a.tail = some (2, 32) ∧
      ((((rootWithFile 0).inodes 2).nlink < 1 →
          (sys_unlink envRoot (rootWithFile 0) (some path_a)).ret? = none ∧
          (2 ≠ ROOTINO →
            sys_unlink envRoot (rootWithFile 0) (some path_a) =
              Result.panic (begin_op (rootWithFile 0)) "unlink: nlink < 1") ∧
          (begin_op (rootWithFile 0)).inodes = (rootWithFile 0).inodes) ∧
        (∀ s' r, sys_unlink envRoot (rootWithFile 0) (some path_a) = Result.ok s' r →
          1 ≤ ((rootWithFile 0).inodes 2).nlink ∧ 0 ≤ (s'.inodes 2).nlink ∧
          ∀ x, x ≠ ROOTINO → 0 ≤ ((rootWithFile 0).inodes x).nlink → 0 ≤ (s'.inodes x).nlink)) :=
  ⟨by decide, by decide, by decide,
    sys_unlink_nlink_guard envRoot (rootWithFile 0) path_a ROOTINO path_a.tail 2 32
      (by decide) (by decide) (by decide)⟩

theorem link_bad_spec (env : Env) (t : State) (ip : Nat) :
    ∃ t', link_bad env t ip = Result.ok t' (-1) ∧
      ∀ x, (t'.inodes x).nlink =
        if x = ip then (t.inodes ip).nlink - 1 else (t.inodes x).nlink := by
  refine ⟨_, rfl, fun x => ?_⟩
  simp only [end_op_inodes, iunlockput_nlink, iupdate_inodes, setInode_inodes]
  by_cases hx : x = ip
  · subst hx
    simp
  · simp [Function.update, hx]

/-- The store after the increment of `sys_link`. -/
theorem link_bump_nlink (s : State) (ip x : Nat) :
    ((iupdate ((begin_op s).setInode ip
        { (begin_op s).inodes ip with nlink := ((begin_op s).inodes ip).nlink + 1 }) ip).inodes
        x).nlink =
      if x = ip then (s.inodes ip).nlink + 1 else (s.inodes x).nlink := by
  simp only [iupdate_inodes, setInode_inodes, begin_op_inodes]
  by_cases hx : x = ip
  · subst hx
    simp
  · simp [Function.update, hx]

/-- The ways `sys_link` returns: -1 with every link-count as before the call,
or 0 with the link-count of the inode incremented, the new entry written into
the first free slot of the parent, and the two references dropped. -/
theorem sys_link_cases (env : Env) (s : State) (o n : CStr) :
    ∃ s' r, sys_link env s (some o) (some n) = Result.ok s' r ∧
      ((r = -1 ∧ ∀ x, (s'.inodes x).nlink = (s.inodes x).nlink) ∨
        (r = 0 ∧ ∃ ip dp name, env.namei o = some ip ∧ env.nameiparent n 0 = some (dp, name) ∧
          (s.inodes ip).type ≠ T_DIR ∧
          dirlookup
            (Function.update s.inodes ip
              { s.inodes ip with nlink := (s.inodes ip).nlink + 1 } dp) name = none ∧
          s'.inodes =
            iputσ
              (iputσ
                (Function.update
                  (Function.update s.inodes ip
                    { s.inodes ip with nlink := (s.inodes ip).nlink + 1 })
                  dp
                  (putSlot
                    (Function.update s.inodes ip
                      { s.inodes ip with nlink := (s.inodes ip).nlink + 1 } dp)
                    (sizeof_de * freeIdx
                      (Function.update s.inodes ip
                        { s.inodes ip with nlink := (s.inodes ip).nlink + 1 } dp).slots)
                    ⟨ip, name⟩))
                dp (env.held dp))
              ip (env.held ip))) := by
  unfold sys_link
  simp only
  cases hn : env.namei o with
  | none => exact ⟨_, _, rfl, Or.inl ⟨rfl, fun x => rfl⟩⟩
  | some ip =>
    simp only
    by_cases hd : ((begin_op s).inodes ip).type = T_DIR
    · rw [if_pos hd]
      refine ⟨_, _, rfl, Or.inl ⟨rfl, fun x => ?_⟩⟩
      simp only [end_op_inodes, iunlockput_nlink]
      rfl
    · rw [if_neg hd]
      have hbump := link_bump_nlink s ip
      generalize hs1 : (iupdate ((begin_op s).setInode ip
        { (begin_op s).inodes ip with nlink := ((begin_op s).inodes ip).nlink + 1 }) ip) = s1
        at hbump
      have hs1i : s1.inodes = Function.update s.inodes ip
          { s.inodes ip with nlink := (s.inodes ip).nlink + 1 } := by
        rw [← hs1]
        rfl
      have hback : ∀ t : State, (∀ x, (t.inodes x).nlink = (s1.inodes x).nlink) →
          ∃ s' r, link_bad env t ip = Result.ok s' r ∧
            ((r = -1 ∧ ∀ x, (s'.inodes x).nlink = (s.inodes x).nlink) ∨
              (r = 0 ∧ ∃ ip' dp name, some ip = some ip' ∧
                env.nameiparent n 0 = some (dp, name) ∧
                (s.inodes ip').type ≠ T_DIR ∧
                dirlookup
                  (Function.update s.inodes ip'
                    { s.inodes ip' with nlink := (s.inodes ip').nlink + 1 } dp) name = none ∧
                False)) := by
        intro t ht
        obtain ⟨t', ht', hx⟩ := link_bad_spec env t ip
        refine ⟨t', -1, ht', Or.inl ⟨rfl, fun x => ?_⟩⟩
        rw [hx x, ht ip, hbump ip]
        by_cases hxi : x = ip
        · subst hxi
          simp
        · simp only [hxi, if_false, ht x, hbump x]
      cases hp : env.nameiparent n 0 with
      | none =>
        simp only
        obtain ⟨s', r, h1, h2⟩ := hback s1 (fun x => rfl)
        refine ⟨s', r, h1, ?_⟩
        rcases h2 with h2 | ⟨_, _, _, _, _, hp', _⟩
        · exact Or.inl h2
        · rw [hp] at hp'
          cases hp'
      | some p =>
        obtain ⟨dp, name⟩ := p
        simp only
        by_cases hdev : (s1.inodes dp).dev ≠ (s1.inodes ip).dev
        · rw [if_pos hdev]
          obtain ⟨s', r, h1, h2⟩ := hback (iunlockput env s1 dp)
            (fun x => iunlockput_nlink env s1 dp x)
          refine ⟨s', r, h1, ?_⟩
          rcases h2 with h2 | ⟨_, _, _, _, _, _, _, _, hf⟩
          · exact Or.inl h2
          · exact absurd hf id
        · rw [if_neg hdev]
          rcases dirlink_cases env s1 dp name ip with hf | ⟨hl, _, hok⟩
          · rw [hf]
            simp only [Int.reduceNeg, Int.reduceLT, if_true]
            obtain ⟨s', r, h1, h2⟩ := hback (iunlockput env s1 dp)
              (fun x => iunlockput_nlink env s1 dp x)
            refine ⟨s', r, h1, ?_⟩
            rcases h2 with h2 | ⟨_, _, _, _, _, _, _, _, hf'⟩
            · exact Or.inl h2
            · exact absurd hf' id
          · rw [hok]
            simp only [lt_self_iff_false, if_false]
            refine ⟨_, _, rfl, Or.inr ⟨rfl, ip, dp, name, rfl, rfl, hd, ?_, ?_⟩⟩
            · rw [← hs1i]
              exact hl
            · simp only [end_op_inodes, iput_inodes_eq, iunlockput, writei_dirent_inodes, hs1i]

/-- C13: whenever `sys_link` returns -1, the link-count of every inode, that
of the inode named by `old` included, is what it was before the call: each
failure after the increment undoes it by one decrement. -/
theorem sys_link_failure_restores (env : Env) (s : State) (old new : Option CStr)
    (hret : (sys_link env s old new).ret? = some (-1)) :
    (∀ x, (sys_link env s old new).view (fun s' => (s'.inodes x).nlink) =
        some (s.inodes x).nlink) ∧
      (∀ ip o, old = some o → env.namei o = some ip →
        (sys_link env s old new).view (fun s' => (s'.inodes ip).nlink) =
          some (s.inodes ip).nlink) := by
  have hall : ∀ x, (sys_link env s old new).view (fun s' => (s'.inodes x).nlink) =
      some (s.inodes x).nlink := by
    intro x
    cases old with
    | none => rfl
    | some o =>
      cases new with
      | none => rfl
      | some n =>
        obtain ⟨s', r, h1, h2⟩ := sys_link_cases env s o n
        rw [h1] at hret ⊢
        simp only [Result.ret?, Option.some.injEq] at hret
        rcases h2 with ⟨_, hx⟩ | ⟨hr, _⟩
        · simp only [Result.view, hx x]
        · rw [hr] at hret
          cases hret
  exact ⟨hall, fun ip _ _ _ => hall ip⟩

theorem sys_link_failure_restores_witness :
    (sys_link envNoParent (rootWithFile 1) (some path_a) (some path_bc)).ret? = some (-1) ∧
      ((∀ x, (sys_link envNoParent (rootWithFile 1) (some path_a) (some path_bc)).view
            (fun s' => (s'.inodes x).nlink) =
          some ((rootWithFile 1).inodes x).nlink) ∧
        (∀ ip o, some path_a = some o → envNoParent.namei o = some ip →
          (sys_link envNoParent (rootWithFile 1) (some path_a) (some path_bc)).view
              (fun s' => (s'.inodes ip).nlink) =
            some ((rootWithFile 1).inodes ip).nlink)) :=
  ⟨by decide,
    sys_link_failure_restores envNoParent (rootWithFile 1) (some path_a) (some path_bc)
      (by decide)⟩

theorem iputσ_slots (σ : Nat → Inode) (i j : Nat) (h : Bool) :
    (iputσ σ i h j).slots = (σ j).slots ∨ (iputσ σ i h j).slots = [] := by
  unfold iputσ
  split
  · by_cases hj : j = i
    · subst hj
      right
      simp
    · left
      simp [Function.update, hj]
  · left
    rfl

theorem dirlookup_congr (d d' : Inode) (name : CStr) (h : d.slots = d'.slots) :
    dirlookup d name = dirlookup d' name := by
  unfold dirlookup
  rw [h]

theorem dirlookup_nil (d : Inode) (name : CStr) (h : d.slots = []) :
    dirlookup d name = none := by
  unfold dirlookup
  rw [h]
  rfl

/-- A lookup of `name` in a directory that did not hold it, after an entry
`(T, name)` was written, finds `T`. -/
theorem dirlookup_putSlot_fresh (d : Inode) (name : CStr) (T off ip o : Nat)
    (hnone : dirlookup d name = none)
    (h : dirlookup (putSlot d off ⟨T, name⟩) name = some (ip, o)) : ip = T := by
  obtain ⟨k, e, _, hk, hin, hne, hcmp⟩ := dirlookup_some _ _ _ _ h
  have hmem : e ∈ (putSlot d off ⟨T, name⟩).slots := List.getElem?_mem hk
  have hold : e ∉ d.slots := by
    intro hm
    exact (dirlookup_none d name).1 hnone e hm ⟨by rw [hin]; exact hne, hcmp⟩
  have he : e = ⟨T, name⟩ := by
    unfold putSlot at hmem
    split at hmem
    · rcases List.mem_or_eq_of_mem_set hmem with hm | hm
      · exact absurd hm hold
      · exact hm
    · simp only [List.mem_append, List.mem_singleton] at hmem
      rcases hmem with hm | hm
      · exact absurd hm hold
      · exact hm
  rw [← hin, he]

/-- C12: if `old` names the inode `T`, `sys_link(old, new)` returns 0 and the
`sys_unlink(new)` made in the state it leaves returns 0 as well, the parent of
`new` resolving as it did for the link, then the link-count of `T` after the
two calls is its value before the link. A link that returns 0 has checked that
`T` is not a directory, that the parent of `new` is on the device of `T` and
that the name was not in use. -/
theorem link_then_unlink_restores (env env2 : Env) (s : State) (old new : CStr) (T : Nat)
    (hold : env.namei old = some T)
    (hpar : env2.nameiparent new 0 = env.nameiparent new 0)
    (hlink : (sys_link env s (some old) (some new)).ret? = some 0)
    (hunlink : ((sys_link env s (some old) (some new)).andThen
        (fun s1 _ => sys_unlink env2 s1 (some new))).ret? = some 0) :
    ((sys_link env s (some old) (some new)).andThen
        (fun s1 _ => sys_unlink env2 s1 (some new))).view (fun s2 => (s2.inodes T).nlink) =
      some (s.inodes T).nlink := by
  obtain ⟨s1, r, h1, h2⟩ := sys_link_cases env s old new
  rw [h1] at hlink hunlink ⊢
  simp only [Result.ret?, Option.some.injEq] at hlink
  subst hlink
  simp only [Result.andThen] at hunlink ⊢
  rcases h2 with ⟨hr, _⟩ | ⟨_, ip, dp, name, hn, hp, hd, hl, hσ⟩
  · cases hr
  · rw [hold] at hn
    cases hn
    cases hu : sys_unlink env2 s1 (some new) with
    | ok s2 r2 =>
      rw [hu] at hunlink
      simp only [Result.ret?, Option.some.injEq] at hunlink
      subst hunlink
      simp only [Result.view, Option.some.injEq]
      rcases sys_unlink_returns env2 s1 s2 new 0 hu with ⟨hr, _⟩ |
        ⟨_, dp', name', ip', off, hp', hlook, hne, _, hnl, _, _⟩
      · cases hr
      · rw [hpar, hp] at hp'
        simp only [Option.some.injEq, Prod.mk.injEq] at hp'
        obtain ⟨hdp, hname⟩ := hp'
        subst hdp
        subst hname
        have hip : ip' = T := by
          rw [hσ] at hlook
          rcases iputσ_slots
              (iputσ
                (Function.update
                  (Function.update s.inodes T
                    { s.inodes T with nlink := (s.inodes T).nlink + 1 })
                  dp
                  (putSlot
                    (Function.update s.inodes T
                      { s.inodes T with nlink := (s.inodes T).nlink + 1 } dp)
                    (sizeof_de * freeIdx
                      (Function.update s.inodes T
                        { s.inodes T with nlink := (s.inodes T).nlink + 1 } dp).slots)
                    ⟨T, name⟩))
                dp (env.held dp))
              T dp (env.held T) with h3 | h3
          · rcases iputσ_slots
                (Function.update
                  (Function.update s.inodes T
                    { s.inodes T with nlink := (s.inodes T).nlink + 1 })
                  dp
                  (putSlot
                    (Function.update s.inodes T
                      { s.inodes T with nlink := (s.inodes T).nlink + 1 } dp)
                    (sizeof_de * freeIdx
                      (Function.update s.inodes T
                        { s.inodes T with nlink := (s.inodes T).nlink + 1 } dp).slots)
                    ⟨T, name⟩))
                dp dp (env.held dp) with h4 | h4
            · rw [dirlookup_congr _ _ name (h3.trans h4)] at hlook
              simp only [Function.update_same] at hlook
              exact dirlookup_putSlot_fresh _ name T _ ip' off hl hlook
            · rw [dirlookup_nil _ name (h3.trans h4)] at hlook
              cases hlook
          · rw [dirlookup_nil _ name h3] at hlook
            cases hlook
        subst hip
        rw [hnl, hσ, iputσ_nlink, iputσ_nlink]
        simp only [Function.update_noteq hne, Function.update_same]
        omega
    | panic t m =>
      rw [hu] at hunlink
      cases hunlink
    | deadlock =>
      rw [hu] at hunlink
      cases hunlink
    | undefined =>
      rw [hu] at hunlink
      cases hunlink

set_option maxRecDepth 100000 in
theorem link_then_unlink_restores_witness :
    envFile.namei path_a = some 2 ∧
      envFile.nameiparent path_bc 0 = envFile.nameiparent path_bc 0 ∧
      (sys_link envFile (rootWithFile 1) (some path_a) (some path_bc)).ret? = some 0 ∧
      ((sys_link envFile (rootWithFile 1) (some path_a) (some path_bc)).andThen
          (fun s1 _ => sys_unlink envFile s1 (some path_bc))).ret? = some 0 ∧
      ((sys_link envFile (rootWithFile 1) (some path_a) (some path_bc)).andThen
          (fun s1 _ => sys_unlink envFile s1 (some path_bc))).view
          (fun s2 => (s2.inodes 2).nlink) =
        some ((rootWithFile 1).inodes 2).nlink :=
  ⟨rfl, rfl, by decide, by decide,
    link_then_unlink_restores envFile envFile (rootWithFile 1) path_a path_bc 2 rfl rfl
      (by decide) (by decide)⟩


/-- C14: returning runs of `sys_unlink` take a link-count below 0. From a
store holding only the root directory with link-count 1, `open("/passwd", O_CREATE|O_RDWR)` returns
descriptor 0 and `unlink("/passwd")` returns 0, leaving the root with
link-count 0; the same two calls for "/group" return descriptor 1 and 0 and
leave the root with link-count -1. The new file, still open, was given type
T_DIR by `register_fullpath_index`, so `sys_unlink` decrements the link-count
of the parent, which no guard protects. -/
theorem unlink_parent_count_below_zero :
    (sys_open envRootHeld (rootOnly 1) (some str_passwd) (O_CREATE ||| O_RDWR)).ret? = some 0 ∧
      (openUnlink (rootOnly 1) str_passwd).ret? = some 0 ∧
      (openUnlink (rootOnly 1) str_passwd).view (fun s => (s.inodes ROOTINO).nlink) = some 0 ∧
      ((openUnlink (rootOnly 1) str_passwd).andThen (fun s _ => openUnlink s str_group)).ret? =
        some 0 ∧
      ((openUnlink (rootOnly 1) str_passwd).andThen (fun s _ => openUnlink s str_group)).view
          (fun s => (s.inodes ROOTINO).nlink) = some (-1) := by
  refine ⟨by decide, by decide, by decide, by decide, by decide⟩

/-! ## Theorems: sys_pipe -/

theorem filealloc_frame (s : State) :
    (filealloc s).1.ofile = s.ofile ∧ (filealloc s).1.trace = s.trace ∧
      (filealloc s).1.inodes = s.inodes := by
  unfold filealloc
  split
  · exact ⟨rfl, rfl, rfl⟩
  · exact ⟨rfl, rfl, rfl⟩

/-- Closing an open-file object that is not inode-backed records the one call
and touches neither the descriptor table nor the kind of any other object. -/
theorem fileclose_plain (env : Env) (s : State) (f : Nat)
    (h : ¬ ((s.files f).type = FD_INODE ∨ (s.files f).type = FD_DEVICE)) :
    (fileclose env s f).ofile = s.ofile ∧
      (fileclose env s f).trace = s.trace ++ [Ev.fileclose f] ∧
      ∀ g, ((fileclose env s f).files g).type = (s.files g).type ∨
        ((fileclose env s f).files g).type = FD_NONE := by
  have h' : ¬ (((s.log (Ev.fileclose f)).files f).type = FD_INODE ∨
      ((s.log (Ev.fileclose f)).files f).type = FD_DEVICE) := h
  unfold fileclose
  simp only
  split
  · refine ⟨rfl, rfl, fun g => ?_⟩
    left
    by_cases hg : g = f
    · subst hg
      simp [State.log]
    · simp [State.log, Function.update, hg]
  · try rw [if_neg h']
    refine ⟨rfl, rfl, fun g => ?_⟩
    by_cases hg : g = f
    · subst hg
      right
      simp [State.log]
    · left
      simp [State.log, Function.update, hg]

/-- The cleanup of `sys_pipe`: the two ends of a fresh pipe are each closed
once, and the descriptor table is not touched by the closes. -/
theorem close_pair (env : Env) (t : State) (rf wf : Nat)
    (h1 : (t.files rf).type = FD_PIPE) (h2 : (t.files wf).type = FD_PIPE) :
    (fileclose env (fileclose env t rf) wf).ofile = t.ofile ∧
      (fileclose env (fileclose env t rf) wf).trace =
        t.trace ++ [Ev.fileclose rf, Ev.fileclose wf] := by
  have hp1 : ¬ ((t.files rf).type = FD_INODE ∨ (t.files rf).type = FD_DEVICE) := by
    rw [h1]
    decide
  obtain ⟨ho, ht, hk⟩ := fileclose_plain env t rf hp1
  have hp2 : ¬ (((fileclose env t rf).files wf).type = FD_INODE ∨
      ((fileclose env t rf).files wf).type = FD_DEVICE) := by
    rcases hk wf with h | h
    · rw [h, h2]
      decide
    · rw [h]
      decide
  obtain ⟨ho2, ht2, _⟩ := fileclose_plain env (fileclose env t rf) wf hp2
  refine ⟨ho2.trans ho, ?_⟩
  rw [ht2, ht]
  simp

theorem filealloc_cases (s : State) :
    filealloc s = (s, none) ∨
      ∃ f, (s.files f).ref = 0 ∧
        filealloc s =
          ({ s with files := Function.update s.files f { s.files f with ref := 1 } }, some f) := by
  unfold filealloc
  cases hf : (List.range NFILE).find? (fun f => decide ((s.files f).ref = 0)) with
  | none => exact Or.inl rfl
  | some f =>
    right
    have := List.find?_some hf
    exact ⟨f, by simpa using this, rfl⟩

/-- What `pipealloc` hands out: two distinct objects of kind FD_PIPE, the
first readable and the second writable; the descriptor table is as before. -/
theorem pipealloc_some (env : Env) (s : State) (rf wf : Nat)
    (h : (pipealloc env s).2 = some (rf, wf)) :
    (pipealloc env s).1.ofile = s.ofile ∧
      ((pipealloc env s).1.files rf).type = FD_PIPE ∧
      ((pipealloc env s).1.files wf).type = FD_PIPE ∧
      rf ≠ wf ∧
      ((pipealloc env s).1.files rf).readable = true ∧
      ((pipealloc env s).1.files wf).writable = true := by
  unfold pipealloc at h ⊢
  rcases filealloc_cases s with h0 | ⟨f0, hz0, h0⟩
  · rw [h0] at h
    cases h
  · rw [h0] at h ⊢
    simp only at h ⊢
    rcases filealloc_cases
        { s with files := Function.update s.files f0 { s.files f0 with ref := 1 } } with
      h1 | ⟨f1, hz1, h1⟩
    · rw [h1] at h
      cases h
    · rw [h1] at h ⊢
      simp only at h ⊢
      by_cases hk : env.kalloc_ok = false
      · rw [if_pos hk] at h
        cases h
      · rw [if_neg hk] at h ⊢
        simp only [Option.some.injEq, Prod.mk.injEq] at h
        obtain ⟨hrf, hwf⟩ := h
        subst hrf
        subst hwf
        have hne : f0 ≠ f1 := by
          intro he
          subst he
          simp at hz1
        simp [Function.update, hne, Ne.symm hne]

theorem clear_one (o : Nat → Option Nat) (i : Nat) (f : Nat) (hi : o i = none) :
    Function.update (Function.update o i (some f)) i none = o := by
  funext k
  by_cases hk : k = i
  · subst hk
    simp [hi]
  · simp [Function.update, hk]

theorem clear_two (o : Nat → Option Nat) (i j : Nat) (f g : Nat) (hi : o i = none)
    (hj : o j = none) :
    Function.update
        (Function.update (Function.update (Function.update o i (some f)) j (some g)) i none)
        j none = o := by
  funext k
  by_cases hk : k = j
  · subst hk
    simp [hj]
  · by_cases hk2 : k = i
    · subst hk2
      simp [Function.update, hk, hi]
    · simp [Function.update, hk, hk2]

/-- The outcomes of `sys_pipe` once `pipealloc` has handed out the pair
`(rf, wf)`, each with its cause. -/
theorem sys_pipe_cases (env : Env) (s : State) (rf wf : Nat)
    (hp : (pipealloc env s).2 = some (rf, wf)) :
    (PipeFailure env s ∧
        (sys_pipe env s).ret? = some (-1, none) ∧
        (sys_pipe env s).view (fun s' => s'.ofile) = some s.ofile ∧
        (sys_pipe env s).view (fun s' => s'.trace) =
          some ((pipealloc env s).1.trace ++ [Ev.fileclose rf, Ev.fileclose wf])) ∨
      (¬ PipeFailure env s ∧ ∃ fd0 fd1 : Nat,
        (sys_pipe env s).ret? = some (0, some ((fd0 : Int), (fd1 : Int))) ∧
        fd0 ≠ fd1 ∧ fd0 < fd1 ∧ fd1 < NOFILE ∧
        s.ofile fd0 = none ∧ s.ofile fd1 = none ∧
        (∀ j, j < fd0 → s.ofile j ≠ none) ∧
        (∀ j, j < fd1 → j ≠ fd0 → s.ofile j ≠ none) ∧
        (sys_pipe env s).view (fun s' => s'.ofile) =
          some (Function.update (Function.update s.ofile fd0 (some rf)) fd1 (some wf)) ∧
        (sys_pipe env s).view (fun s' => s'.trace) = some (pipealloc env s).1.trace ∧
        (sys_pipe env s).view (fun s' => ((s'.files rf).readable, (s'.files wf).writable)) =
          some (true, true)) := by
  obtain ⟨hof, ht1, ht2, _, hrd, hwr⟩ := pipealloc_some env s rf wf hp
  have hpa : pipealloc env s = ((pipealloc env s).1, some (rf, wf)) := Prod.ext rfl hp
  generalize (pipealloc env s).1 = s1 at hof ht1 ht2 hrd hwr hpa
  unfold sys_pipe PipeFailure
  rw [hpa]
  simp only
  rw [← hof]
  by_cases he0 : ∃ i, i < NOFILE ∧ s1.ofile i = none
  · obtain ⟨i, hi, hnone, hmin, hfd, hsome, hoth, hst⟩ := (fdalloc_cases s1 rf).1 he0
    have h0 : fdalloc s1 rf =
        ({ s1 with ofile := Function.update s1.ofile i (some rf) }, (i : Int)) :=
      Prod.ext hst hfd
    rw [h0]
    simp only
    have hi0 : ¬ ((i : Int) < 0) := by omega
    rw [if_neg hi0]
    by_cases he1 : ∃ j, j < NOFILE ∧
        ({ s1 with ofile := Function.update s1.ofile i (some rf) } : State).ofile j = none
    · obtain ⟨j, hj, hnone1, hmin1, hfd1, _, _, hst1⟩ :=
        (fdalloc_cases { s1 with ofile := Function.update s1.ofile i (some rf) } wf).1 he1
      have h1 : fdalloc { s1 with ofile := Function.update s1.ofile i (some rf) } wf =
          ({ s1 with ofile :=
              Function.update (Function.update s1.ofile i (some rf)) j (some wf) },
            (j : Int)) :=
        Prod.ext hst1 hfd1
      rw [h1]
      simp only
      have hj0 : ¬ ((j : Int) < 0) := by omega
      rw [if_neg hj0]
      have hji : j ≠ i := by
        intro he
        rw [he] at hnone1
        simp at hnone1
      have hnj : s1.ofile j = none := by
        simpa [Function.update, hji] using hnone1
      have hlt : i < j := by
        rcases Nat.lt_or_ge i j with h | h
        · exact h
        · exact absurd hnj (hmin j (by omega))
      by_cases hc : env.copyout_ok 0 = false ∨ env.copyout_ok 4 = false
      · rw [if_pos hc]
        left
        obtain ⟨ho, htr⟩ := close_pair env
          (clearfd
            (clearfd
              { s1 with
                ofile := Function.update (Function.update s1.ofile i (some rf)) j (some wf) }
              (i : Int))
            (j : Int)) rf wf ht1 ht2
        refine ⟨Or.inr (Or.inr hc), rfl, ?_, ?_⟩
        · simp only [Result.view, Option.some.injEq]
          rw [ho]
          simp only [clearfd, Int.toNat_ofNat]
          exact clear_two s1.ofile i j rf wf hnone hnj
        · simp only [Result.view, Option.some.injEq]
          rw [htr]
          rfl
      · rw [if_neg hc]
        right
        refine ⟨?_, i, j, rfl, Ne.symm hji, hlt, hj, hnone, hnj, hmin, ?_, rfl, rfl, ?_⟩
        · intro hcause
          rcases hcause with hfull | ⟨k, _, _, hoth⟩ | hcc
          · exact hfull i hi hnone
          · by_cases hik : i = k
            · exact hoth j hj (fun h => hji (h.trans hik.symm)) hnj
            · exact hoth i hi hik hnone
          · exact hc hcc
        · intro k hk hki
          have := hmin1 k hk
          simpa [Function.update, hki] using this
        · simp only [Result.view, Option.some.injEq, Prod.mk.injEq]
          exact ⟨hrd, hwr⟩
    · have hfull : ∀ j, j < NOFILE →
          ({ s1 with ofile := Function.update s1.ofile i (some rf) } : State).ofile j ≠ none := by
        intro j hj hn
        exact he1 ⟨j, hj, hn⟩
      obtain ⟨hfd1, hst1⟩ :=
        (fdalloc_cases { s1 with ofile := Function.update s1.ofile i (some rf) } wf).2 hfull
      have h1 : fdalloc { s1 with ofile := Function.update s1.ofile i (some rf) } wf =
          ({ s1 with ofile := Function.update s1.ofile i (some rf) }, -1) :=
        Prod.ext hst1 hfd1
      rw [h1]
      simp only [Int.reduceNeg, Int.reduceLT, if_true]
      left
      obtain ⟨ho, htr⟩ := close_pair env
        (clearfd { s1 with ofile := Function.update s1.ofile i (some rf) } (i : Int))
        rf wf ht1 ht2
      refine ⟨Or.inr (Or.inl ⟨i, hi, hnone, fun k hk hki => ?_⟩), rfl, ?_, ?_⟩
      · have := hfull k hk
        simpa [Function.update, hki] using this
      · simp only [Result.view, Option.some.injEq]
        rw [ho]
        simp only [clearfd, Int.toNat_ofNat]
        exact clear_one s1.ofile i rf hnone
      · simp only [Result.view, Option.some.injEq]
        rw [htr]
        rfl
  · have hfull : ∀ j, j < NOFILE → s1.ofile j ≠ none := by
      intro j hj hn
      exact he0 ⟨j, hj, hn⟩
    obtain ⟨hfd, hst⟩ := (fdalloc_cases s1 rf).2 hfull
    have h0 : fdalloc s1 rf = (s1, -1) := Prod.ext hst hfd
    rw [h0]
    simp only [Int.reduceNeg, Int.reduceLT, if_true]
    left
    obtain ⟨ho, htr⟩ := close_pair env s1 rf wf ht1 ht2
    refine ⟨Or.inl hfull, rfl, ?_, ?_⟩
    · simp only [Result.view, Option.some.injEq]
      exact ho
    · simp only [Result.view, Option.some.injEq]
      exact htr

/-- C17: when `pipealloc` has handed out the pair `(rf, wf)`, `sys_pipe`
returns -1 exactly when the first descriptor allocation fails (no empty slot),
the second fails (one empty slot only) or the copy of a descriptor to the
caller fails. In each of these cases the descriptor table is the one before
the call and the calls made after `pipealloc` are exactly one `fileclose` of
`rf` and one of `wf`. In every other case it returns 0 with descriptors `fd0`
for the read end and `fd1` for the write end, where `fd0` is the first empty
slot of the table before the call and `fd1` the next empty one, so the two are
distinct and both were empty; the table differs from the one before only in
holding `rf` at `fd0` and `wf` at `fd1`, and nothing has been closed. -/
theorem sys_pipe_cleanup (env : Env) (s : State) (rf wf : Nat)
    (hp : (pipealloc env s).2 = some (rf, wf)) :
    ((sys_pipe env s).ret? = some (-1, none) ↔ PipeFailure env s) ∧
      (PipeFailure env s →
        (sys_pipe env s).view (fun s' => s'.ofile) = some s.ofile ∧
        (sys_pipe env s).view (fun s' => s'.trace) =
          some ((pipealloc env s).1.trace ++ [Ev.fileclose rf, Ev.fileclose wf])) ∧
      (¬ PipeFailure env s → ∃ fd0 fd1 : Nat,
        (sys_pipe env s).ret? = some (0, some ((fd0 : Int), (fd1 : Int))) ∧
        fd0 ≠ fd1 ∧ fd0 < fd1 ∧ fd1 < NOFILE ∧
        s.ofile fd0 = none ∧ s.ofile fd1 = none ∧
        (∀ j, j < fd0 → s.ofile j ≠ none) ∧
        (∀ j, j < fd1 → j ≠ fd0 → s.ofile j ≠ none) ∧
        (sys_pipe env s).view (fun s' => s'.ofile) =
          some (Function.update (Function.update s.ofile fd0 (some rf)) fd1 (some wf)) ∧
        (sys_pipe env s).view (fun s' => s'.trace) = some (pipealloc env s).1.trace ∧
        (sys_pipe env s).view (fun s' => ((s'.files rf).readable, (s'.files wf).writable)) =
          some (true, true)) := by
  rcases sys_pipe_cases env s rf wf hp with ⟨hc, hr, ho, ht⟩ | ⟨hc, fd0, fd1, hr, hrest⟩
  · exact ⟨⟨fun _ => hc, fun _ => hr⟩, fun _ => ⟨ho, ht⟩, fun hn => absurd hc hn⟩
  · refine ⟨⟨fun h => ?_, fun h => absurd h hc⟩, fun h => absurd h hc,
      fun _ => ⟨fd0, fd1, hr, hrest⟩⟩
    rw [hr] at h
    simp at h

theorem rootOnly_pipe_no_failure (n : Int) : ¬ PipeFailure envRoot (rootOnly n) := by
  intro h
  rcases h with h | ⟨i, _, _, hoth⟩ | h | h
  · exact h 0 (by decide) rfl
  · by_cases hi : i = 0
    · exact hoth 1 (by decide) (by omega) rfl
    · exact hoth 0 (by decide) (fun h0 => hi h0.symm) rfl
  · cases h
  · cases h

theorem sys_pipe_cleanup_witness :
    (pipealloc envRoot (rootOnly 1)).2 = some (0, 1) ∧
      ¬ PipeFailure envRoot (rootOnly 1) ∧
      (sys_pipe envRoot (rootOnly 1)).ret? = some (0, some (0, 1)) ∧
      PipeFailure envCopyFails (rootOnly 1) ∧
      (sys_pipe envCopyFails (rootOnly 1)).ret? = some (-1, none) ∧
      (((sys_pipe envRoot (rootOnly 1)).ret? = some (-1, none) ↔
          PipeFailure envRoot (rootOnly 1)) ∧
        (PipeFailure envRoot (rootOnly 1) →
          (sys_pipe envRoot (rootOnly 1)).view (fun s' => s'.ofile) = some (rootOnly 1).ofile ∧
          (sys_pipe envRoot (rootOnly 1)).view (fun s' => s'.trace) =
            some ((pipealloc envRoot (rootOnly 1)).1.trace ++
              [Ev.fileclose 0, Ev.fileclose 1])) ∧
        (¬ PipeFailure envRoot (rootOnly 1) → ∃ fd0 fd1 : Nat,
          (sys_pipe envRoot (rootOnly 1)).ret? = some (0, some ((fd0 : Int), (fd1 : Int))) ∧
          fd0 ≠ fd1 ∧ fd0 < fd1 ∧ fd1 < NOFILE ∧
          (rootOnly 1).ofile fd0 = none ∧ (rootOnly 1).ofile fd1 = none ∧
          (∀ j, j < fd0 → (rootOnly 1).ofile j ≠ none) ∧
          (∀ j, j < fd1 → j ≠ fd0 → (rootOnly 1).ofile j ≠ none) ∧
          (sys_pipe envRoot (rootOnly 1)).view (fun s' => s'.ofile) =
            some (Function.update (Function.update (rootOnly 1).ofile fd0 (some 0)) fd1
              (some 1)) ∧
          (sys_pipe envRoot (rootOnly 1)).view (fun s' => s'.trace) =
            some (pipealloc envRoot (rootOnly 1)).1.trace ∧
          (sys_pipe envRoot (rootOnly 1)).view
              (fun s' => ((s'.files 0).readable, (s'.files 1).writable)) =
            some (true, true))) :=
  ⟨by decide, rootOnly_pipe_no_failure 1, by decide,
    Or.inr (Or.inr (Or.inr (by decide))), by decide,
    sys_pipe_cleanup envRoot (rootOnly 1) 0 1 (by decide)⟩

/-! ## Theorems: the transaction bracket -/

theorem inner_nil : Inner [] := by
  intro e he
  cases he

theorem inner_append (a b : List Ev) (ha : Inner a) (hb : Inner b) : Inner (a ++ b) := by
  intro e he
  rcases List.mem_append.1 he with h | h
  · exact ha e h
  · exact hb e h

theorem inner_single (e : Ev) (h1 : e ≠ Ev.begin_op) (h2 : e ≠ Ev.end_op) : Inner [e] := by
  intro x hx
  rw [List.mem_singleton] at hx
  subst hx
  exact ⟨h1, h2⟩

theorem grows_refl (s : State) : Grows s s :=
  ⟨rfl, [], by simp, inner_nil⟩

theorem grows_trans (a b c : State) (h1 : Grows a b) (h2 : Grows b c) : Grows a c := by
  obtain ⟨hf1, m1, ht1, hi1⟩ := h1
  obtain ⟨hf2, m2, ht2, hi2⟩ := h2
  refine ⟨hf2.trans hf1, m1 ++ m2, ?_, inner_append m1 m2 hi1 hi2⟩
  rw [ht2, ht1, List.append_assoc]

theorem grows_same (s s' : State) (hf : s'.files = s.files) (ht : s'.trace = s.trace) :
    Grows s s' :=
  ⟨hf, [], by simp [ht], inner_nil⟩

theorem grows_log (s : State) (e : Ev) (h1 : e ≠ Ev.begin_op) (h2 : e ≠ Ev.end_op) :
    Grows s (s.log e) :=
  ⟨rfl, [e], rfl, inner_single e h1 h2⟩

theorem grows_iupdate (s : State) (i : Nat) : Grows s (iupdate s i) :=
  grows_log s _ (by intro h; cases h) (by intro h; cases h)

theorem grows_setInode (s : State) (i : Nat) (ip : Inode) : Grows s (s.setInode i ip) :=
  grows_same _ _ rfl rfl

theorem grows_itrunc (s : State) (i : Nat) : Grows s (itrunc s i) :=
  grows_trans _ _ _ (grows_setInode s i _)
    (grows_log _ _ (by intro h; cases h) (by intro h; cases h))

theorem grows_iput (s : State) (i : Nat) (h : Bool) : Grows s (iput s i h) := by
  unfold iput
  split
  · exact grows_trans _ _ _ (grows_itrunc s i)
      (grows_trans _ _ _ (grows_setInode _ i _) (grows_iupdate _ i))
  · exact grows_refl s

theorem grows_iunlockput (env : Env) (s : State) (i : Nat) : Grows s (iunlockput env s i) :=
  grows_iput s i _

theorem grows_writei_dirent (s : State) (i off : Nat) (de : Dirent) :
    Grows s (writei_dirent s i off de) :=
  grows_trans _ _ _ (grows_setInode s i _)
    (grows_log _ _ (by intro h; cases h) (by intro h; cases h))

theorem grows_dirlink (env : Env) (s : State) (dp : Nat) (name : CStr) (inum : Nat) :
    Grows s (dirlink env s dp name inum).1 := by
  unfold dirlink
  split
  · exact grows_refl s
  · simp only
    split
    · exact grows_writei_dirent _ _ _ _
    · exact grows_refl s

theorem grows_ialloc (s : State) (dev : Nat) (type : Int) : Grows s (ialloc s dev type).1 := by
  unfold ialloc
  split
  · exact grows_refl s
  · exact grows_trans _ _ _ (grows_setInode s _ _)
      (grows_log _ _ (by intro h; cases h) (by intro h; cases h))

theorem grows_register (env : Env) (s s' : State) (path : CStr) (ip : Nat) (u : Unit)
    (h : register_fullpath_index env s path ip = Result.ok s' u) : Grows s s' := by
  unfold register_fullpath_index at h
  simp only at h
  split at h
  · cases h
  · split at h
    · cases h
    · split at h
      · cases h
      · split at h
        · cases h
        · injection h with h1 _
          subst h1
          exact grows_same _ _ rfl rfl

theorem grows_create_fail (env : Env) (s s' : State) (dp ip : Nat) (r : Option Nat)
    (h : create_fail env s dp ip = Result.ok s' r) : Grows s s' := by
  unfold create_fail at h
  injection h with h1 _
  subst h1
  exact grows_trans _ _ _ (grows_setInode s ip _)
    (grows_trans _ _ _ (grows_iupdate _ ip)
      (grows_trans _ _ _ (grows_iput _ ip false) (grows_iunlockput env _ dp)))

theorem grows_create_dots (env : Env) (s : State) (type : Int) (dp ip : Nat) :
    Grows s (create_dots env s type dp ip).1 := by
  unfold create_dots
  split
  · simp only
    split
    · exact grows_dirlink env s ip str_dot ip
    · exact grows_trans _ _ _ (grows_dirlink env s ip str_dot ip) (grows_dirlink env _ ip _ dp)
  · exact grows_refl s

theorem grows_create_link (env : Env) (s s' : State) (path : CStr) (type : Int) (dp : Nat)
    (name : CStr) (ip : Nat) (r : Option Nat)
    (h : create_link env s path type dp name ip = Result.ok s' r) : Grows s s' := by
  unfold create_link at h
  simp only at h
  have hd := grows_dirlink env s dp name ip
  split at h
  · exact grows_trans _ _ _ hd (grows_create_fail env _ s' dp ip r h)
  · have h2 : Grows (dirlink env s dp name ip).1
        (iunlockput env
          (if type = T_DIR then
            iupdate ((dirlink env s dp name ip).1.setInode dp
              { (dirlink env s dp name ip).1.inodes dp with
                nlink := ((dirlink env s dp name ip).1.inodes dp).nlink + 1 }) dp
          else (dirlink env s dp name ip).1) dp) := by
      refine grows_trans _ _ _ ?_ (grows_iunlockput env _ dp)
      split
      · exact grows_trans _ _ _ (grows_setInode _ dp _) (grows_iupdate _ dp)
      · exact grows_refl _
    split at h
    · rename_i s4 u hreg
      injection h with h1 _
      subst h1
      exact grows_trans _ _ _ hd (grows_trans _ _ _ h2 (grows_register env _ _ path ip u hreg))
    · cases h
    · cases h
    · cases h

theorem grows_create (env : Env) (s s' : State) (path : CStr) (type major minor flag : Int)
    (r : Option Nat) (h : create env s path type major minor flag = Result.ok s' r) :
    Grows s s' := by
  unfold create at h
  cases hp : env.nameiparent path 1 with
  | none =>
    rw [hp] at h
    injection h with h1 _
    subst h1
    exact grows_refl s
  | some p =>
    obtain ⟨dp, name⟩ := p
    rw [hp] at h
    simp only at h
    cases hl : dirlookup (s.inodes dp) name with
    | some q =>
      obtain ⟨ip, off⟩ := q
      rw [hl] at h
      simp only at h
      split at h
      · injection h with h1 _
        subst h1
        exact grows_iunlockput env s _
      · injection h with h1 _
        subst h1
        exact grows_trans _ _ _ (grows_iunlockput env s _) (grows_iunlockput env _ _)
    | none =>
      rw [hl] at h
      simp only at h
      have ha := grows_ialloc s (s.inodes dp).dev type
      split at h
      · rename_i s1 hal
        injection h with h1 _
        subst h1
        rw [hal] at ha
        exact grows_trans _ _ _ ha (grows_iunlockput env _ dp)
      · rename_i s1 ip hal
        rw [hal] at ha
        simp only at h ha
        have hb : Grows s1
            (iupdate (s1.setInode ip
              { s1.inodes ip with major := major, minor := minor, nlink := 1 }) ip) :=
          grows_trans _ _ _ (grows_setInode s1 ip _) (grows_iupdate _ ip)
        have hc := grows_create_dots env
          (iupdate (s1.setInode ip
            { s1.inodes ip with major := major, minor := minor, nlink := 1 }) ip) type dp ip
        split at h
        · rename_i s4 hdots
          rw [hdots] at hc
          exact grows_trans _ _ _ ha (grows_trans _ _ _ hb
            (grows_trans _ _ _ hc (grows_create_fail env _ s' dp ip r h)))
        · rename_i s4 hdots
          rw [hdots] at hc
          exact grows_trans _ _ _ ha (grows_trans _ _ _ hb
            (grows_trans _ _ _ hc (grows_create_link env _ s' path type dp name ip r h)))

theorem grows_iput_of (a b : State) (i : Nat) (h : Bool) (hg : Grows a b) :
    Grows a (iput b i h) :=
  grows_trans _ _ _ hg (grows_iput b i h)

theorem grows_iunlockput_of (env : Env) (a b : State) (i : Nat) (hg : Grows a b) :
    Grows a (iunlockput env b i) :=
  grows_trans _ _ _ hg (grows_iunlockput env b i)

theorem grows_iupdate_of (a b : State) (i : Nat) (hg : Grows a b) : Grows a (iupdate b i) :=
  grows_trans _ _ _ hg (grows_iupdate b i)

theorem grows_setInode_of (a b : State) (i : Nat) (ip : Inode) (hg : Grows a b) :
    Grows a (b.setInode i ip) :=
  grows_trans _ _ _ hg (grows_setInode b i ip)

theorem grows_writei_of (a b : State) (i off : Nat) (de : Dirent) (hg : Grows a b) :
    Grows a (writei_dirent b i off de) :=
  grows_trans _ _ _ hg (grows_writei_dirent b i off de)

theorem grows_itrunc_of (a b : State) (i : Nat) (hg : Grows a b) : Grows a (itrunc b i) :=
  grows_trans _ _ _ hg (grows_itrunc b i)

theorem begin_op_trace (s : State) : (begin_op s).trace = s.trace ++ [Ev.begin_op] := rfl

theorem end_op_trace (s : State) : (end_op s).trace = s.trace ++ [Ev.end_op] := rfl

/-- A call that opened the bracket, then added events other than brackets,
then closed the bracket. -/
theorem bracket_close (s t s' : State) (m2 : List Ev) (hg : Grows (begin_op s) t)
    (hi2 : Inner m2) (ht : s'.trace = t.trace ++ (m2 ++ [Ev.end_op])) : BracketAdded s s' := by
  obtain ⟨_, m, htm, hi⟩ := hg
  right
  refine ⟨m ++ m2, ?_, inner_append m m2 hi hi2⟩
  rw [ht, htm, begin_op_trace]
  simp

theorem bracket_end (s t : State) (hg : Grows (begin_op s) t) : BracketAdded s (end_op t) :=
  bracket_close s t (end_op t) [] hg inner_nil rfl

theorem link_bad_bracket (env : Env) (s t s' : State) (ip : Nat) (r : Int)
    (hg : Grows (begin_op s) t) (h : link_bad env t ip = Result.ok s' r) :
    BracketAdded s s' := by
  unfold link_bad at h
  injection h with h1 _
  subst h1
  apply bracket_end
  apply_rules [grows_iunlockput_of, grows_iupdate_of, grows_setInode_of]

theorem sys_link_bracket (env : Env) (s s' : State) (old new : Option CStr) (r : Int)
    (h : sys_link env s old new = Result.ok s' r) : BracketAdded s s' := by
  unfold sys_link at h
  split at h
  · simp only at h
    split at h
    · injection h with h1 _
      subst h1
      exact bracket_end s _ (grows_refl _)
    · split at h
      · injection h with h1 _
        subst h1
        exact bracket_end s _ (grows_iunlockput_of env _ _ _ (grows_refl _))
      · rename_i ip _ _
        have h1 : Grows (begin_op s)
            (iupdate ((begin_op s).setInode ip
              { (begin_op s).inodes ip with nlink := ((begin_op s).inodes ip).nlink + 1 }) ip) :=
          grows_iupdate_of _ _ _ (grows_setInode_of _ _ _ _ (grows_refl _))
        split at h
        · exact link_bad_bracket env s _ s' ip r h1 h
        · split at h
          · exact link_bad_bracket env s _ s' ip r (grows_iunlockput_of env _ _ _ h1) h
          · rename_i dp name _ _
            have h2 := grows_trans _ _ _ h1 (grows_dirlink env _ dp name ip)
            split at h
            · exact link_bad_bracket env s _ s' ip r (grows_iunlockput_of env _ _ _ h2) h
            · injection h with h3 _
              subst h3
              exact bracket_end s _ (grows_iput_of _ _ _ _ (grows_iunlockput_of env _ _ _ h2))
  · injection h with h1 _
    subst h1
    exact Or.inl rfl

theorem sys_unlink_bracket (env : Env) (s s' : State) (path : Option CStr) (r : Int)
    (h : sys_unlink env s path = Result.ok s' r) : BracketAdded s s' := by
  unfold sys_unlink at h
  cases path with
  | none =>
    injection h with h1 _
    subst h1
    exact Or.inl rfl
  | some p =>
    simp only at h
    cases hp : env.nameiparent p 0 with
    | none =>
      rw [hp] at h
      injection h with h1 _
      subst h1
      exact bracket_end s _ (grows_refl _)
    | some q =>
      obtain ⟨dp, name⟩ := q
      rw [hp] at h
      simp only at h
      have hbad : ∀ t : State, Grows (begin_op s) t → unlink_bad env t dp = Result.ok s' r →
          BracketAdded s s' := by
        intro t hg hb
        unfold unlink_bad at hb
        injection hb with h1 _
        subst h1
        exact bracket_end s _ (grows_iunlockput_of env _ _ _ hg)
      split at h
      · exact hbad _ (grows_refl _) h
      · cases hl : dirlookup ((begin_op s).inodes dp) name with
        | none =>
          rw [hl] at h
          exact hbad _ (grows_refl _) h
        | some q =>
          obtain ⟨ip, off⟩ := q
          rw [hl] at h
          simp only at h
          split at h
          · cases h
          · split at h
            · cases h
            · split at h
              · cases h
              · cases h
              · split at h
                · exact hbad _ (grows_iunlockput_of env _ _ _ (grows_refl _)) h
                · split at h
                  · cases h
                  · injection h with h1 _
                    subst h1
                    apply bracket_end
                    apply grows_iunlockput_of
                    apply grows_iupdate_of
                    apply grows_setInode_of
                    apply grows_iunlockput_of
                    split
                    · exact grows_iupdate_of _ _ _ (grows_setInode_of _ _ _ _
                        (grows_writei_of _ _ _ _ _ (grows_refl _)))
                    · exact grows_writei_of _ _ _ _ _ (grows_refl _)

theorem create_call_bracket (env : Env) (s s' : State) (p : CStr) (type major minor flag : Int)
    (r : Int)
    (h : (match create env (begin_op s) p type major minor flag with
      | Result.ok s1 none => Result.ok (end_op s1) (-1)
      | Result.ok s1 (some ip) => Result.ok (end_op (iunlockput env s1 ip)) 0
      | Result.panic t m => Result.panic t m
      | Result.deadlock => Result.deadlock
      | Result.undefined => Result.undefined) = Result.ok s' r) : BracketAdded s s' := by
  cases hc : create env (begin_op s) p type major minor flag with
  | ok s1 o =>
    have hg := grows_create env (begin_op s) s1 p type major minor flag o hc
    rw [hc] at h
    cases o with
    | none =>
      injection h with h1 _
      subst h1
      exact bracket_end s _ hg
    | some ip =>
      injection h with h1 _
      subst h1
      exact bracket_end s _ (grows_iunlockput_of env _ _ _ hg)
  | panic t m =>
    rw [hc] at h
    cases h
  | deadlock =>
    rw [hc] at h
    cases h
  | undefined =>
    rw [hc] at h
    cases h

theorem sys_mkdir_bracket (env : Env) (s s' : State) (path : Option CStr) (r : Int)
    (h : sys_mkdir env s path = Result.ok s' r) : BracketAdded s s' := by
  unfold sys_mkdir at h
  cases path with
  | none =>
    injection h with h1 _
    subst h1
    exact bracket_end s _ (grows_refl _)
  | some p => exact create_call_bracket env s s' p T_DIR 0 0 1 r h

theorem sys_mknod_bracket (env : Env) (s s' : State) (path : Option CStr) (major minor r : Int)
    (h : sys_mknod env s path major minor = Result.ok s' r) : BracketAdded s s' := by
  unfold sys_mknod at h
  cases path with
  | none =>
    injection h with h1 _
    subst h1
    exact bracket_end s _ (grows_refl _)
  | some p => exact create_call_bracket env s s' p T_DEVICE _ _ 0 r h

theorem sys_chdir_bracket (env : Env) (s s' : State) (path : Option CStr) (r : Int)
    (h : sys_chdir env s path = Result.ok s' r) : BracketAdded s s' := by
  unfold sys_chdir at h
  cases path with
  | none =>
    injection h with h1 _
    subst h1
    exact bracket_end s _ (grows_refl _)
  | some p =>
    simp only at h
    cases hn : env.namei p with
    | none =>
      rw [hn] at h
      injection h with h1 _
      subst h1
      exact bracket_end s _ (grows_refl _)
    | some ip =>
      rw [hn] at h
      simp only at h
      split at h
      · injection h with h1 _
        subst h1
        exact bracket_end s _ (grows_iunlockput_of env _ _ _ (grows_refl _))
      · injection h with h1 _
        subst h1
        exact bracket_close s (iput (begin_op s) (begin_op s).cwd (env.held (begin_op s).cwd)) _ []
          (grows_iput_of _ _ _ _ (grows_refl _)) inner_nil rfl

theorem grows_end (t t2 : State) (hg : Grows t t2) :
    ∃ m, Inner m ∧ (end_op t2).trace = t.trace ++ (m ++ [Ev.end_op]) := by
  obtain ⟨_, m, ht, hi⟩ := hg
  refine ⟨m, hi, ?_⟩
  rw [end_op_trace, ht, List.append_assoc]

theorem fdalloc_frame (s : State) (f : Nat) :
    (fdalloc s f).1.trace = s.trace ∧ (fdalloc s f).1.files = s.files ∧
      (fdalloc s f).1.inodes = s.inodes := by
  by_cases he : ∃ i, i < NOFILE ∧ s.ofile i = none
  · obtain ⟨i, _, _, _, _, _, _, hst⟩ := (fdalloc_cases s f).1 he
    rw [hst]
    exact ⟨rfl, rfl, rfl⟩
  · have hfull : ∀ i, i < NOFILE → s.ofile i ≠ none := fun i hi hn => he ⟨i, hi, hn⟩
    rw [((fdalloc_cases s f).2 hfull).2]
    exact ⟨rfl, rfl, rfl⟩

/-- The part of `sys_open` after the inode is obtained adds events other than
brackets and then closes the bracket, provided free open-file objects are
retired, so that closing the fresh object releases no inode. -/
theorem open_inode_trace (env : Env) (t s' : State) (p : CStr) (omode ip : Nat) (r : Int)
    (hpool : PoolRetired t) (h : open_inode env t p omode ip = Result.ok s' r) :
    ∃ m, Inner m ∧ s'.trace = t.trace ++ (m ++ [Ev.end_op]) := by
  unfold open_inode at h
  split at h
  · injection h with h1 _
    subst h1
    exact grows_end t _ (grows_iunlockput env t ip)
  · split at h
    · injection h with h1 _
      subst h1
      exact grows_end t _ (grows_iunlockput env t ip)
    · rcases filealloc_cases t with h0 | ⟨f, hz, h0⟩
      · rw [h0] at h
        simp only at h
        injection h with h1 _
        subst h1
        exact grows_end t _ (grows_iunlockput env t ip)
      · rw [h0] at h
        simp only at h
        obtain ⟨hft, hff, _⟩ := fdalloc_frame
          { t with files := Function.update t.files f { t.files f with ref := 1 } } f
        split at h
        · injection h with h1 _
          subst h1
          have hty : ¬ ((((fdalloc
              { t with files := Function.update t.files f { t.files f with ref := 1 } } f).1.files
              f).type = FD_INODE) ∨
              (((fdalloc
              { t with files := Function.update t.files f { t.files f with ref := 1 } } f).1.files
              f).type = FD_DEVICE)) := by
            rw [hff]
            simp only [Function.update_same]
            rw [hpool f hz]
            decide
          obtain ⟨_, htr, _⟩ := fileclose_plain env _ f hty
          obtain ⟨_, m, hm, hi⟩ := grows_iunlockput env
            (fileclose env (fdalloc
              { t with files := Function.update t.files f { t.files f with ref := 1 } } f).1 f) ip
          refine ⟨[Ev.fileclose f] ++ m,
            inner_append _ _ (inner_single _ (by intro h; cases h) (by intro h; cases h)) hi, ?_⟩
          rw [end_op_trace, hm, htr, hft]
          simp
        · injection h with h1 _
          subst h1
          split
          · refine ⟨[Ev.itrunc ip],
              inner_single _ (by intro h; cases h) (by intro h; cases h), ?_⟩
            rw [end_op_trace]
            simp only [itrunc, State.log, State.setInode, hft]
            simp
          · refine ⟨[], inner_nil, ?_⟩
            rw [end_op_trace]
            simp only [hft]
            simp

theorem sys_open_bracket (env : Env) (s s' : State) (path : Option CStr) (omode : Nat) (r : Int)
    (hpool : PoolRetired s) (h : sys_open env s path omode = Result.ok s' r) :
    BracketAdded s s' := by
  unfold sys_open at h
  cases path with
  | none =>
    injection h with h1 _
    subst h1
    exact Or.inl rfl
  | some p =>
    simp only at h
    have hopen : ∀ (t : State) (ip : Nat), Grows (begin_op s) t →
        open_inode env t p omode ip = Result.ok s' r → BracketAdded s s' := by
      intro t ip hg ho
      have hp : PoolRetired t := by
        intro f hf
        rw [hg.1] at hf ⊢
        exact hpool f hf
      obtain ⟨m, hi, ht⟩ := open_inode_trace env t s' p omode ip r hp ho
      exact bracket_close s t s' m hg hi ht
    split at h
    · cases hc : create env (begin_op s) p T_FILE 0 0 0 with
      | ok s1 o =>
        have hg := grows_create env (begin_op s) s1 p T_FILE 0 0 0 o hc
        rw [hc] at h
        cases o with
        | none =>
          injection h with h1 _
          subst h1
          exact bracket_end s _ hg
        | some ip => exact hopen s1 ip hg h
      | panic t m =>
        rw [hc] at h
        cases h
      | deadlock =>
        rw [hc] at h
        cases h
      | undefined =>
        rw [hc] at h
        cases h
    · cases hn : env.namei p with
      | none =>
        rw [hn] at h
        injection h with h1 _
        subst h1
        exact bracket_end s _ (grows_refl _)
      | some ip =>
        rw [hn] at h
        simp only at h
        split at h
        · injection h with h1 _
          subst h1
          exact bracket_end s _ (grows_iunlockput_of env _ _ _ (grows_refl _))
        · exact hopen _ ip (grows_refl _) h

theorem inner_count (m : List Ev) (hm : Inner m) :
    m.count Ev.begin_op = 0 ∧ m.count Ev.end_op = 0 := by
  constructor
  · rw [List.count_eq_zero]
    intro hmem
    exact (hm _ hmem).1 rfl
  · rw [List.count_eq_zero]
    intro hmem
    exact (hm _ hmem).2 rfl

/-- The counts behind `BracketAdded`: as many `end_op` as `begin_op` among the
events added, and at most one of each. -/
theorem bracket_counts (s s' : State) (h : BracketAdded s s') :
    (added s s').count Ev.begin_op = (added s s').count Ev.end_op ∧
      (added s s').count Ev.begin_op ≤ 1 := by
  unfold added
  rcases h with h | ⟨m, ht, hi⟩
  · subst h
    simp
  · obtain ⟨h1, h2⟩ := inner_count m hi
    rw [ht, List.drop_left]
    simp [List.count_cons, List.count_append, h1, h2]

/-- C16: whenever one of sys_link, sys_unlink, sys_open, sys_mkdir, sys_mknod
and sys_chdir returns to the caller, with any return value, the call either
did nothing at all or added to the record one `begin_op`, then events other
than brackets, then one `end_op`: the events it added hold as many `end_op` as
`begin_op`, at most one of each, and every recorded store call lies between
the two. For sys_open the free open-file objects are taken to be retired, as
`fileclose` leaves them, so that closing the fresh object on the failure path
releases no inode. -/
theorem transaction_bracket_balance (env : Env) (s s' : State) (r : Int)
    (old new path : Option CStr) (omode : Nat) (major minor : Int)
    (hret : sys_link env s old new = Result.ok s' r ∨
      sys_unlink env s path = Result.ok s' r ∨
      (PoolRetired s ∧ sys_open env s path omode = Result.ok s' r) ∨
      sys_mkdir env s path = Result.ok s' r ∨
      sys_mknod env s path major minor = Result.ok s' r ∨
      sys_chdir env s path = Result.ok s' r) :
    BracketAdded s s' ∧
      (added s s').count Ev.begin_op = (added s s').count Ev.end_op ∧
      (added s s').count Ev.begin_op ≤ 1 := by
  have hb : BracketAdded s s' := by
    rcases hret with h | h | ⟨hp, h⟩ | h | h | h
    · exact sys_link_bracket env s s' old new r h
    · exact sys_unlink_bracket env s s' path r h
    · exact sys_open_bracket env s s' path omode r hp h
    · exact sys_mkdir_bracket env s s' path r h
    · exact sys_mknod_bracket env s s' path major minor r h
    · exact sys_chdir_bracket env s s' path r h
  exact ⟨hb, bracket_counts s s' hb⟩

theorem transaction_bracket_balance_witness :
    (PoolRetired (rootWithFile 1) ∧
        sys_open envFile (rootWithFile 1) (some path_a) O_RDONLY =
          Result.ok ((sys_open envFile (rootWithFile 1) (some path_a) O_RDONLY).stateOr
            (rootWithFile 1)) 0) ∧
      (BracketAdded (rootWithFile 1)
          ((sys_open envFile (rootWithFile 1) (some path_a) O_RDONLY).stateOr (rootWithFile 1)) ∧
        (added (rootWithFile 1)
            ((sys_open envFile (rootWithFile 1) (some path_a) O_RDONLY).stateOr
              (rootWithFile 1))).count Ev.begin_op =
          (added (rootWithFile 1)
            ((sys_open envFile (rootWithFile 1) (some path_a) O_RDONLY).stateOr
              (rootWithFile 1))).count Ev.end_op ∧
        (added (rootWithFile 1)
            ((sys_open envFile (rootWithFile 1) (some path_a) O_RDONLY).stateOr
              (rootWithFile 1))).count Ev.begin_op ≤ 1) :=
  ⟨⟨fun _ _ => rfl, rfl⟩,
    transaction_bracket_balance envFile (rootWithFile 1)
      ((sys_open envFile (rootWithFile 1) (some path_a) O_RDONLY).stateOr (rootWithFile 1)) 0
      none none (some path_a) O_RDONLY 0 0 (Or.inr (Or.inr (Or.inl ⟨fun _ _ => rfl, rfl⟩)))⟩
end Sysfile
